import Mathlib

/-!
# forked-daapd: the command base (src/commands.c)

A shallow embedding of `src/commands.c`.  The C code runs on two kinds of
threads: caller threads, which submit a command and (for a blocking command)
sleep in `pthread_cond_wait`, and the single event-loop thread, which runs
`command_cb` and the completion function `commands_exec_end`.

The embedding is sequential state passing over a `World`:

* memory holding `struct command` objects is a total map from addresses to
  records (`World.mem`); a command reference is an address;
* the command pipe is a FIFO of references (`commands_base.command_pipe`);
  what `read(2)` / `write(2)` return is an input of the model;
* `command_event` is the libevent registration; it is created with `EV_READ`
  only (not persistent), so it is consumed when it fires and `event_add`
  registers it again;
* every externally visible action (mutex, condition variable, function call,
  `free`, `event_add`, ...) is appended to `World.trace`, oldest first;
* a caller blocked in `pthread_cond_wait` is an entry of `World.waiting`;
  while it sleeps only the event-loop thread runs (`reactor_run`), and it wakes
  only when `pthread_cond_signal` is called on its condition variable.

Assumptions of the model:

* a function of a collaborator acts on its argument and on the result slot
  only: it does not call back into the command base;
* the pipe is modelled at the granularity of whole references: a `write` that
  does not return `sizeof(cmd)` leaves no reference in the pipe;
* C `int` values are integers; the one arithmetic operation of the file, the
  decrement `pending--`, is reduced to 32 bits (`int_dec`);
* a step of the event-loop thread is not interleaved with the caller: the trace
  shows the `read` of the dispatcher after the caller has entered
  `pthread_cond_wait`, and the `event_add` that ends a dispatch before what the
  woken caller does next.  The code orders neither pair, so the trace is one of
  the orders the code allows; a statement that orders actions of a caller
  against actions of the event-loop thread goes through `is_sequenced`, which
  leaves these two actions out;
* diagnostics (`DPRINTF`) are not part of the model.
-/

namespace Commands

/-! ## Machine integers -/

/-- Smallest value of a C `int` (32 bit). -/
def INT_MIN : Int := -2147483648

/-- Largest value of a C `int` (32 bit). -/
def INT_MAX : Int := 2147483647

/-- Reduction of an integer to the range of a 32-bit two's complement `int`. -/
def wrap32 (x : Int) : Int := (x + 2147483648) % 4294967296 - 2147483648

/-- The C expression `x--` on an `int` object: the stored value after the decrement. -/
def int_dec (x : Int) : Int := wrap32 (x - 1)

/-- The size in bytes of a command reference, `sizeof(struct command *)` (LP64). -/
def sizeof_cmd : Int := 8

/-! ## Data model -/

/-- Modelled from the spec: `enum command_state` is declared in `commands.h`, which is
not among the sources; the spec gives the two states a primary function reports, DONE
(`COMMAND_END` in `commands.c`) and PENDING (`COMMAND_PENDING`). -/
inductive command_state
  | COMMAND_END
  | COMMAND_PENDING
  deriving DecidableEq, Repr

open command_state

/-- Modelled from the spec: the function pointer type `command_function` is declared in
`commands.h`; `commands.c` calls it as `func(arg, &ret)`, yielding a `command_state`.
A value of this type is a piece of code the event loop can call:

* `collab f` is a function of a collaborator: given the argument and the current content
  of the result slot it yields the reported state and the new content of the result slot
  (a function that does not write `*retval` returns the old content);
* `cmdloop_exit` is the static function of that name in `commands.c`. -/
inductive command_function
  | collab (f : Nat → Int → command_state × Int)
  | cmdloop_exit

/-- The record `struct command`.  The mutex and the condition variable are identified with
the address of the command; `func` and `func_bh` are `none` for a NULL pointer; `arg` is an
address, `0` for NULL. -/
structure command where
  func : Option command_function
  func_bh : Option command_function
  arg : Nat
  nonblock : Int
  ret : Int
  pending : Int

/-- The record `struct commands_base`.

* `evbase`: `true` once `event_base_loopbreak` was requested on the event base;
* `exit_cb`: whether the exit callback is non-NULL;
* `command_pipe`: the references written to the pipe and not yet read, oldest first;
* `pipe_open`: whether the two pipe descriptors are open;
* `command_event`: whether the read event is registered (armed) with the event base;
* `current_cmd`: the pending command, `none` for NULL. -/
structure commands_base where
  evbase : Bool
  exit_cb : Bool
  command_pipe : List Nat
  pipe_open : Bool
  command_event : Bool
  current_cmd : Option Nat

/-- Externally visible actions, in the order the code performs them. -/
inductive Event
  | mutex_lock (cmd : Nat)
  | mutex_unlock (cmd : Nat)
  | cond_wait (cmd : Nat)
  | cond_signal (cmd : Nat)
  | func (cmd : Nat) (arg : Nat)
  | func_bh (cmd : Nat) (arg : Nat)
  | free (ptr : Nat)
  | event_add
  | write (cmd : Nat) (n : Int)
  | read (n : Int)
  | exit_cb
  | loopbreak
  | close_pipe
  | free_base
  deriving DecidableEq, Repr

/-- The state of the process as far as `commands.c` is concerned.

* `mem`: the `struct command` stored at each address;
* `cmdbase`: the command base;
* `waiting`: the commands whose caller sleeps in `pthread_cond_wait`;
* `fault`: set when the code dereferenced or called a NULL pointer;
* `trace`: the actions performed so far, oldest first. -/
structure World where
  mem : Nat → command
  cmdbase : commands_base
  waiting : List Nat
  fault : Bool
  trace : List Event

/-! ## Primitive actions -/

/-- Append one action to the trace. -/
def emit (s : World) (e : Event) : World :=
  { s with trace := s.trace ++ [e] }

/-- Store `c` at address `p`. -/
def store (s : World) (p : Nat) (c : command) : World :=
  { s with mem := fun q => if q = p then c else s.mem q }

/-- Assignment `cmd->ret = v`. -/
def set_ret (s : World) (cmd : Nat) (v : Int) : World :=
  store s cmd { s.mem cmd with ret := v }

/-- Assignment `cmd->pending = v`. -/
def set_pending (s : World) (cmd : Nat) (v : Int) : World :=
  store s cmd { s.mem cmd with pending := v }

/-- Assignment `cmdbase->current_cmd = p`. -/
def set_current (s : World) (p : Option Nat) : World :=
  { s with cmdbase := { s.cmdbase with current_cmd := p } }

/-- The content of the command pipe becomes `p`. -/
def set_pipe (s : World) (p : List Nat) : World :=
  { s with cmdbase := { s.cmdbase with command_pipe := p } }

/-- The read event becomes registered (`true`) or not registered (`false`). -/
def set_event (s : World) (b : Bool) : World :=
  { s with cmdbase := { s.cmdbase with command_event := b } }

/-- The call `event_add(cmdbase->command_event, NULL)`: the read event is armed. -/
def event_add (s : World) : World :=
  emit (set_event s true) Event.event_add

/-- The call `pthread_cond_signal(&cmd->cond)`: a caller sleeping on the condition of
`cmd` is woken. -/
def pthread_cond_signal (s : World) (cmd : Nat) : World :=
  emit { s with waiting := s.waiting.filter (fun c => c ≠ cmd) } (Event.cond_signal cmd)

/-- The call `pthread_cond_wait(&cmd.cond, &cmd.lck)` up to the point where the caller
sleeps. -/
def pthread_cond_wait (s : World) (cmd : Nat) : World :=
  emit { s with waiting := cmd :: s.waiting.filter (fun c => c ≠ cmd) } (Event.cond_wait cmd)

/-! ## commands.c -/

/-- The function `cmdloop_exit` of `commands.c`: sets `*retval = 0`, calls the exit
callback when there is one, breaks the event loop and returns `COMMAND_END`. -/
def cmdloop_exit (s : World) : command_state × Int × World :=
  let s1 := if s.cmdbase.exit_cb = true then emit s Event.exit_cb else s
  let s2 := emit { s1 with cmdbase := { s1.cmdbase with evbase := true } } Event.loopbreak
  (COMMAND_END, 0, s2)

/-- The call `fn(arg, &ret)` where `ret` currently holds `r`: the reported state, the new
content of `ret`, and the new world. -/
def call_function (fn : command_function) (arg : Nat) (r : Int) (s : World) :
    command_state × Int × World :=
  match fn with
  | command_function.collab f => ((f arg r).1, (f arg r).2, s)
  | command_function.cmdloop_exit => cmdloop_exit s

/-- The statement `cmd->func_bh(cmd->arg, &cmd->ret)`; the state the bottom half reports is
discarded, as in the source. -/
def run_func_bh (s : World) (cmd : Nat) (bh : command_function) : World :=
  let s1 := emit s (Event.func_bh cmd (s.mem cmd).arg)
  let r := call_function bh (s1.mem cmd).arg (s1.mem cmd).ret s1
  set_ret r.2.2 cmd r.2.1

/-- The function `command_cb_async` of `commands.c`. -/
def command_cb_async (s : World) (cmd : Nat) : World :=
  match (s.mem cmd).func with
  | none => { s with fault := true }
  | some fn =>
    let s1 := emit s (Event.func cmd (s.mem cmd).arg)
    let r := call_function fn (s1.mem cmd).arg (s1.mem cmd).ret s1
    let s2 := set_ret r.2.2 cmd r.2.1
    let s3 := if r.1 ≠ COMMAND_PENDING ∧ (s2.mem cmd).arg ≠ 0
      then emit s2 (Event.free (s2.mem cmd).arg) else s2
    let s4 := emit s3 (Event.free cmd)
    event_add s4

/-- The function `command_cb_sync` of `commands.c`. -/
def command_cb_sync (s : World) (cmd : Nat) : World :=
  let s0 := emit s (Event.mutex_lock cmd)
  match (s0.mem cmd).func with
  | none => { s0 with fault := true }
  | some fn =>
    let s1 := emit s0 (Event.func cmd (s0.mem cmd).arg)
    let r := call_function fn (s1.mem cmd).arg (s1.mem cmd).ret s1
    let s2 := set_ret r.2.2 cmd r.2.1
    if r.1 = COMMAND_PENDING then
      let s3 := set_current s2 (some cmd)
      set_pending s3 cmd (s3.mem cmd).ret
    else
      let s3 := if (s2.mem cmd).ret = 0 then
          match (s2.mem cmd).func_bh with
          | some bh => run_func_bh s2 cmd bh
          | none => s2
        else s2
      let s4 := pthread_cond_signal s3 cmd
      let s5 := emit s4 (Event.mutex_unlock cmd)
      event_add s5

/-- The call `read(cmdbase->command_pipe[0], &cmd, sizeof(cmd))` returning `n`: the value
left in `cmd` and the world afterwards.  A read of `sizeof(cmd)` bytes takes the oldest
reference out of the pipe; a read that returns no data (`n ≤ 0`) leaves the pipe as it is;
a short read consumes part of the oldest reference, which is lost.  A read of
`sizeof(cmd)` bytes from an empty pipe leaves the address `0` in `cmd`. -/
def read_command (s : World) (n : Int) : Nat × World :=
  let s1 := emit s (Event.read n)
  match s1.cmdbase.command_pipe with
  | [] => (0, s1)
  | c :: rest =>
    if n = sizeof_cmd then (c, set_pipe s1 rest)
    else if n ≤ 0 then (0, s1)
    else (0, set_pipe s1 rest)

/-- The function `command_cb` of `commands.c`; `n` is what `read` returns. -/
def command_cb (s : World) (n : Int) : World :=
  let r := read_command s n
  if n ≠ sizeof_cmd then event_add r.2
  else if (r.2.mem r.1).nonblock ≠ 0 then command_cb_async r.2 r.1
  else command_cb_sync r.2 r.1

/-- The function `send_command` of `commands.c`; `n` is what `write` returns.  A write of
`sizeof(cmd)` bytes puts the reference into the pipe; any other result puts no full
reference into it. -/
def send_command (s : World) (cmd : Nat) (n : Int) : Int × World :=
  match (s.mem cmd).func with
  | none => (-1, s)
  | some _ =>
    let s1 := emit s (Event.write cmd n)
    if n ≠ sizeof_cmd then (-1, s1)
    else (0, set_pipe s1 (s1.cmdbase.command_pipe ++ [cmd]))

/-- The function `commands_exec_returnvalue` of `commands.c`. -/
def commands_exec_returnvalue (s : World) : Int :=
  match s.cmdbase.current_cmd with
  | none => 0
  | some cmd => (s.mem cmd).ret

/-- The function `commands_exec_end` of `commands.c`. -/
def commands_exec_end (s : World) (retvalue : Int) : World :=
  match s.cmdbase.current_cmd with
  | none => s
  | some cmd =>
    let s1 := set_pending s cmd (int_dec (s.mem cmd).pending)
    let s2 := set_ret s1 cmd retvalue
    if (s2.mem cmd).pending > 0 then s2
    else
      let s3 := match (s2.mem cmd).func_bh with
        | some bh => run_func_bh s2 cmd bh
        | none => s2
      let s4 := pthread_cond_signal s3 cmd
      let s5 := emit s4 (Event.mutex_unlock cmd)
      let s6 := set_current s5 none
      event_add s6

/-! ## The event loop -/

/-- What the event-loop thread does next while callers sleep:

* `wake n`: libevent finds the command pipe readable; if the read event is armed it is
  consumed and `command_cb` runs, its `read` returning `n`;
* `exec_end v`: a callback of a collaborator calls `commands_exec_end(cmdbase, v)`. -/
inductive ReactorStep
  | wake (n : Int)
  | exec_end (v : Int)
  deriving DecidableEq, Repr

/-- One step of the event-loop thread. -/
def reactor_step (s : World) : ReactorStep → World
  | ReactorStep.wake n =>
    if s.cmdbase.command_event = true ∧ s.cmdbase.command_pipe ≠ [] then
      command_cb (set_event s false) n
    else s
  | ReactorStep.exec_end v => commands_exec_end s v

/-- The event-loop thread runs the given steps for as long as the caller of `cmd` sleeps. -/
def reactor_run (s : World) (cmd : Nat) : List ReactorStep → World
  | [] => s
  | st :: rest =>
    if cmd ∈ s.waiting then reactor_run (reactor_step s st) cmd rest else s

/-- The function `commands_exec_sync` of `commands.c`, called by a thread whose local
`struct command cmd` lives at address `cmd`; `n` is what `write` returns in `send_command`
and `sched` is what the event-loop thread does while the caller sleeps.  The result is
`none` when the caller is still asleep at the end of `sched`. -/
def commands_exec_sync (s : World) (cmd : Nat) (func func_bh : Option command_function)
    (arg : Nat) (n : Int) (sched : List ReactorStep) : Option Int × World :=
  let s1 := store s cmd
    { func := func, func_bh := func_bh, arg := arg, nonblock := 0, ret := 0, pending := 0 }
  let s2 := emit s1 (Event.mutex_lock cmd)
  let r := send_command s2 cmd n
  if r.1 < 0 then (some (-1), emit r.2 (Event.mutex_unlock cmd))
  else
    let s3 := pthread_cond_wait r.2 cmd
    let s4 := reactor_run s3 cmd sched
    if cmd ∈ s4.waiting then (none, s4)
    else (some (s4.mem cmd).ret, emit s4 (Event.mutex_unlock cmd))

/-- The function `commands_exec_async` of `commands.c`; `alloc` is what `calloc` returns
(`0` for NULL) and `n` is what `write` returns in `send_command`.  The result is `none`
when the function does not return because it wrote through a NULL pointer. -/
def commands_exec_async (s : World) (alloc : Nat) (func : Option command_function)
    (arg : Nat) (n : Int) : Option Int × World :=
  if alloc = 0 then (none, { s with fault := true })
  else
    let s1 := store s alloc
      { func := func, func_bh := none, arg := arg, nonblock := 1, ret := 0, pending := 0 }
    let r := send_command s1 alloc n
    if r.1 < 0 then (some (-1), emit r.2 (Event.free alloc))
    else (some 0, r.2)

/-- The state `commands_base_new` returns on success: the base is zero-initialised by
`calloc`, the pipe is created and the read event is armed by `event_add`. -/
def commands_base_new (mem : Nat → command) (exit_cb : Bool) : World :=
  { mem := mem
    cmdbase := { evbase := false, exit_cb := exit_cb, command_pipe := [], pipe_open := true,
                 command_event := true, current_cmd := none }
    waiting := []
    fault := false
    trace := [Event.event_add] }

/-- A command base that is idle: nothing is in the pipe, no command is pending and the read
event is armed. -/
def Idle (s : World) : Prop :=
  s.cmdbase.command_pipe = [] ∧ s.cmdbase.current_cmd = none ∧ s.cmdbase.command_event = true

/-! ## Auxiliary definitions for the statements -/

/-- Whether an action is a call of a bottom half. -/
def is_func_bh : Event → Bool
  | Event.func_bh _ _ => true
  | _ => false

/-- Whether an action is a call of a primary function. -/
def is_func : Event → Bool
  | Event.func _ _ => true
  | _ => false

/-- The state in which the caller of `commands_exec_sync` falls asleep: its command is
filled in at address `cmd`, the mutex is taken, the reference is written to the pipe in
full and `pthread_cond_wait` has been entered. -/
def submitted (s : World) (cmd : Nat) (func func_bh : Option command_function)
    (arg : Nat) : World :=
  pthread_cond_wait (send_command (emit (store s cmd
    { func := func, func_bh := func_bh, arg := arg, nonblock := 0, ret := 0, pending := 0 })
    (Event.mutex_lock cmd)) cmd sizeof_cmd).2 cmd

/-- The address `cmd` is not in use by the command base: no reference to it is in the pipe
and it is not the pending command. -/
def Fresh (cmd : Nat) (s : World) : Prop :=
  cmd ∉ s.cmdbase.command_pipe ∧ s.cmdbase.current_cmd ≠ some cmd

/-- The event loop has not yet taken the blocking command `cmd` (with content `c`) out of
the pipe, or has lost it to a short read; its caller sleeps and the command is not the
pending one. -/
def Queued (cmd : Nat) (c : command) (w : World) : Prop :=
  w.cmdbase.current_cmd ≠ some cmd ∧ cmd ∈ w.waiting ∧ w.mem cmd = c ∧
    w.cmdbase.command_pipe.count cmd ≤ 1

/-- A memory in which no command has been set up. -/
def mem_zero : Nat → command :=
  fun _ => { func := none, func_bh := none, arg := 0, nonblock := 0, ret := 0, pending := 0 }

/-- A primary function counts its steps: whenever it reports `COMMAND_PENDING`, the result
slot holds a number of outstanding steps of at least 1 (and, being an `int`, of at most
`INT_MAX`). -/
def CountsSteps (fn : command_function) : Prop :=
  ∀ (arg : Nat) (r : Int) (w : World), (call_function fn arg r w).1 = COMMAND_PENDING →
    1 ≤ (call_function fn arg r w).2.1 ∧ (call_function fn arg r w).2.1 ≤ INT_MAX

/-- The states reachable from a freshly constructed command base when every submitted
primary function satisfies `P`: callers submit blocking and nonblocking commands at
addresses the command base does not refer to, the event-loop thread dispatches commands and
calls `commands_exec_end`, and woken callers release their mutex. -/
inductive Reachable (P : command_function → Prop) : World → Prop
  | new (mem : Nat → command) (exit_cb : Bool) : Reachable P (commands_base_new mem exit_cb)
  | exec_sync (s : World) (cmd : Nat) (func func_bh : Option command_function) (arg : Nat)
      (n : Int) : Reachable P s → Fresh cmd s → (∀ fn, func = some fn → P fn) →
      Reachable P (commands_exec_sync s cmd func func_bh arg n []).2
  | exec_async (s : World) (alloc : Nat) (func : Option command_function) (arg : Nat)
      (n : Int) : Reachable P s → Fresh alloc s → (∀ fn, func = some fn → P fn) →
      Reachable P (commands_exec_async s alloc func arg n).2
  | step (s : World) (st : ReactorStep) : Reachable P s → Reachable P (reactor_step s st)
  | woken (s : World) (cmd : Nat) : Reachable P s →
      Reachable P (emit s (Event.mutex_unlock cmd))

/-- The pending command, if there is one, has a positive counter, and every command in
the pipe has a primary function that counts its steps. -/
def PendingInv (s : World) : Prop :=
  (∀ c, s.cmdbase.current_cmd = some c →
    1 ≤ (s.mem c).pending ∧ (s.mem c).pending ≤ INT_MAX) ∧
  (∀ c ∈ s.cmdbase.command_pipe, ∀ fn, (s.mem c).func = some fn → CountsSteps fn)

end Commands

/-!
# forked-daapd: service discovery (src/mdns_avahi.c)

The link-local filter of `browse_record_callback` and the conversion of a host name to
DNS label format in `create_group_entry`.  The bytes of an address are values of
`Fin 256`; the buffer `rdata` of the conversion is a list of numbers, and a count stored
into it is reduced to a byte.  The types `AvahiIPv4Address`, `AvahiIPv6Address`,
`AvahiAddress`, `AvahiProtocol` and `AvahiBrowserEvent` belong to the Avahi library and are
modelled as far as the code reads them.
-/

namespace MdnsAvahi

/-- The macro `IPV4LL_NETWORK` of `mdns_avahi.c`. -/
def IPV4LL_NETWORK : Nat := 0xA9FE0000

/-- The macro `IPV4LL_NETMASK` of `mdns_avahi.c`. -/
def IPV4LL_NETMASK : Nat := 0xFFFF0000

/-- The macro `IPV6LL_NETWORK` of `mdns_avahi.c`. -/
def IPV6LL_NETWORK : Nat := 0xFE80

/-- The macro `IPV6LL_NETMASK` of `mdns_avahi.c`. -/
def IPV6LL_NETMASK : Nat := 0xFFC0

/-- An IPv4 address as Avahi stores it: the field `uint32_t address` holds the address in
network byte order; `o0` to `o3` are its four bytes in memory, `o0` first. -/
structure AvahiIPv4Address where
  o0 : Fin 256
  o1 : Fin 256
  o2 : Fin 256
  o3 : Fin 256
  deriving DecidableEq, Repr

/-- An IPv6 address as Avahi stores it: the field `uint8_t address[16]`. -/
structure AvahiIPv6Address where
  address : List (Fin 256)
  deriving DecidableEq, Repr

/-- The value `ntohl(addr->address)`: the four bytes read as a number with the first byte
in memory as the most significant one. -/
def ntohl (addr : AvahiIPv4Address) : Nat :=
  addr.o0.val * 2 ^ 24 + addr.o1.val * 2 ^ 16 + addr.o2.val * 2 ^ 8 + addr.o3.val

/-- The function `is_v4ll` of `mdns_avahi.c`. -/
def is_v4ll (addr : AvahiIPv4Address) : Bool :=
  (ntohl addr &&& IPV4LL_NETMASK) == IPV4LL_NETWORK

/-- The function `is_v6ll` of `mdns_avahi.c`. -/
def is_v6ll (addr : AvahiIPv6Address) : Bool :=
  ((((addr.address.getD 0 0).val <<< 8) ||| (addr.address.getD 1 0).val) &&& IPV6LL_NETMASK)
    == IPV6LL_NETWORK

/-- The protocols `AVAHI_PROTO_INET`, `AVAHI_PROTO_INET6` and `AVAHI_PROTO_UNSPEC`. -/
inductive AvahiProtocol
  | INET
  | INET6
  | UNSPEC
  deriving DecidableEq, Repr

/-- The record `AvahiAddress` once `avahi_address_make` has filled it in: the protocol and
the member of the union that belongs to it. -/
inductive AvahiAddress
  | ipv4 (a : AvahiIPv4Address)
  | ipv6 (a : AvahiIPv6Address)
  deriving DecidableEq, Repr

/-- The function `avahi_address_make` of `mdns_avahi.c`; `rdata` are the `size` bytes of
the record.  The result is `none` where the function returns -1. -/
def avahi_address_make (proto : AvahiProtocol) (rdata : List (Fin 256)) : Option AvahiAddress :=
  match proto with
  | AvahiProtocol.INET =>
    match rdata with
    | [o0, o1, o2, o3] => some (AvahiAddress.ipv4 ⟨o0, o1, o2, o3⟩)
    | _ => none
  | AvahiProtocol.INET6 =>
    if rdata.length = 16 then some (AvahiAddress.ipv6 ⟨rdata⟩) else none
  | AvahiProtocol.UNSPEC => none

/-- The events of an Avahi browser. -/
inductive AvahiBrowserEvent
  | NEW
  | REMOVE
  | CACHE_EXHAUSTED
  | ALL_FOR_NOW
  | FAILURE
  deriving DecidableEq, Repr

/-- What `browse_record_callback` does with a record:

* `not_handled`: the event is `AVAHI_BROWSER_REMOVE`, the function returns at once;
* `stopped`: an event other than `NEW`, the record browser is freed;
* `bad_record`: `avahi_address_make` failed, the function returns;
* `link_local`: the address is link-local, the announcement is ignored and the function
  returns;
* `delivered addr`: the browse callback `mb->cb` is called with the address, then the
  record browser is freed. -/
inductive RecordOutcome
  | not_handled
  | stopped
  | bad_record
  | link_local
  | delivered (addr : AvahiAddress)
  deriving DecidableEq, Repr

/-- The function `browse_record_callback` of `mdns_avahi.c`. -/
def browse_record_callback (event : AvahiBrowserEvent) (proto : AvahiProtocol)
    (rdata : List (Fin 256)) : RecordOutcome :=
  if event = AvahiBrowserEvent.REMOVE then RecordOutcome.not_handled
  else if event ≠ AvahiBrowserEvent.NEW then RecordOutcome.stopped
  else
    match avahi_address_make proto rdata with
    | none => RecordOutcome.bad_record
    | some addr =>
      if (match addr with
          | AvahiAddress.ipv4 a => is_v4ll a
          | AvahiAddress.ipv6 a => is_v6ll a) = true
      then RecordOutcome.link_local
      else RecordOutcome.delivered addr

/-- The byte `'.'`. -/
def DOT : Nat := 46

/-- The bytes of the string `".local"`. -/
def dot_local : List Nat := [46, 108, 111, 99, 97, 108]

/-- The call `snprintf(rdata, size, ".%s.local", hostname)`, `hostname` being the bytes of
the host name up to its terminator: the value returned (the length of the whole string) and
the content of `rdata` (the string cut to `size - 1` bytes, and the terminator). -/
def snprintf_dot_local (size : Nat) (hostname : List Nat) : Int × List Nat :=
  (((DOT :: hostname ++ dot_local).length : Int),
    (DOT :: hostname ++ dot_local).take (size - 1) ++ [0])

/-- The conversion loop of `create_group_entry`,
`for (i = ret - 1; i >= 0; i--)`, with `k = i + 1`: a `'.'` at index `i` is overwritten with
`count` (stored into a `char`, so reduced to a byte) and `count` starts again from 0, any
other byte adds one to `count`. -/
def cname_loop : Nat → List Nat → Nat → List Nat
  | 0, rdata, _ => rdata
  | k + 1, rdata, count =>
    if rdata.getD k 0 = DOT then cname_loop k (rdata.set k (count % 256)) 0
    else cname_loop k rdata (count + 1)

/-- The CNAME branch of `create_group_entry` up to the call of
`avahi_entry_group_add_record`: `hnm` is `HOST_NAME_MAX` (the buffer `rdata` has
`hnm + 6 + 1` bytes) and `hostname` the host name.  The result is `none` where the function
returns -1 because the name does not fit, and otherwise the buffer `rdata` and the size
`ret + 1` passed to Avahi. -/
def cname_rdata (hnm : Nat) (hostname : List Nat) : Option (List Nat × Nat) :=
  let r := snprintf_dot_local (hnm + 6 + 1) hostname
  if ¬ (r.1 > 0 ∧ r.1 < ((hnm + 6 + 1 : Nat) : Int)) then none
  else some (cname_loop r.1.toNat r.2 0, r.1.toNat + 1)

/-- DNS label format as the comment in `create_group_entry` describes it: every `'.'` is
replaced by the number of bytes of the label that follows it, up to the next `'.'` or the
end; the other bytes stay. -/
def label_format : List Nat → List Nat
  | [] => []
  | b :: rest =>
    (if b = DOT then (rest.takeWhile (fun x => x ≠ DOT)).length else b) :: label_format rest

end MdnsAvahi

/-!
# forked-daapd: the audio pipe and the metadata pipe (src/pipe.c)

`pipe_audio_get` reads from the pipe opened with `O_NONBLOCK` into the buffer `g_buf` and
appends to an `evbuffer`.  The `evbuffer` is the list of the bytes it holds; what `read(2)`
finds at the other end of the pipe is an input of the model.

`metadatapipe_read` collects what arrives on the metadata pipe in the buffer `g_metabuf`,
which `alloc_metabuf` and `free_metabuf` manage, and on a timeout hands the text collected
to `check_metadatatext`.

* The buffer is a block of the heap (`Block`): its length and the byte at each index.  What
  the allocator has to give is an input of the model.
* The fields `pos` and `size` are integers.  The two additions of the code stay inside the
  range of an `int` in the states considered: `size + 65535` is computed only for
  `size ≤ 524288`, and `pos + len` is at most `size`.
* A text is the list of its bytes up to the terminator.  The functions of the C library
  (`sscanf`, `strtok`, `strstr`, `strcmp`) are modelled on such lists; a NULL pointer
  handed to one of them ends the run (`check_result`).
* Diagnostics (`DPRINTF`) are not part of the model.
-/

namespace Pipe

/-- The macro `PIPE_BUFFER_SIZE` of `pipe.c`. -/
def PIPE_BUFFER_SIZE : Int := 8192

/-- The error number `EAGAIN` of `errno.h` (its value on Linux). -/
def EAGAIN : Int := 11

/-- What a `read` on the pipe finds: an error with its `errno`, or the bytes that are in the
pipe (none if the pipe is empty and has no writer). -/
inductive PipeEnd
  | failing (errno : Int)
  | holding (bytes : List Nat)
  deriving DecidableEq, Repr

/-- The call `read(g_fd, g_buf, count)`: the value returned and the bytes stored in
`g_buf`.  A failing read returns -1; otherwise at most `count` of the bytes in the pipe are
transferred. -/
def read (pipe_end : PipeEnd) (count : Int) : Int × List Nat :=
  match pipe_end with
  | PipeEnd.failing _ => (-1, [])
  | PipeEnd.holding bytes => (((bytes.take count.toNat).length : Int), bytes.take count.toNat)

/-- The value of `errno` after the call of `read`. -/
def errno_of (pipe_end : PipeEnd) : Int :=
  match pipe_end with
  | PipeEnd.failing e => e
  | PipeEnd.holding _ => 0

/-- The function `pipe_audio_get` of `pipe.c`, for `wanted ≥ 0`: the value returned and
the content of `evbuf` afterwards. -/
def pipe_audio_get (pipe_end : PipeEnd) (evbuf : List Nat) (wanted : Int) : Int × List Nat :=
  let wanted1 := if wanted > PIPE_BUFFER_SIZE then PIPE_BUFFER_SIZE else wanted
  let r := read pipe_end wanted1
  if r.1 < 0 ∧ errno_of pipe_end ≠ EAGAIN then (-1, evbuf)
  else if r.1 ≤ 0 then (wanted1, evbuf ++ List.replicate wanted1.toNat 0)
  else (r.1, evbuf ++ r.2)

/-! ## The metadata buffer -/

/-- The macro `META_PIPE_BUFFER_SIZE` of `pipe.c`. -/
def META_PIPE_BUFFER_SIZE : Int := 65535

/-- The macro `META_PIPE_BUFFER_MAXSIZE` of `pipe.c`. -/
def META_PIPE_BUFFER_MAXSIZE : Int := 524288

/-- The flag `EV_TIMEOUT` of libevent. -/
def EV_TIMEOUT : Nat := 1

/-- The flag `EV_READ` of libevent. -/
def EV_READ : Nat := 2

/-- A block of the heap: the number of bytes the allocator handed out and the byte stored at
each index.  The indices inside the block are `0` to `len - 1`. -/
structure Block where
  len : Nat
  data : Nat → Nat

/-- The record `struct metadata_buf`; `buf` is `none` for a NULL pointer and otherwise the
block it points to. -/
structure metadata_buf where
  buf : Option Block
  pos : Int
  size : Int

/-- The value of the static variable `g_metabuf` when the program starts: all zero. -/
def metabuf_zero : metadata_buf := { buf := none, pos := 0, size := 0 }

/-- The call `malloc(size)`.  What the allocator has to give is an input of the model:
`heap` is `none` when the allocator is out of memory, and otherwise the (indeterminate)
content of the block it hands out. -/
def malloc (size : Int) (heap : Option (Nat → Nat)) : Option Block :=
  match heap with
  | none => none
  | some fresh => some { len := size.toNat, data := fresh }

/-- The call `realloc(ptr, size)`: on success the new block starts with the content of the
old one; with a NULL `ptr` the call is `malloc(size)`. -/
def realloc (ptr : Option Block) (size : Int) (heap : Option (Nat → Nat)) : Option Block :=
  match heap with
  | none => none
  | some fresh =>
    some { len := size.toNat
           data := fun i =>
             match ptr with
             | some b => if i < b.len then b.data i else fresh i
             | none => fresh i }

/-- The function `free_metabuf` of `pipe.c`. -/
def free_metabuf (g : metadata_buf) : metadata_buf :=
  match g.buf with
  | some _ => { buf := none, pos := 0, size := META_PIPE_BUFFER_SIZE }
  | none => g

/-- The second statement of `alloc_metabuf`: `if (g_metabuf.buf == NULL) ...` and the final
`return 0`. -/
def alloc_metabuf_fresh (g : metadata_buf) (heap : Option (Nat → Nat)) : Int × metadata_buf :=
  match g.buf with
  | none =>
    match malloc META_PIPE_BUFFER_SIZE heap with
    | none => (-1, { buf := none, pos := 0, size := META_PIPE_BUFFER_SIZE })
    | some b => (0, { buf := some b, pos := 0, size := META_PIPE_BUFFER_SIZE })
  | some _ => (0, g)

/-- The function `alloc_metabuf` of `pipe.c`: the value returned and `g_metabuf` afterwards.
A call asks the allocator at most once; `heap` is what it has to give. -/
def alloc_metabuf (g : metadata_buf) (heap : Option (Nat → Nat)) : Int × metadata_buf :=
  if g.pos = g.size then
    if g.size ≤ META_PIPE_BUFFER_MAXSIZE then
      match realloc g.buf (g.size + META_PIPE_BUFFER_SIZE) heap with
      | none => (-1, { buf := none, pos := g.pos, size := g.size + META_PIPE_BUFFER_SIZE })
      | some b =>
        alloc_metabuf_fresh
          { buf := some b, pos := g.pos, size := g.size + META_PIPE_BUFFER_SIZE } heap
    else alloc_metabuf_fresh (free_metabuf g) heap
  else alloc_metabuf_fresh g heap

/-- The bytes `bytes` stored into the block from index `off` on. -/
def store_bytes (b : Block) (off : Nat) (bytes : List Nat) : Block :=
  { b with data := fun i =>
      if off ≤ i ∧ i < off + bytes.length then bytes.getD (i - off) 0 else b.data i }

/-- The C string that starts at the beginning of the block: the bytes before the first zero
byte, or `none` when the block holds no zero byte. -/
def c_string (b : Block) : Option (List Nat) :=
  if 0 ∈ (List.range b.len).map b.data
  then some (((List.range b.len).map b.data).takeWhile (fun x => x ≠ 0))
  else none

/-! ## The metadata text -/

/-- The byte `'\n'`, the one delimiter of `check_metadatatext`. -/
def NEWLINE : Nat := 10

/-- The bytes of `"<item><type>"`. -/
def item_type : List Nat := [60, 105, 116, 101, 109, 62, 60, 116, 121, 112, 101, 62]

/-- The bytes of `"</type><code>"`. -/
def type_code : List Nat := [60, 47, 116, 121, 112, 101, 62, 60, 99, 111, 100, 101, 62]

/-- The bytes of `"</code><length>"`. -/
def code_length : List Nat :=
  [60, 47, 99, 111, 100, 101, 62, 60, 108, 101, 110, 103, 116, 104, 62]

/-- The bytes of the base64 data tag, `<data encoding="base64">`. -/
def data_tag : List Nat :=
  [60, 100, 97, 116, 97, 32, 101, 110, 99, 111, 100, 105, 110, 103, 61, 34, 98, 97, 115, 101,
    54, 52, 34, 62]

/-- The bytes of the closing data tag, `"</data></item>"`. -/
def end_tag : List Nat := [60, 47, 100, 97, 116, 97, 62, 60, 47, 105, 116, 101, 109, 62]

/-- The function `isspace` of `ctype.h` in the C locale. -/
def isspace (c : Nat) : Bool := c == 32 || (9 ≤ c && c ≤ 13)

/-- The value of the byte `c` as a digit in the given base (10 or 16), if it is one. -/
def digit_value (base : Nat) (c : Nat) : Option Nat :=
  if 48 ≤ c ∧ c ≤ 57 then some (c - 48)
  else if base = 16 ∧ 97 ≤ c ∧ c ≤ 102 then some (c - 87)
  else if base = 16 ∧ 65 ≤ c ∧ c ≤ 70 then some (c - 55)
  else none

/-- What the execution of one directive of a `scanf` format yields: the value converted and
the input that remains, a matching failure, or an input failure (the input ended). -/
inductive Scan (α : Type)
  | ok (v : α) (rest : List Nat)
  | matching_failure
  | input_failure

/-- The directives that are the ordinary characters `lit`: each must be the next byte of
the input. -/
def scan_literal : List Nat → List Nat → Scan Unit
  | [], s => Scan.ok () s
  | _ :: _, [] => Scan.input_failure
  | c :: lit, d :: s => if c = d then scan_literal lit s else Scan.matching_failure

/-- The longest run of at most `width` digits at the start of the input: their values and
the input that remains. -/
def scan_digits (base : Nat) : Nat → List Nat → List Nat × List Nat
  | 0, s => ([], s)
  | _ + 1, [] => ([], [])
  | width + 1, c :: s =>
    match digit_value base c with
    | some d => (d :: (scan_digits base width s).1, (scan_digits base width s).2)
    | none => ([], c :: s)

/-- The conversions `%x` (base 16) and `%u` (base 10) with a field width, as the C standard
defines them: white space is skipped; the input item is the longest sequence of at most
`width` bytes that is a prefix of an optional sign, an optional `0x` or `0X` (base 16 only)
and digits; the item must hold at least one digit after the sign and the prefix.  The
value is stored into an `unsigned`, so it is reduced modulo 2^32, a minus sign negating
it. -/
def scan_unsigned (base width : Nat) (s : List Nat) : Scan Nat :=
  match s.dropWhile isspace with
  | [] => Scan.input_failure
  | c :: t =>
    let sign := c = 45 ∨ c = 43
    let s1 := if sign then t else c :: t
    let w1 := if sign then width - 1 else width
    let pre := base = 16 ∧ 2 ≤ w1 ∧ (s1.take 2 = [48, 120] ∨ s1.take 2 = [48, 88])
    let s2 := if pre then s1.drop 2 else s1
    let w2 := if pre then w1 - 2 else w1
    let r := scan_digits base w2 s2
    if r.1 = [] then Scan.matching_failure
    else
      let v := r.1.foldl (fun a d => a * base + d) 0
      Scan.ok ((if c = 45 then 4294967296 - v % 4294967296 else v) % 4294967296) r.2

/-- What the call of `sscanf` in `check_metadatatext` yields: the value returned and the
three variables.  A variable that was not assigned is shown as 0; the code reads the
variables only when all three were assigned. -/
structure item_header where
  ret : Int
  type : Nat
  code : Nat
  length : Nat
  deriving DecidableEq, Repr

/-- The call
`sscanf(ptr, "<item><type>%8x</type><code>%8x</code><length>%u</length>", ...)`.
The value returned is the number of variables assigned, or `EOF` (-1) when the input ends
before the first of them is converted.  The conversion `%u` has no field width. -/
def sscanf_item (ptr : List Nat) : item_header :=
  match scan_literal item_type ptr with
  | Scan.input_failure => ⟨-1, 0, 0, 0⟩
  | Scan.matching_failure => ⟨0, 0, 0, 0⟩
  | Scan.ok _ s1 =>
    match scan_unsigned 16 8 s1 with
    | Scan.input_failure => ⟨-1, 0, 0, 0⟩
    | Scan.matching_failure => ⟨0, 0, 0, 0⟩
    | Scan.ok type s2 =>
      match scan_literal type_code s2 with
      | Scan.ok _ s3 =>
        match scan_unsigned 16 8 s3 with
        | Scan.ok code s4 =>
          match scan_literal code_length s4 with
          | Scan.ok _ s5 =>
            match scan_unsigned 10 s5.length s5 with
            | Scan.ok length _ => ⟨3, type, code, length⟩
            | _ => ⟨2, type, code, 0⟩
          | _ => ⟨2, type, code, 0⟩
        | _ => ⟨1, type, 0, 0⟩
      | _ => ⟨1, type, 0, 0⟩

/-- The call `strstr(haystack, needle)`: the index of the first occurrence, `none` for
NULL. -/
def strstr : List Nat → List Nat → Option Nat
  | [], needle => if needle = [] then some 0 else none
  | c :: s, needle =>
    if (c :: s).take needle.length = needle then some 0
    else (strstr s needle).map (fun i => i + 1)

/-- The tokens that the successive calls of `strtok` with the delimiter `"\n"` return for
the text `buf`, in order: the maximal runs of bytes other than `'\n'` that are not
empty.  After the last of them `strtok` returns NULL. -/
def strtok (buf : List Nat) : List (List Nat) :=
  (buf.splitOn NEWLINE).filter (fun t => t ≠ [])

/-- How a run of `check_metadatatext` ends: it returns a value, or it passes the NULL that
`strtok` returned to `strcmp` or to `strstr`. -/
inductive check_result
  | returned (v : Int)
  | strcmp_null
  | strstr_null
  deriving DecidableEq, Repr

/-- The loop `while (ptr != NULL)` of `check_metadatatext` and the final `return 0`; the
argument is the token `ptr` followed by the tokens `strtok` has yet to return, so that
`ptr = strtok(NULL, delimiter)` takes the next element and yields NULL when there is none.
The `switch` on `code` patches one byte inside the current token, hands the token to
`b64_decode` (of `misc.c`) and logs; it changes neither the tokens that follow nor the value
returned and is not carried by the model. -/
def check_tokens : List (List Nat) → check_result
  | [] => check_result.returned 0
  | ptr :: rest =>
    if (sscanf_item ptr).ret = 3 ∧ (sscanf_item ptr).length ≠ 0 then
      match rest with
      | [] => check_result.strcmp_null
      | ptr1 :: rest1 =>
        if ptr1 ≠ data_tag then check_tokens rest1
        else
          match rest1 with
          | [] => check_result.strstr_null
          | ptr2 :: rest2 =>
            if strstr ptr2 end_tag = none then check_result.returned (-1)
            else check_tokens rest2
    else check_tokens rest

/-- The function `check_metadatatext` of `pipe.c`; `buf` is `none` for NULL and otherwise
the bytes of the text up to its terminator. -/
def check_metadatatext (buf : Option (List Nat)) : check_result :=
  match buf with
  | none => check_result.returned (-1)
  | some text => check_tokens (strtok text)

/-- What a run of `metadatapipe_read` leaves behind: the buffer `g_metabuf`; whether the
run left the defined behaviour of C (a byte stored or read outside the block, or a NULL
token used); and whether `event_add` was reached. -/
structure read_result where
  g_metabuf : metadata_buf
  fault : Bool
  event_added : Bool

/-- The function `metadatapipe_read` of `pipe.c`: `event` are the flags libevent passes,
`pipe_end` is what `read` finds in the metadata pipe, and `heap1`, `heap2` are what the
allocator has to give to the first and to the second call of `alloc_metabuf`.  The bytes
read and the terminating zero byte are stored from index `pos` on; when the last of them
falls outside the block the run ends with `fault`, `pos` being the index of the zero
byte.  A `read` into a NULL buffer fails and returns -1. -/
def metadatapipe_read (g_fmetapipe : Int) (g : metadata_buf) (event : Nat)
    (pipe_end : PipeEnd) (heap1 heap2 : Option (Nat → Nat)) : read_result :=
  if g_fmetapipe = -1 then { g_metabuf := g, fault := false, event_added := true }
  else if event &&& EV_TIMEOUT ≠ 0 ∧ g.buf.isSome = true then
    match g.buf.bind c_string with
    | none => { g_metabuf := g, fault := true, event_added := false }
    | some text =>
      match check_metadatatext (some text) with
      | check_result.returned _ =>
        { g_metabuf := free_metabuf g, fault := false, event_added := true }
      | _ => { g_metabuf := g, fault := true, event_added := false }
  else if event &&& EV_READ ≠ 0 then
    let g1 := if g.buf.isNone = true then (alloc_metabuf g heap1).2 else g
    match g1.buf with
    | none => { g_metabuf := g1, fault := false, event_added := true }
    | some b =>
      let r := read pipe_end (g1.size - g1.pos)
      if r.1 > 0 then
        if 0 ≤ g1.pos ∧ g1.pos + r.1 < (b.len : Int) then
          { g_metabuf :=
              (alloc_metabuf
                { buf := some (store_bytes b g1.pos.toNat (r.2 ++ [0]))
                  pos := g1.pos + r.1
                  size := g1.size } heap2).2
            fault := false
            event_added := true }
        else
          { g_metabuf := { buf := some b, pos := g1.pos + r.1, size := g1.size }
            fault := true
            event_added := false }
      else { g_metabuf := g1, fault := false, event_added := true }
  else { g_metabuf := g, fault := false, event_added := true }

/-- The states of the metadata buffer between two runs of `metadatapipe_read`:
`0 ≤ pos ≤ size`, and an allocated buffer is a block of `size` bytes with `pos < size`. -/
def metabuf_inv (g : metadata_buf) : Prop :=
  0 ≤ g.pos ∧ g.pos ≤ g.size ∧
    ∀ b, g.buf = some b → (b.len : Int) = g.size ∧ g.pos < g.size

end Pipe

namespace MdnsAvahi

/-! ## Masks -/

theorem and_div_two_pow (a b : Nat) : ∀ n, (a &&& b) / 2 ^ n = a / 2 ^ n &&& b / 2 ^ n := by
  intro n
  induction n with
  | zero => simp
  | succ n ih =>
    rw [pow_succ, ← Nat.div_div_eq_div_mul, ← Nat.div_div_eq_div_mul,
      ← Nat.div_div_eq_div_mul, ih, Nat.and_div_two]

/-- Masking with `m` ones shifted left by `k` keeps the bits `k` to `k + m - 1`. -/
theorem and_shifted_ones (x k m : Nat) :
    x &&& (2 ^ k * (2 ^ m - 1)) = 2 ^ k * (x / 2 ^ k % 2 ^ m) := by
  have h1 : (x &&& (2 ^ k * (2 ^ m - 1))) / 2 ^ k = x / 2 ^ k % 2 ^ m := by
    rw [and_div_two_pow, Nat.mul_div_cancel_left _ (Nat.two_pow_pos k),
      Nat.and_pow_two_sub_one_eq_mod]
  have h2 : (x &&& (2 ^ k * (2 ^ m - 1))) % 2 ^ k = 0 := by
    rw [← Nat.and_pow_two_sub_one_eq_mod, Nat.and_assoc, Nat.and_pow_two_sub_one_eq_mod,
      Nat.mul_mod_right, Nat.and_zero]
  have h3 := Nat.div_add_mod (x &&& (2 ^ k * (2 ^ m - 1))) (2 ^ k)
  rw [h1, h2] at h3
  omega

theorem is_v4ll_iff (a : AvahiIPv4Address) :
    is_v4ll a = true ↔ a.o0.val = 169 ∧ a.o1.val = 254 := by
  have h := and_shifted_ones (ntohl a) 16 16
  have h0 := a.o0.isLt
  have h1 := a.o1.isLt
  have h2 := a.o2.isLt
  have h3 := a.o3.isLt
  simp only [is_v4ll, IPV4LL_NETMASK, IPV4LL_NETWORK, beq_iff_eq]
  norm_num at h
  rw [h]
  unfold ntohl
  omega

theorem is_v6ll_iff (a : AvahiIPv6Address) :
    is_v6ll a = true ↔
      (a.address.getD 0 0).val = 254 ∧ (a.address.getD 1 0).val / 64 = 2 := by
  have h0 := (a.address.getD 0 0).isLt
  have h1 := (a.address.getD 1 0).isLt
  have hor : ((a.address.getD 0 0).val <<< 8) ||| (a.address.getD 1 0).val =
      2 ^ 8 * (a.address.getD 0 0).val + (a.address.getD 1 0).val := by
    rw [Nat.mul_add_lt_is_or (by simp), Nat.shiftLeft_eq, Nat.mul_comm]
  have h := and_shifted_ones (2 ^ 8 * (a.address.getD 0 0).val + (a.address.getD 1 0).val) 6 10
  simp only [is_v6ll, IPV6LL_NETMASK, IPV6LL_NETWORK, beq_iff_eq, hor]
  norm_num at h
  norm_num
  rw [h]
  omega

/-! ## The conversion loop -/

theorem label_format_length (l : List Nat) : (label_format l).length = l.length := by
  induction l with
  | nil => rfl
  | cons b rest ih => simp [label_format, ih]

theorem label_format_append (init t : List Nat) :
    label_format (init ++ t) =
      (label_format (init ++ t)).take init.length ++ label_format t := by
  induction init with
  | nil => simp
  | cons a init ih =>
    simp only [List.cons_append, label_format, List.length_cons, List.take_succ_cons]
    exact congrArg _ ih

/-- The loop run over the prefix `pre` of the buffer, when `count` is the length of the
label at the start of the rest of the string, yields the label format of the prefix. -/
theorem cname_loop_prefix (pre : List Nat) :
    ∀ (orig buf : List Nat),
      (∀ n, ((pre ++ orig).drop n |>.takeWhile (fun x => x ≠ DOT)).length < 256) →
      cname_loop pre.length (pre ++ buf) (orig.takeWhile (fun x => x ≠ DOT)).length =
        (label_format (pre ++ orig)).take pre.length ++ buf := by
  induction pre using List.reverseRecOn with
  | nil => intro orig buf _; simp [cname_loop]
  | append_singleton init b ih =>
    intro orig buf hrun
    have hget : (init ++ [b] ++ buf).getD init.length 0 = b := by
      rw [List.append_assoc, List.getD_append_right _ _ _ _ (le_refl _)]
      simp
    have hrest : label_format (init ++ [b] ++ orig) =
        (label_format (init ++ (b :: orig))).take init.length ++ label_format (b :: orig) := by
      rw [List.append_assoc, List.singleton_append]
      exact label_format_append init (b :: orig)
    have htake : (label_format (init ++ [b] ++ orig)).take (init ++ [b]).length =
        (label_format (init ++ (b :: orig))).take init.length ++
          [if b = DOT then (orig.takeWhile (fun x => x ≠ DOT)).length else b] := by
      rw [hrest]
      have hl : ((label_format (init ++ (b :: orig))).take init.length).length = init.length := by
        simp [label_format_length]
      rw [List.take_append_eq_append_take, hl]
      simp [label_format]
    have hrun' : ∀ n, ((init ++ (b :: orig)).drop n |>.takeWhile (fun x => x ≠ DOT)).length
        < 256 := by
      intro n
      have := hrun n
      rwa [List.append_assoc, List.singleton_append] at this
    have hc : (orig.takeWhile (fun x => x ≠ DOT)).length < 256 := by
      have := hrun (init.length + 1)
      rwa [show init.length + 1 = (init ++ [b]).length by simp, List.drop_left] at this
    rw [htake]
    simp only [List.length_append, List.length_singleton, cname_loop, hget]
    have hih := ih (b :: orig) (if b = DOT
      then (orig.takeWhile (fun x => x ≠ DOT)).length :: buf else b :: buf) hrun'
    by_cases hb : b = DOT
    · have hset : (init ++ [b] ++ buf).set init.length
          ((orig.takeWhile (fun x => x ≠ DOT)).length % 256) =
          init ++ ((orig.takeWhile (fun x => x ≠ DOT)).length :: buf) := by
        rw [Nat.mod_eq_of_lt hc, List.append_assoc, List.set_append_right _ _ (le_refl _)]
        simp
      have h0 : ((b :: orig).takeWhile (fun x => x ≠ DOT)).length = 0 := by
        simp [List.takeWhile, hb]
      rw [h0] at hih
      simp only [hb, if_true] at hih hset ⊢
      rw [hset, hih]
      simp
    · have h1 : ((b :: orig).takeWhile (fun x => x ≠ DOT)).length =
          (orig.takeWhile (fun x => x ≠ DOT)).length + 1 := by
        simp [List.takeWhile, hb]
      rw [h1] at hih
      simp only [hb, if_false] at hih ⊢
      rw [List.append_assoc, List.singleton_append, hih]
      simp

theorem run_append_dot (a b : List Nat) :
    ((a ++ DOT :: b).takeWhile (fun x => x ≠ DOT)).length ≤ a.length := by
  induction a with
  | nil => simp [List.takeWhile]
  | cons x a ih =>
    by_cases hx : x = DOT
    · simp [List.takeWhile, hx]
    · simp only [List.cons_append, List.length_cons]
      rw [List.takeWhile_cons_of_pos (by simpa using hx)]
      simpa using ih

/-- In `".h.local"` no label is longer than the host name or than `"local"`. -/
theorem runs_of_dot_local (hostname : List Nat) (hlen : hostname.length < 256) :
    ∀ n, ((DOT :: hostname ++ dot_local ++ []).drop n
      |>.takeWhile (fun x => x ≠ DOT)).length < 256 := by
  intro n
  rw [List.append_nil]
  cases n with
  | zero => simp [List.takeWhile]
  | succ m =>
    rw [List.cons_append, List.drop_succ_cons]
    by_cases hm : m ≤ hostname.length
    · rw [List.drop_append_of_le_length hm]
      have h1 := run_append_dot (hostname.drop m) [108, 111, 99, 97, 108]
      have h2 : (hostname.drop m).length ≤ hostname.length := by simp
      have h3 : dot_local = DOT :: [108, 111, 99, 97, 108] := rfl
      rw [h3]
      omega
    · have h1 : (((hostname ++ dot_local).drop m).takeWhile
          (fun x => decide (x ≠ DOT))).length ≤ ((hostname ++ dot_local).drop m).length :=
        (List.takeWhile_sublist _).length_le
      have h2 : ((hostname ++ dot_local).drop m).length ≤ 6 := by
        simp [dot_local]; omega
      omega

end MdnsAvahi

namespace Commands

open command_state

/-! ## Frame lemmas for the primitive actions -/

@[simp]
theorem emit_mem (s : World) (e : Event) : (emit s e).mem = s.mem := rfl
@[simp]
theorem emit_cmdbase (s : World) (e : Event) : (emit s e).cmdbase = s.cmdbase := rfl
@[simp]
theorem emit_waiting (s : World) (e : Event) : (emit s e).waiting = s.waiting := rfl
@[simp]
theorem emit_fault (s : World) (e : Event) : (emit s e).fault = s.fault := rfl
@[simp]
theorem emit_trace (s : World) (e : Event) : (emit s e).trace = s.trace ++ [e] := rfl

@[simp]
theorem store_mem_same (s : World) (p : Nat) (c : command) :
    (store s p c).mem p = c := by simp [store]
theorem store_mem_other (s : World) (p q : Nat) (c : command) (h : q ≠ p) :
    (store s p c).mem q = s.mem q := by simp [store, h]
@[simp]
theorem store_cmdbase (s : World) (p : Nat) (c : command) :
    (store s p c).cmdbase = s.cmdbase := rfl
@[simp]
theorem store_waiting (s : World) (p : Nat) (c : command) :
    (store s p c).waiting = s.waiting := rfl
@[simp]
theorem store_fault (s : World) (p : Nat) (c : command) :
    (store s p c).fault = s.fault := rfl
@[simp]
theorem store_trace (s : World) (p : Nat) (c : command) :
    (store s p c).trace = s.trace := rfl

@[simp]
theorem set_ret_mem_same (s : World) (p : Nat) (v : Int) :
    (set_ret s p v).mem p = { s.mem p with ret := v } := by simp [set_ret]
theorem set_ret_mem_other (s : World) (p q : Nat) (v : Int) (h : q ≠ p) :
    (set_ret s p v).mem q = s.mem q := by simp [set_ret, store_mem_other _ _ _ _ h]
@[simp]
theorem set_ret_cmdbase (s : World) (p : Nat) (v : Int) :
    (set_ret s p v).cmdbase = s.cmdbase := rfl
@[simp]
theorem set_ret_waiting (s : World) (p : Nat) (v : Int) :
    (set_ret s p v).waiting = s.waiting := rfl
@[simp]
theorem set_ret_fault (s : World) (p : Nat) (v : Int) :
    (set_ret s p v).fault = s.fault := rfl
@[simp]
theorem set_ret_trace (s : World) (p : Nat) (v : Int) :
    (set_ret s p v).trace = s.trace := rfl

@[simp]
theorem set_pending_mem_same (s : World) (p : Nat) (v : Int) :
    (set_pending s p v).mem p = { s.mem p with pending := v } := by simp [set_pending]
theorem set_pending_mem_other (s : World) (p q : Nat) (v : Int) (h : q ≠ p) :
    (set_pending s p v).mem q = s.mem q := by simp [set_pending, store_mem_other _ _ _ _ h]
@[simp]
theorem set_pending_cmdbase (s : World) (p : Nat) (v : Int) :
    (set_pending s p v).cmdbase = s.cmdbase := rfl
@[simp]
theorem set_pending_waiting (s : World) (p : Nat) (v : Int) :
    (set_pending s p v).waiting = s.waiting := rfl
@[simp]
theorem set_pending_fault (s : World) (p : Nat) (v : Int) :
    (set_pending s p v).fault = s.fault := rfl
@[simp]
theorem set_pending_trace (s : World) (p : Nat) (v : Int) :
    (set_pending s p v).trace = s.trace := rfl

@[simp]
theorem set_current_mem (s : World) (p : Option Nat) :
    (set_current s p).mem = s.mem := rfl
@[simp]
theorem set_current_current (s : World) (p : Option Nat) :
    (set_current s p).cmdbase.current_cmd = p := rfl
@[simp]
theorem set_current_pipe (s : World) (p : Option Nat) :
    (set_current s p).cmdbase.command_pipe = s.cmdbase.command_pipe := rfl
@[simp]
theorem set_current_event (s : World) (p : Option Nat) :
    (set_current s p).cmdbase.command_event = s.cmdbase.command_event := rfl
@[simp]
theorem set_current_waiting (s : World) (p : Option Nat) :
    (set_current s p).waiting = s.waiting := rfl
@[simp]
theorem set_current_fault (s : World) (p : Option Nat) :
    (set_current s p).fault = s.fault := rfl
@[simp]
theorem set_current_trace (s : World) (p : Option Nat) :
    (set_current s p).trace = s.trace := rfl

@[simp]
theorem set_pipe_mem (s : World) (p : List Nat) : (set_pipe s p).mem = s.mem := rfl
@[simp]
theorem set_pipe_pipe (s : World) (p : List Nat) :
    (set_pipe s p).cmdbase.command_pipe = p := rfl
@[simp]
theorem set_pipe_current (s : World) (p : List Nat) :
    (set_pipe s p).cmdbase.current_cmd = s.cmdbase.current_cmd := rfl
@[simp]
theorem set_pipe_event (s : World) (p : List Nat) :
    (set_pipe s p).cmdbase.command_event = s.cmdbase.command_event := rfl
@[simp]
theorem set_pipe_waiting (s : World) (p : List Nat) : (set_pipe s p).waiting = s.waiting := rfl
@[simp]
theorem set_pipe_fault (s : World) (p : List Nat) : (set_pipe s p).fault = s.fault := rfl
@[simp]
theorem set_pipe_trace (s : World) (p : List Nat) : (set_pipe s p).trace = s.trace := rfl

@[simp]
theorem set_event_mem (s : World) (b : Bool) : (set_event s b).mem = s.mem := rfl
@[simp]
theorem set_event_pipe (s : World) (b : Bool) :
    (set_event s b).cmdbase.command_pipe = s.cmdbase.command_pipe := rfl
@[simp]
theorem set_event_current (s : World) (b : Bool) :
    (set_event s b).cmdbase.current_cmd = s.cmdbase.current_cmd := rfl
@[simp]
theorem set_event_event (s : World) (b : Bool) :
    (set_event s b).cmdbase.command_event = b := rfl
@[simp]
theorem set_event_waiting (s : World) (b : Bool) : (set_event s b).waiting = s.waiting := rfl
@[simp]
theorem set_event_fault (s : World) (b : Bool) : (set_event s b).fault = s.fault := rfl
@[simp]
theorem set_event_trace (s : World) (b : Bool) : (set_event s b).trace = s.trace := rfl

@[simp]
theorem event_add_mem (s : World) : (event_add s).mem = s.mem := rfl
@[simp]
theorem event_add_current (s : World) :
    (event_add s).cmdbase.current_cmd = s.cmdbase.current_cmd := rfl
@[simp]
theorem event_add_pipe (s : World) :
    (event_add s).cmdbase.command_pipe = s.cmdbase.command_pipe := rfl
@[simp]
theorem event_add_event (s : World) : (event_add s).cmdbase.command_event = true := rfl
@[simp]
theorem event_add_waiting (s : World) : (event_add s).waiting = s.waiting := rfl
@[simp]
theorem event_add_fault (s : World) : (event_add s).fault = s.fault := rfl
@[simp]
theorem event_add_trace (s : World) :
    (event_add s).trace = s.trace ++ [Event.event_add] := rfl

@[simp]
theorem cond_signal_mem (s : World) (c : Nat) :
    (pthread_cond_signal s c).mem = s.mem := rfl
@[simp]
theorem cond_signal_cmdbase (s : World) (c : Nat) :
    (pthread_cond_signal s c).cmdbase = s.cmdbase := rfl
@[simp]
theorem cond_signal_waiting (s : World) (c : Nat) :
    (pthread_cond_signal s c).waiting = s.waiting.filter (fun d => d ≠ c) := rfl
@[simp]
theorem cond_signal_fault (s : World) (c : Nat) :
    (pthread_cond_signal s c).fault = s.fault := rfl
@[simp]
theorem cond_signal_trace (s : World) (c : Nat) :
    (pthread_cond_signal s c).trace = s.trace ++ [Event.cond_signal c] := rfl

theorem cond_signal_awake (s : World) (c : Nat) : c ∉ (pthread_cond_signal s c).waiting := by
  simp [List.mem_filter]

@[simp]
theorem cond_wait_mem (s : World) (c : Nat) :
    (pthread_cond_wait s c).mem = s.mem := rfl
@[simp]
theorem cond_wait_cmdbase (s : World) (c : Nat) :
    (pthread_cond_wait s c).cmdbase = s.cmdbase := rfl
@[simp]
theorem cond_wait_fault (s : World) (c : Nat) :
    (pthread_cond_wait s c).fault = s.fault := rfl
@[simp]
theorem cond_wait_trace (s : World) (c : Nat) :
    (pthread_cond_wait s c).trace = s.trace ++ [Event.cond_wait c] := rfl
theorem cond_wait_asleep (s : World) (c : Nat) : c ∈ (pthread_cond_wait s c).waiting := by
  simp [pthread_cond_wait, emit]

/-! ## Frame lemmas for a call through a function pointer -/

@[simp]
theorem call_function_mem (fn : command_function) (a : Nat) (r : Int) (w : World) :
    (call_function fn a r w).2.2.mem = w.mem := by
  cases fn
  · rfl
  · simp only [call_function, cmdloop_exit, emit]; split <;> rfl

@[simp]
theorem call_function_waiting (fn : command_function) (a : Nat) (r : Int) (w : World) :
    (call_function fn a r w).2.2.waiting = w.waiting := by
  cases fn
  · rfl
  · simp only [call_function, cmdloop_exit, emit]; split <;> rfl

@[simp]
theorem call_function_fault (fn : command_function) (a : Nat) (r : Int) (w : World) :
    (call_function fn a r w).2.2.fault = w.fault := by
  cases fn
  · rfl
  · simp only [call_function, cmdloop_exit, emit]; split <;> rfl

@[simp]
theorem call_function_current (fn : command_function) (a : Nat) (r : Int) (w : World) :
    (call_function fn a r w).2.2.cmdbase.current_cmd = w.cmdbase.current_cmd := by
  cases fn
  · rfl
  · simp only [call_function, cmdloop_exit, emit]; split <;> rfl

@[simp]
theorem call_function_pipe (fn : command_function) (a : Nat) (r : Int) (w : World) :
    (call_function fn a r w).2.2.cmdbase.command_pipe = w.cmdbase.command_pipe := by
  cases fn
  · rfl
  · simp only [call_function, cmdloop_exit, emit]; split <;> rfl

@[simp]
theorem call_function_event (fn : command_function) (a : Nat) (r : Int) (w : World) :
    (call_function fn a r w).2.2.cmdbase.command_event = w.cmdbase.command_event := by
  cases fn
  · rfl
  · simp only [call_function, cmdloop_exit, emit]; split <;> rfl

/-- A call through a function pointer adds to the trace only what `cmdloop_exit` does. -/
theorem call_function_trace (fn : command_function) (a : Nat) (r : Int) (w : World) :
    ∃ d, (call_function fn a r w).2.2.trace = w.trace ++ d ∧
      ∀ e ∈ d, e = Event.exit_cb ∨ e = Event.loopbreak := by
  cases fn
  · exact ⟨[], by simp [call_function], by simp⟩
  · by_cases h : w.cmdbase.exit_cb = true
    · exact ⟨[Event.exit_cb, Event.loopbreak], by simp [call_function, cmdloop_exit, h], by simp⟩
    · exact ⟨[Event.loopbreak], by simp [call_function, cmdloop_exit, h], by simp⟩

/-- What a function reports does not depend on the state of the command base. -/
theorem call_function_report (fn : command_function) (a : Nat) (r : Int) (w w' : World) :
    (call_function fn a r w).1 = (call_function fn a r w').1 ∧
      (call_function fn a r w).2.1 = (call_function fn a r w').2.1 := by
  cases fn <;> simp [call_function, cmdloop_exit]

/-! ## The event loop while a caller sleeps -/

theorem reactor_run_awake (s : World) (cmd : Nat) (sched : List ReactorStep)
    (h : cmd ∉ s.waiting) : reactor_run s cmd sched = s := by
  cases sched <;> simp [reactor_run, h]

theorem reactor_run_asleep (s : World) (cmd : Nat) (st : ReactorStep)
    (rest : List ReactorStep) (h : cmd ∈ s.waiting) :
    reactor_run s cmd (st :: rest) = reactor_run (reactor_step s st) cmd rest := by
  simp [reactor_run, h]

theorem reactor_run_append (cmd : Nat) (a b : List ReactorStep) :
    ∀ w, reactor_run w cmd (a ++ b) = reactor_run (reactor_run w cmd a) cmd b := by
  induction a with
  | nil => intro w; rfl
  | cons st rest ih =>
    intro w
    by_cases h : cmd ∈ w.waiting
    · rw [List.cons_append, reactor_run_asleep _ _ _ _ h, reactor_run_asleep _ _ _ _ h, ih]
    · rw [reactor_run_awake _ _ _ h, reactor_run_awake _ _ _ h, reactor_run_awake _ _ _ h]

/-! ## Arithmetic and list facts -/

theorem wrap32_id (x : Int) (h1 : INT_MIN ≤ x) (h2 : x ≤ INT_MAX) : wrap32 x = x := by
  unfold wrap32 INT_MIN INT_MAX at *
  omega

theorem int_dec_eq (p : Int) (h1 : INT_MIN < p) (h2 : p ≤ INT_MAX) : int_dec p = p - 1 := by
  unfold int_dec
  apply wrap32_id <;> omega

theorem store_self (w : World) (cmd : Nat) : store w cmd (w.mem cmd) = w := by
  cases w
  simp only [store]
  congr 1
  funext q
  by_cases hq : q = cmd <;> simp [hq]

theorem getLast?_cons_getD (v : Int) (vs : List Int) (r : Int) :
    ((v :: vs).getLast?).getD r = (vs.getLast?).getD v := by
  cases vs with
  | nil => simp
  | cons v2 vs2 =>
    rw [List.getLast?_cons_cons, List.getLast?_eq_getLast _ (List.cons_ne_nil _ _)]
    simp

theorem filter_bh_effects (d : List Event)
    (hd : ∀ e ∈ d, e = Event.exit_cb ∨ e = Event.loopbreak) : d.filter is_func_bh = [] := by
  rw [List.filter_eq_nil_iff]
  intro e he
  rcases hd e he with h | h <;> simp [h, is_func_bh]

theorem effects_no_signal (d : List Event) (c : Nat)
    (hd : ∀ e ∈ d, e = Event.exit_cb ∨ e = Event.loopbreak) : Event.cond_signal c ∉ d := by
  intro h
  rcases hd _ h with h' | h' <;> cases h'

/-! ## The executors -/

/-- The world after a call through a function pointer, up to the event base and trace. -/
theorem call_function_world (fn : command_function) (a : Nat) (r : Int) (w : World) :
    ∃ eb d, (call_function fn a r w).2.2 =
        { w with cmdbase := { w.cmdbase with evbase := eb }, trace := w.trace ++ d } ∧
      ∀ e ∈ d, e = Event.exit_cb ∨ e = Event.loopbreak := by
  cases fn
  · exact ⟨w.cmdbase.evbase, [], by simp [call_function], by simp⟩
  · by_cases h : w.cmdbase.exit_cb = true
    · exact ⟨true, [Event.exit_cb, Event.loopbreak],
        by simp [call_function, cmdloop_exit, h, emit], by simp⟩
    · exact ⟨true, [Event.loopbreak], by simp [call_function, cmdloop_exit, h, emit], by simp⟩

theorem run_func_bh_spec (s : World) (cmd : Nat) (bh : command_function) (B : Int)
    (hB : ∀ w, (call_function bh (s.mem cmd).arg (s.mem cmd).ret w).2.1 = B) :
    (run_func_bh s cmd bh).mem cmd = { s.mem cmd with ret := B } ∧
    (∀ q, q ≠ cmd → (run_func_bh s cmd bh).mem q = s.mem q) ∧
    (run_func_bh s cmd bh).cmdbase.current_cmd = s.cmdbase.current_cmd ∧
    (run_func_bh s cmd bh).cmdbase.command_pipe = s.cmdbase.command_pipe ∧
    (run_func_bh s cmd bh).cmdbase.command_event = s.cmdbase.command_event ∧
    (run_func_bh s cmd bh).waiting = s.waiting ∧
    (run_func_bh s cmd bh).fault = s.fault ∧
    ∃ d, (run_func_bh s cmd bh).trace = s.trace ++ [Event.func_bh cmd (s.mem cmd).arg] ++ d ∧
      ∀ e ∈ d, e = Event.exit_cb ∨ e = Event.loopbreak := by
  obtain ⟨eb, d, hw, hd⟩ := call_function_world bh (s.mem cmd).arg (s.mem cmd).ret
    (emit s (Event.func_bh cmd (s.mem cmd).arg))
  simp only [run_func_bh, emit_mem, hB, hw]
  refine ⟨by simp, ?_, by simp, by simp, by simp, by simp, by simp, d, by simp, hd⟩
  intro q hq
  simp [set_ret_mem_other _ _ _ _ hq]

/-- Running a bottom half touches no command but its own. -/
theorem run_func_bh_frame (s : World) (c : Nat) (bh : command_function) :
    (∀ q, q ≠ c → (run_func_bh s c bh).mem q = s.mem q) ∧
    (run_func_bh s c bh).cmdbase.current_cmd = s.cmdbase.current_cmd ∧
    (run_func_bh s c bh).cmdbase.command_pipe = s.cmdbase.command_pipe ∧
    (run_func_bh s c bh).waiting = s.waiting := by
  obtain ⟨_, b2, b3, b4, _, b6, _⟩ := run_func_bh_spec s c bh
    (call_function bh (s.mem c).arg (s.mem c).ret s).2.1
    (fun w => (call_function_report bh (s.mem c).arg (s.mem c).ret w s).2)
  exact ⟨b2, b3, b4, b6⟩

theorem command_cb_sync_pending (s : World) (cmd : Nat) (fn : command_function) (N : Int)
    (hf : (s.mem cmd).func = some fn)
    (hP : ∀ w, (call_function fn (s.mem cmd).arg (s.mem cmd).ret w).1 = COMMAND_PENDING)
    (hN : ∀ w, (call_function fn (s.mem cmd).arg (s.mem cmd).ret w).2.1 = N) :
    (command_cb_sync s cmd).mem cmd = { s.mem cmd with ret := N, pending := N } ∧
    (∀ q, q ≠ cmd → (command_cb_sync s cmd).mem q = s.mem q) ∧
    (command_cb_sync s cmd).cmdbase.current_cmd = some cmd ∧
    (command_cb_sync s cmd).cmdbase.command_pipe = s.cmdbase.command_pipe ∧
    (command_cb_sync s cmd).cmdbase.command_event = s.cmdbase.command_event ∧
    (command_cb_sync s cmd).waiting = s.waiting ∧
    (command_cb_sync s cmd).fault = s.fault ∧
    ∃ d, (command_cb_sync s cmd).trace =
        s.trace ++ [Event.mutex_lock cmd, Event.func cmd (s.mem cmd).arg] ++ d ∧
      ∀ e ∈ d, e = Event.exit_cb ∨ e = Event.loopbreak := by
  obtain ⟨eb, d, hw, hd⟩ := call_function_world fn (s.mem cmd).arg (s.mem cmd).ret
    (emit (emit s (Event.mutex_lock cmd)) (Event.func cmd (s.mem cmd).arg))
  simp only [command_cb_sync, emit_mem, hf, hP, hN, if_true, hw]
  refine ⟨by simp [hf], ?_, by simp, by simp, by simp, by simp, by simp, d, by simp, hd⟩
  intro q hq
  simp [set_pending_mem_other _ _ _ _ hq, set_ret_mem_other _ _ _ _ hq]

theorem command_cb_sync_done (s : World) (cmd : Nat) (fn : command_function) (R : Int)
    (hf : (s.mem cmd).func = some fn)
    (hE : ∀ w, (call_function fn (s.mem cmd).arg (s.mem cmd).ret w).1 = COMMAND_END)
    (hR : ∀ w, (call_function fn (s.mem cmd).arg (s.mem cmd).ret w).2.1 = R)
    (hbh : R ≠ 0 ∨ (s.mem cmd).func_bh = none) :
    (command_cb_sync s cmd).mem cmd = { s.mem cmd with ret := R } ∧
    (∀ q, q ≠ cmd → (command_cb_sync s cmd).mem q = s.mem q) ∧
    (command_cb_sync s cmd).cmdbase.current_cmd = s.cmdbase.current_cmd ∧
    (command_cb_sync s cmd).cmdbase.command_pipe = s.cmdbase.command_pipe ∧
    (command_cb_sync s cmd).cmdbase.command_event = true ∧
    (command_cb_sync s cmd).waiting = s.waiting.filter (fun c => c ≠ cmd) ∧
    (command_cb_sync s cmd).fault = s.fault ∧
    ∃ d, (command_cb_sync s cmd).trace =
        s.trace ++ [Event.mutex_lock cmd, Event.func cmd (s.mem cmd).arg] ++ d ++
          [Event.cond_signal cmd, Event.mutex_unlock cmd, Event.event_add] ∧
      ∀ e ∈ d, e = Event.exit_cb ∨ e = Event.loopbreak := by
  have hm := call_function_mem fn (s.mem cmd).arg (s.mem cmd).ret
    (emit (emit s (Event.mutex_lock cmd)) (Event.func cmd (s.mem cmd).arg))
  have hwt := call_function_waiting fn (s.mem cmd).arg (s.mem cmd).ret
    (emit (emit s (Event.mutex_lock cmd)) (Event.func cmd (s.mem cmd).arg))
  have hft := call_function_fault fn (s.mem cmd).arg (s.mem cmd).ret
    (emit (emit s (Event.mutex_lock cmd)) (Event.func cmd (s.mem cmd).arg))
  have hcu := call_function_current fn (s.mem cmd).arg (s.mem cmd).ret
    (emit (emit s (Event.mutex_lock cmd)) (Event.func cmd (s.mem cmd).arg))
  have hpi := call_function_pipe fn (s.mem cmd).arg (s.mem cmd).ret
    (emit (emit s (Event.mutex_lock cmd)) (Event.func cmd (s.mem cmd).arg))
  obtain ⟨d, ht, hd⟩ := call_function_trace fn (s.mem cmd).arg (s.mem cmd).ret
    (emit (emit s (Event.mutex_lock cmd)) (Event.func cmd (s.mem cmd).arg))
  simp only [command_cb_sync, emit_mem, hf, hE, hR, set_ret_mem_same]
  generalize (call_function fn (s.mem cmd).arg (s.mem cmd).ret
    (emit (emit s (Event.mutex_lock cmd)) (Event.func cmd (s.mem cmd).arg))).2.2 = W at *
  have hsel : (if R = 0 then
        match (W.mem cmd).func_bh with
        | some bh => run_func_bh (set_ret W cmd R) cmd bh
        | none => set_ret W cmd R
      else set_ret W cmd R) = set_ret W cmd R := by
    rcases hbh with h | h
    · simp [h]
    · simp [h, hm]
  simp only [hsel]
  refine ⟨by simp [hm, hf], ?_, by simpa using hcu, by simpa using hpi, by simp,
    by simp [hwt], by simpa using hft, d, by simp [ht], hd⟩
  intro q hq
  simp [set_ret_mem_other _ _ _ _ hq, hm]

theorem command_cb_sync_done_bh (s : World) (cmd : Nat) (fn bh : command_function) (B : Int)
    (hf : (s.mem cmd).func = some fn) (hb : (s.mem cmd).func_bh = some bh)
    (hE : ∀ w, (call_function fn (s.mem cmd).arg (s.mem cmd).ret w).1 = COMMAND_END)
    (hR : ∀ w, (call_function fn (s.mem cmd).arg (s.mem cmd).ret w).2.1 = 0)
    (hB : ∀ w, (call_function bh (s.mem cmd).arg 0 w).2.1 = B) :
    (command_cb_sync s cmd).mem cmd = { s.mem cmd with ret := B } ∧
    (∀ q, q ≠ cmd → (command_cb_sync s cmd).mem q = s.mem q) ∧
    (command_cb_sync s cmd).cmdbase.current_cmd = s.cmdbase.current_cmd ∧
    (command_cb_sync s cmd).cmdbase.command_pipe = s.cmdbase.command_pipe ∧
    (command_cb_sync s cmd).cmdbase.command_event = true ∧
    (command_cb_sync s cmd).waiting = s.waiting.filter (fun c => c ≠ cmd) ∧
    (command_cb_sync s cmd).fault = s.fault ∧
    ∃ d d', (command_cb_sync s cmd).trace =
        s.trace ++ [Event.mutex_lock cmd, Event.func cmd (s.mem cmd).arg] ++ d ++
          [Event.func_bh cmd (s.mem cmd).arg] ++ d' ++
          [Event.cond_signal cmd, Event.mutex_unlock cmd, Event.event_add] ∧
      (∀ e ∈ d, e = Event.exit_cb ∨ e = Event.loopbreak) ∧
      (∀ e ∈ d', e = Event.exit_cb ∨ e = Event.loopbreak) := by
  have hm := call_function_mem fn (s.mem cmd).arg (s.mem cmd).ret
    (emit (emit s (Event.mutex_lock cmd)) (Event.func cmd (s.mem cmd).arg))
  have hwt := call_function_waiting fn (s.mem cmd).arg (s.mem cmd).ret
    (emit (emit s (Event.mutex_lock cmd)) (Event.func cmd (s.mem cmd).arg))
  have hft := call_function_fault fn (s.mem cmd).arg (s.mem cmd).ret
    (emit (emit s (Event.mutex_lock cmd)) (Event.func cmd (s.mem cmd).arg))
  have hcu := call_function_current fn (s.mem cmd).arg (s.mem cmd).ret
    (emit (emit s (Event.mutex_lock cmd)) (Event.func cmd (s.mem cmd).arg))
  have hpi := call_function_pipe fn (s.mem cmd).arg (s.mem cmd).ret
    (emit (emit s (Event.mutex_lock cmd)) (Event.func cmd (s.mem cmd).arg))
  obtain ⟨d, ht, hd⟩ := call_function_trace fn (s.mem cmd).arg (s.mem cmd).ret
    (emit (emit s (Event.mutex_lock cmd)) (Event.func cmd (s.mem cmd).arg))
  simp only [command_cb_sync, emit_mem, hf, hE, hR, set_ret_mem_same]
  generalize (call_function fn (s.mem cmd).arg (s.mem cmd).ret
    (emit (emit s (Event.mutex_lock cmd)) (Event.func cmd (s.mem cmd).arg))).2.2 = W at *
  have hbW : (W.mem cmd).func_bh = some bh := by simp [hm, hb]
  have hB' : ∀ w, (call_function bh ((set_ret W cmd 0).mem cmd).arg
      ((set_ret W cmd 0).mem cmd).ret w).2.1 = B := by
    intro w
    simpa [hm] using hB w
  obtain ⟨b1, b2, b3, b4, b5, b6, b7, d', b8, b9⟩ := run_func_bh_spec (set_ret W cmd 0) cmd bh B hB'
  simp only [if_true, hbW]
  refine ⟨by simp [b1, hm, hf, hb], ?_, by simpa [b3] using hcu, by simpa [b4] using hpi, by simp,
    by simp [b6, hwt], by simpa [b7] using hft, d, d', by simp [b8, ht, hm], hd, b9⟩
  intro q hq
  simp [b2 q hq, set_ret_mem_other _ _ _ _ hq, hm]

/-- The synchronous executor run on `c` touches no other command, wakes no other caller,
leaves the pipe alone and can only put `c` into the pending slot. -/
theorem command_cb_sync_frame (s : World) (c : Nat) :
    (∀ q, q ≠ c → (command_cb_sync s c).mem q = s.mem q) ∧
    (∀ q, q ≠ c → q ∈ s.waiting → q ∈ (command_cb_sync s c).waiting) ∧
    ((command_cb_sync s c).cmdbase.current_cmd = s.cmdbase.current_cmd ∨
      (command_cb_sync s c).cmdbase.current_cmd = some c) ∧
    (command_cb_sync s c).cmdbase.command_pipe = s.cmdbase.command_pipe := by
  cases hf : (s.mem c).func with
  | none => simp [command_cb_sync, hf]
  | some fn =>
    cases hst : (call_function fn (s.mem c).arg (s.mem c).ret s).1 with
    | COMMAND_PENDING =>
      obtain ⟨_, p2, p3, p4, _, p6, _⟩ := command_cb_sync_pending s c fn
        (call_function fn (s.mem c).arg (s.mem c).ret s).2.1 hf
        (fun w => by rw [(call_function_report fn (s.mem c).arg (s.mem c).ret w s).1, hst])
        (fun w => (call_function_report fn (s.mem c).arg (s.mem c).ret w s).2)
      exact ⟨p2, fun q _ hq => by rw [p6]; exact hq, Or.inr p3, p4⟩
    | COMMAND_END =>
      have hE : ∀ w, (call_function fn (s.mem c).arg (s.mem c).ret w).1 = COMMAND_END :=
        fun w => by rw [(call_function_report fn (s.mem c).arg (s.mem c).ret w s).1, hst]
      by_cases hnb : (call_function fn (s.mem c).arg (s.mem c).ret s).2.1 ≠ 0 ∨
          (s.mem c).func_bh = none
      · obtain ⟨_, d2, d3, d4, _, d6, _⟩ := command_cb_sync_done s c fn
          (call_function fn (s.mem c).arg (s.mem c).ret s).2.1 hf hE
          (fun w => (call_function_report fn (s.mem c).arg (s.mem c).ret w s).2) hnb
        exact ⟨d2, fun q hq hw => by rw [d6]; simp [List.mem_filter, hw, hq], Or.inl d3, d4⟩
      · have h0 : (call_function fn (s.mem c).arg (s.mem c).ret s).2.1 = 0 := by
          by_contra h; exact hnb (Or.inl h)
        cases hb : (s.mem c).func_bh with
        | none => exact absurd (Or.inr hb) hnb
        | some bh =>
          obtain ⟨_, d2, d3, d4, _, d6, _⟩ := command_cb_sync_done_bh s c fn bh
            (call_function bh (s.mem c).arg 0 s).2.1 hf hb hE
            (fun w => by rw [(call_function_report fn (s.mem c).arg (s.mem c).ret w s).2, h0])
            (fun w => (call_function_report bh (s.mem c).arg 0 w s).2)
          exact ⟨d2, fun q hq hw => by rw [d6]; simp [List.mem_filter, hw, hq], Or.inl d3, d4⟩

/-- The asynchronous executor run on `c` touches no other command, wakes nobody and leaves
the pipe and the pending slot alone. -/
theorem command_cb_async_frame (s : World) (c : Nat) :
    (∀ q, q ≠ c → (command_cb_async s c).mem q = s.mem q) ∧
    (command_cb_async s c).waiting = s.waiting ∧
    (command_cb_async s c).cmdbase.current_cmd = s.cmdbase.current_cmd ∧
    (command_cb_async s c).cmdbase.command_pipe = s.cmdbase.command_pipe := by
  cases hf : (s.mem c).func with
  | none => simp [command_cb_async, hf]
  | some fn =>
    have hm := call_function_mem fn (s.mem c).arg (s.mem c).ret
      (emit s (Event.func c (s.mem c).arg))
    have hwt := call_function_waiting fn (s.mem c).arg (s.mem c).ret
      (emit s (Event.func c (s.mem c).arg))
    have hcu := call_function_current fn (s.mem c).arg (s.mem c).ret
      (emit s (Event.func c (s.mem c).arg))
    have hpi := call_function_pipe fn (s.mem c).arg (s.mem c).ret
      (emit s (Event.func c (s.mem c).arg))
    simp only [command_cb_async, hf, emit_mem]
    generalize (call_function fn (s.mem c).arg (s.mem c).ret
      (emit s (Event.func c (s.mem c).arg))).2.2 = W at *
    refine ⟨?_, ?_, ?_, ?_⟩
    · intro q hq
      split <;> simp [set_ret_mem_other _ _ _ _ hq, hm]
    · split <;> simp [hwt]
    · split <;> simpa using hcu
    · split <;> simpa using hpi

/-- The asynchronous executor run on a command whose primary function reports the state
`st` and leaves `r` in the result slot. -/
theorem command_cb_async_spec (s : World) (cmd : Nat) (fn : command_function)
    (st : command_state) (r : Int)
    (hf : (s.mem cmd).func = some fn)
    (hS : ∀ w, (call_function fn (s.mem cmd).arg (s.mem cmd).ret w).1 = st)
    (hR : ∀ w, (call_function fn (s.mem cmd).arg (s.mem cmd).ret w).2.1 = r) :
    (command_cb_async s cmd).mem cmd = { s.mem cmd with ret := r } ∧
    (∀ q, q ≠ cmd → (command_cb_async s cmd).mem q = s.mem q) ∧
    (command_cb_async s cmd).cmdbase.current_cmd = s.cmdbase.current_cmd ∧
    (command_cb_async s cmd).cmdbase.command_pipe = s.cmdbase.command_pipe ∧
    (command_cb_async s cmd).cmdbase.command_event = true ∧
    (command_cb_async s cmd).waiting = s.waiting ∧
    (command_cb_async s cmd).fault = s.fault ∧
    ∃ d, (command_cb_async s cmd).trace =
        s.trace ++ [Event.func cmd (s.mem cmd).arg] ++ d ++
          (if st ≠ COMMAND_PENDING ∧ (s.mem cmd).arg ≠ 0
            then [Event.free (s.mem cmd).arg] else []) ++
          [Event.free cmd, Event.event_add] ∧
      ∀ e ∈ d, e = Event.exit_cb ∨ e = Event.loopbreak := by
  have hm := call_function_mem fn (s.mem cmd).arg (s.mem cmd).ret
    (emit s (Event.func cmd (s.mem cmd).arg))
  have hwt := call_function_waiting fn (s.mem cmd).arg (s.mem cmd).ret
    (emit s (Event.func cmd (s.mem cmd).arg))
  have hft := call_function_fault fn (s.mem cmd).arg (s.mem cmd).ret
    (emit s (Event.func cmd (s.mem cmd).arg))
  have hcu := call_function_current fn (s.mem cmd).arg (s.mem cmd).ret
    (emit s (Event.func cmd (s.mem cmd).arg))
  have hpi := call_function_pipe fn (s.mem cmd).arg (s.mem cmd).ret
    (emit s (Event.func cmd (s.mem cmd).arg))
  obtain ⟨d, ht, hd⟩ := call_function_trace fn (s.mem cmd).arg (s.mem cmd).ret
    (emit s (Event.func cmd (s.mem cmd).arg))
  simp only [command_cb_async, hf, emit_mem, hS, hR, set_ret_mem_same]
  generalize (call_function fn (s.mem cmd).arg (s.mem cmd).ret
    (emit s (Event.func cmd (s.mem cmd).arg))).2.2 = W at *
  have harg : (W.mem cmd).arg = (s.mem cmd).arg := by rw [hm]; rfl
  simp only [harg]
  refine ⟨?_, ?_, ?_, ?_, ?_, ?_, ?_, d, ?_, hd⟩
  · split <;> simp [hm, hf]
  · intro q hq
    split <;> simp [set_ret_mem_other _ _ _ _ hq, hm]
  · split <;> simpa using hcu
  · split <;> simpa using hpi
  · split <;> simp
  · split <;> simp [hwt]
  · split <;> simpa using hft
  · split <;> simp [ht]

/-! ## Completion of a pending command -/

theorem commands_exec_end_idle (s : World) (v : Int) (h : s.cmdbase.current_cmd = none) :
    commands_exec_end s v = s := by
  simp [commands_exec_end, h]

theorem commands_exec_end_more (s : World) (cmd : Nat) (v : Int)
    (h : s.cmdbase.current_cmd = some cmd) (hp : 0 < int_dec (s.mem cmd).pending) :
    commands_exec_end s v =
      store s cmd { s.mem cmd with pending := int_dec (s.mem cmd).pending, ret := v } := by
  simp only [commands_exec_end, h, set_ret_mem_same, set_pending_mem_same]
  simp only [gt_iff_lt, hp, if_true]
  simp [set_ret, set_pending, store]
  funext q
  by_cases hq : q = cmd <;> simp [hq]

theorem commands_exec_end_final (s : World) (cmd : Nat) (v : Int)
    (h : s.cmdbase.current_cmd = some cmd) (hp : int_dec (s.mem cmd).pending ≤ 0)
    (hb : (s.mem cmd).func_bh = none) :
    commands_exec_end s v =
      event_add (set_current (emit (pthread_cond_signal
        (store s cmd { s.mem cmd with pending := int_dec (s.mem cmd).pending, ret := v }) cmd)
        (Event.mutex_unlock cmd)) none) := by
  have hp' : ¬ (0 < int_dec (s.mem cmd).pending) := by omega
  simp only [commands_exec_end, h, set_ret_mem_same, set_pending_mem_same]
  simp only [gt_iff_lt, hp', if_false, hb]
  congr 5
  simp [set_ret, set_pending, store]
  funext q
  by_cases hq : q = cmd <;> simp [hq, hb]

theorem commands_exec_end_final_bh (s : World) (cmd : Nat) (v : Int) (bh : command_function)
    (h : s.cmdbase.current_cmd = some cmd) (hp : int_dec (s.mem cmd).pending ≤ 0)
    (hb : (s.mem cmd).func_bh = some bh) :
    commands_exec_end s v =
      event_add (set_current (emit (pthread_cond_signal (run_func_bh
        (store s cmd { s.mem cmd with pending := int_dec (s.mem cmd).pending, ret := v }) cmd bh)
        cmd) (Event.mutex_unlock cmd)) none) := by
  have hp' : ¬ (0 < int_dec (s.mem cmd).pending) := by omega
  simp only [commands_exec_end, h, set_ret_mem_same, set_pending_mem_same]
  simp only [gt_iff_lt, hp', if_false, hb]
  congr 6
  simp [set_ret, set_pending, store]
  funext q
  by_cases hq : q = cmd <;> simp [hq, hb]

/-- The last call of `commands_exec_end` for a pending command without bottom half. -/
theorem commands_exec_end_final_spec (s : World) (cmd : Nat) (v : Int)
    (h : s.cmdbase.current_cmd = some cmd) (hp : int_dec (s.mem cmd).pending ≤ 0)
    (hb : (s.mem cmd).func_bh = none) :
    (commands_exec_end s v).mem cmd =
      { s.mem cmd with pending := int_dec (s.mem cmd).pending, ret := v } ∧
    (∀ q, q ≠ cmd → (commands_exec_end s v).mem q = s.mem q) ∧
    (commands_exec_end s v).cmdbase.current_cmd = none ∧
    (commands_exec_end s v).cmdbase.command_pipe = s.cmdbase.command_pipe ∧
    (commands_exec_end s v).cmdbase.command_event = true ∧
    (commands_exec_end s v).waiting = s.waiting.filter (fun c => c ≠ cmd) ∧
    (commands_exec_end s v).fault = s.fault ∧
    (commands_exec_end s v).trace =
      s.trace ++ [Event.cond_signal cmd, Event.mutex_unlock cmd, Event.event_add] := by
  rw [commands_exec_end_final s cmd v h hp hb]
  refine ⟨by simp, ?_, by simp, by simp, by simp, by simp, by simp, by simp⟩
  intro q hq
  simp [store_mem_other _ _ _ _ hq]

/-- The last call of `commands_exec_end` for a pending command with a bottom half. -/
theorem commands_exec_end_final_bh_spec (s : World) (cmd : Nat) (v : Int)
    (bh : command_function) (B : Int)
    (h : s.cmdbase.current_cmd = some cmd) (hp : int_dec (s.mem cmd).pending ≤ 0)
    (hb : (s.mem cmd).func_bh = some bh)
    (hB : ∀ w, (call_function bh (s.mem cmd).arg v w).2.1 = B) :
    (commands_exec_end s v).mem cmd =
      { s.mem cmd with pending := int_dec (s.mem cmd).pending, ret := B } ∧
    (∀ q, q ≠ cmd → (commands_exec_end s v).mem q = s.mem q) ∧
    (commands_exec_end s v).cmdbase.current_cmd = none ∧
    (commands_exec_end s v).cmdbase.command_pipe = s.cmdbase.command_pipe ∧
    (commands_exec_end s v).cmdbase.command_event = true ∧
    (commands_exec_end s v).waiting = s.waiting.filter (fun c => c ≠ cmd) ∧
    (commands_exec_end s v).fault = s.fault ∧
    ∃ d, (commands_exec_end s v).trace =
        s.trace ++ [Event.func_bh cmd (s.mem cmd).arg] ++ d ++
          [Event.cond_signal cmd, Event.mutex_unlock cmd, Event.event_add] ∧
      ∀ e ∈ d, e = Event.exit_cb ∨ e = Event.loopbreak := by
  rw [commands_exec_end_final_bh s cmd v bh h hp hb]
  obtain ⟨b1, b2, b3, b4, _, b6, b7, d, b8, b9⟩ := run_func_bh_spec
    (store s cmd { s.mem cmd with pending := int_dec (s.mem cmd).pending, ret := v }) cmd bh B
    (by simpa using hB)
  refine ⟨by simp [b1], ?_, by simp, by simp [b4], by simp, by simp [b6], by simp [b7],
    d, by simp [b8], b9⟩
  intro q hq
  simp [b2 q hq, store_mem_other _ _ _ _ hq]

/-- The last call of `commands_exec_end` for a pending command: the caller is woken, the
result code is the reported value or what the bottom half stored, and the bottom half, when
there is one, is called once. -/
theorem commands_exec_end_last (s wr : World) (cmd : Nat) (v : Int)
    (h : s.cmdbase.current_cmd = some cmd) (hp : int_dec (s.mem cmd).pending ≤ 0) :
    cmd ∉ (commands_exec_end s v).waiting ∧
    ((commands_exec_end s v).mem cmd).ret =
      (match (s.mem cmd).func_bh with
        | none => v
        | some bh => (call_function bh (s.mem cmd).arg v wr).2.1) ∧
    (commands_exec_end s v).trace.filter is_func_bh =
      s.trace.filter is_func_bh ++
        (match (s.mem cmd).func_bh with
          | none => []
          | some _ => [Event.func_bh cmd (s.mem cmd).arg]) := by
  cases hb : (s.mem cmd).func_bh with
  | none =>
    obtain ⟨a1, _, _, _, _, a6, _, a8⟩ := commands_exec_end_final_spec s cmd v h hp hb
    exact ⟨by rw [a6]; simp [List.mem_filter], by rw [a1], by simp [a8, is_func_bh]⟩
  | some bh =>
    obtain ⟨a1, _, _, _, _, a6, _, d, a8, a9⟩ := commands_exec_end_final_bh_spec s cmd v bh
      (call_function bh (s.mem cmd).arg v wr).2.1 h hp hb
      (fun w => (call_function_report bh (s.mem cmd).arg v w wr).2)
    exact ⟨by rw [a6]; simp [List.mem_filter], by rw [a1],
      by simp [a8, is_func_bh, filter_bh_effects d a9]⟩

/-- A call of `commands_exec_end` while `c` is pending touches no other command, wakes no
other caller, leaves the pipe alone and can only clear the pending slot. -/
theorem commands_exec_end_frame (s : World) (c : Nat) (v : Int)
    (hc : s.cmdbase.current_cmd = some c) :
    (∀ q, q ≠ c → (commands_exec_end s v).mem q = s.mem q) ∧
    (∀ q, q ≠ c → q ∈ s.waiting → q ∈ (commands_exec_end s v).waiting) ∧
    ((commands_exec_end s v).cmdbase.current_cmd = some c ∨
      (commands_exec_end s v).cmdbase.current_cmd = none) ∧
    (commands_exec_end s v).cmdbase.command_pipe = s.cmdbase.command_pipe := by
  by_cases hp : 0 < int_dec (s.mem c).pending
  · rw [commands_exec_end_more s c v hc hp]
    exact ⟨fun q hq => store_mem_other _ _ _ _ hq, fun q _ hw => hw, Or.inl hc, rfl⟩
  · have hp' : int_dec (s.mem c).pending ≤ 0 := by omega
    cases hb : (s.mem c).func_bh with
    | none =>
      obtain ⟨_, a2, a3, a4, _, a6, _⟩ := commands_exec_end_final_spec s c v hc hp' hb
      exact ⟨a2, fun q hq hw => by rw [a6]; simp [List.mem_filter, hw, hq], Or.inr a3, a4⟩
    | some bh =>
      obtain ⟨_, a2, a3, a4, _, a6, _⟩ := commands_exec_end_final_bh_spec s c v bh
        (call_function bh (s.mem c).arg v s).2.1 hc hp' hb
        (fun w => (call_function_report bh (s.mem c).arg v w s).2)
      exact ⟨a2, fun q hq hw => by rw [a6]; simp [List.mem_filter, hw, hq], Or.inr a3, a4⟩

/-- Calls of `commands_exec_end` that leave steps outstanding only count down and
overwrite the result code; the caller stays asleep. -/
theorem pending_run_more (cmd : Nat) (vs : List Int) :
    ∀ w, w.cmdbase.current_cmd = some cmd → cmd ∈ w.waiting →
      (vs.length : Int) < (w.mem cmd).pending → (w.mem cmd).pending ≤ INT_MAX →
      reactor_run w cmd (vs.map ReactorStep.exec_end) =
        store w cmd { w.mem cmd with
          pending := (w.mem cmd).pending - vs.length,
          ret := (vs.getLast?).getD (w.mem cmd).ret } := by
  induction vs with
  | nil =>
    intro w _ _ _ _
    simp only [List.map_nil, reactor_run, List.length_nil, Int.Nat.cast_ofNat_Int, sub_zero,
      List.getLast?_nil, Option.getD_none]
    exact (store_self w cmd).symm
  | cons v vs ih =>
    intro w hc hw hlt hmax
    have hlen : ((v :: vs).length : Int) = (vs.length : Int) + 1 := by simp
    have hdec : int_dec (w.mem cmd).pending = (w.mem cmd).pending - 1 :=
      int_dec_eq _ (by unfold INT_MIN; omega) hmax
    rw [List.map_cons, reactor_run_asleep _ _ _ _ hw]
    simp only [reactor_step]
    rw [commands_exec_end_more w cmd v hc (by rw [hdec]; omega), hdec]
    rw [ih _ (by simpa using hc) (by simpa using hw) (by simp; omega) (by simp; omega)]
    simp only [store, store_mem_same]
    congr 1
    funext q
    by_cases hq : q = cmd
    · simp only [hq, if_true, hlen, getLast?_cons_getD]
      simp
      omega
    · simp [hq]

/-- Calls of `commands_exec_end` that leave steps outstanding, as a fold over the values
passed to them. -/
theorem pending_fold_more (cmd : Nat) (vs : List Int) :
    ∀ w, w.cmdbase.current_cmd = some cmd →
      (vs.length : Int) < (w.mem cmd).pending → (w.mem cmd).pending ≤ INT_MAX →
      vs.foldl commands_exec_end w =
        store w cmd { w.mem cmd with
          pending := (w.mem cmd).pending - vs.length,
          ret := (vs.getLast?).getD (w.mem cmd).ret } := by
  induction vs with
  | nil =>
    intro w _ _ _
    simp only [List.foldl_nil, List.length_nil, Int.Nat.cast_ofNat_Int, sub_zero,
      List.getLast?_nil, Option.getD_none]
    exact (store_self w cmd).symm
  | cons v vs ih =>
    intro w hc hlt hmax
    have hlen : ((v :: vs).length : Int) = (vs.length : Int) + 1 := by simp
    have hdec : int_dec (w.mem cmd).pending = (w.mem cmd).pending - 1 :=
      int_dec_eq _ (by unfold INT_MIN; omega) hmax
    rw [List.foldl_cons, commands_exec_end_more w cmd v hc (by rw [hdec]; omega), hdec]
    rw [ih _ (by simpa using hc) (by simp; omega) (by simp; omega)]
    simp only [store, store_mem_same]
    congr 1
    funext q
    by_cases hq : q = cmd
    · simp only [hq, if_true, hlen, getLast?_cons_getD]
      simp
      omega
    · simp [hq]

/-! ## The dispatcher -/

theorem command_cb_short (s : World) (n : Int) (h : n ≠ sizeof_cmd) :
    command_cb s n = event_add (read_command s n).2 := by
  simp [command_cb, h]

theorem read_command_full (s : World) (c : Nat) (rest : List Nat)
    (hp : s.cmdbase.command_pipe = c :: rest) :
    read_command s sizeof_cmd = (c, set_pipe (emit s (Event.read sizeof_cmd)) rest) := by
  simp [read_command, hp]

theorem command_cb_sync_route (s : World) (c : Nat) (rest : List Nat)
    (hp : s.cmdbase.command_pipe = c :: rest) (hnb : (s.mem c).nonblock = 0) :
    command_cb s sizeof_cmd =
      command_cb_sync (set_pipe (emit s (Event.read sizeof_cmd)) rest) c := by
  simp [command_cb, read_command_full s c rest hp, hnb]

theorem command_cb_async_route (s : World) (c : Nat) (rest : List Nat)
    (hp : s.cmdbase.command_pipe = c :: rest) (hnb : (s.mem c).nonblock ≠ 0) :
    command_cb s sizeof_cmd =
      command_cb_async (set_pipe (emit s (Event.read sizeof_cmd)) rest) c := by
  simp [command_cb, read_command_full s c rest hp, hnb]

/-- A read that does not return a full reference changes only the pipe and the trace. -/
theorem read_command_short (s : World) (n : Int) (h : n ≠ sizeof_cmd) :
    (read_command s n).2.mem = s.mem ∧
    (read_command s n).2.waiting = s.waiting ∧
    (read_command s n).2.fault = s.fault ∧
    (read_command s n).2.cmdbase.current_cmd = s.cmdbase.current_cmd ∧
    (read_command s n).2.cmdbase.command_event = s.cmdbase.command_event ∧
    (read_command s n).2.trace = s.trace ++ [Event.read n] ∧
    ((read_command s n).2.cmdbase.command_pipe = s.cmdbase.command_pipe ∨
      (read_command s n).2.cmdbase.command_pipe = s.cmdbase.command_pipe.tail) := by
  unfold read_command
  cases hp : s.cmdbase.command_pipe with
  | nil => simp [hp]
  | cons c rest =>
    by_cases hn : n ≤ 0
    · simp [hp, h, hn]
    · simp [hp, h, hn]

/-! ## Submission of a blocking command -/

theorem commands_exec_sync_sent (s : World) (cmd : Nat) (fn : command_function)
    (func_bh : Option command_function) (arg : Nat) (sched : List ReactorStep) :
    commands_exec_sync s cmd (some fn) func_bh arg sizeof_cmd sched =
      if cmd ∈ (reactor_run (submitted s cmd (some fn) func_bh arg) cmd sched).waiting
      then (none, reactor_run (submitted s cmd (some fn) func_bh arg) cmd sched)
      else (some ((reactor_run (submitted s cmd (some fn) func_bh arg) cmd sched).mem cmd).ret,
            emit (reactor_run (submitted s cmd (some fn) func_bh arg) cmd sched)
              (Event.mutex_unlock cmd)) := by
  simp [commands_exec_sync, submitted, send_command]

theorem submitted_spec (s : World) (cmd : Nat) (fn : command_function)
    (func_bh : Option command_function) (arg : Nat) :
    (submitted s cmd (some fn) func_bh arg).mem cmd =
      { func := some fn, func_bh := func_bh, arg := arg, nonblock := 0, ret := 0, pending := 0 } ∧
    (submitted s cmd (some fn) func_bh arg).cmdbase.current_cmd = s.cmdbase.current_cmd ∧
    (submitted s cmd (some fn) func_bh arg).cmdbase.command_pipe =
      s.cmdbase.command_pipe ++ [cmd] ∧
    (submitted s cmd (some fn) func_bh arg).cmdbase.command_event = s.cmdbase.command_event ∧
    cmd ∈ (submitted s cmd (some fn) func_bh arg).waiting ∧
    (submitted s cmd (some fn) func_bh arg).trace =
      s.trace ++ [Event.mutex_lock cmd, Event.write cmd sizeof_cmd, Event.cond_wait cmd] := by
  simp [submitted, send_command, pthread_cond_wait]

theorem idle_fresh (s : World) (cmd : Nat) (h : Idle s) : Fresh cmd s := by
  obtain ⟨h1, h2, _⟩ := h
  exact ⟨by rw [h1]; simp, by rw [h2]; simp⟩

theorem submitted_queued (s : World) (cmd : Nat) (fn : command_function)
    (func_bh : Option command_function) (arg : Nat) (hfresh : Fresh cmd s) :
    Queued cmd
      { func := some fn, func_bh := func_bh, arg := arg, nonblock := 0, ret := 0, pending := 0 }
      (submitted s cmd (some fn) func_bh arg) := by
  obtain ⟨h1, h2⟩ := hfresh
  obtain ⟨a1, a2, a3, _, a5, _⟩ := submitted_spec s cmd fn func_bh arg
  refine ⟨by rw [a2]; exact h2, a5, a1, ?_⟩
  rw [a3, List.count_append, List.count_eq_zero_of_not_mem h1]
  simp

/-- While the command is queued, a step of the event loop either leaves it queued or
dispatches it through `command_cb_sync`. -/
theorem queued_step (cmd : Nat) (c : command) (w : World) (st : ReactorStep)
    (hnb : c.nonblock = 0) (hq : Queued cmd c w) :
    Queued cmd c (reactor_step w st) ∨
      ∃ w0, reactor_step w st = command_cb_sync w0 cmd ∧ w0.mem cmd = c ∧
        cmd ∈ w0.waiting := by
  obtain ⟨h1, h2, h3, h4⟩ := hq
  cases st with
  | exec_end v =>
    left
    simp only [reactor_step]
    cases hc : w.cmdbase.current_cmd with
    | none => rw [commands_exec_end_idle _ _ hc]; exact ⟨h1, h2, h3, h4⟩
    | some c' =>
      have hne : cmd ≠ c' := by
        intro h; apply h1; rw [hc, h]
      obtain ⟨f1, f2, f3, f4⟩ := commands_exec_end_frame w c' v hc
      refine ⟨?_, f2 cmd hne h2, by rw [f1 cmd hne]; exact h3, by rw [f4]; exact h4⟩
      rcases f3 with f | f
      · rw [f]; intro h; exact hne (Option.some.inj h).symm
      · rw [f]; simp
  | wake n =>
    simp only [reactor_step]
    split
    next hfire =>
      cases hp : w.cmdbase.command_pipe with
      | nil => exact absurd hp hfire.2
      | cons hd rest =>
        rw [hp] at h4
        by_cases hn : n = sizeof_cmd
        · subst hn
          by_cases hh : hd = cmd
          · right
            subst hh
            exact ⟨set_pipe (emit (set_event w false) (Event.read sizeof_cmd)) rest,
              command_cb_sync_route (set_event w false) hd rest (by simpa using hp)
                (by simpa [h3] using hnb), by simpa using h3, by simpa using h2⟩
          · left
            have hne : cmd ≠ hd := fun h => hh h.symm
            have hcount : rest.count cmd ≤ 1 := by
              rw [List.count_cons_of_ne hne] at h4; exact h4
            by_cases hb : ((set_event w false).mem hd).nonblock = 0
            · rw [command_cb_sync_route (set_event w false) hd rest (by simpa using hp) hb]
              obtain ⟨f1, f2, f3, f4⟩ := command_cb_sync_frame
                (set_pipe (emit (set_event w false) (Event.read sizeof_cmd)) rest) hd
              refine ⟨?_, f2 cmd hne (by simpa using h2), by rw [f1 cmd hne]; simpa using h3,
                by rw [f4]; simpa using hcount⟩
              rcases f3 with f | f
              · rw [f]; simpa using h1
              · rw [f]; intro h; exact hh (Option.some.inj h)
            · rw [command_cb_async_route (set_event w false) hd rest (by simpa using hp) hb]
              obtain ⟨f1, f2, f3, f4⟩ := command_cb_async_frame
                (set_pipe (emit (set_event w false) (Event.read sizeof_cmd)) rest) hd
              exact ⟨by rw [f3]; simpa using h1, by rw [f2]; simpa using h2,
                by rw [f1 cmd hne]; simpa using h3, by rw [f4]; simpa using hcount⟩
        · left
          rw [command_cb_short _ _ hn]
          obtain ⟨r1, r2, _, r4, _, _, r7⟩ := read_command_short (set_event w false) n hn
          refine ⟨by simp [r4, h1], by simp [r2, h2], by simp [r1, h3], ?_⟩
          rcases r7 with r | r
          · simp only [event_add_pipe, r, set_event_pipe, hp]; exact h4
          · simp only [event_add_pipe, r, set_event_pipe, hp, List.tail_cons]
            exact le_trans (List.Sublist.count_le (List.sublist_cons_self hd rest) cmd) h4
    next => left; exact ⟨h1, h2, h3, h4⟩

/-- Whatever the event loop does, the caller of a queued blocking command either still
sleeps or has been woken by the run of `command_cb_sync` on its command, in a world `w0`
in which the command is as it was submitted. -/
theorem queued_run (cmd : Nat) (c : command) (hnb : c.nonblock = 0) (P : World → Prop)
    (hP : ∀ w0, w0.mem cmd = c → cmd ∈ w0.waiting →
      cmd ∉ (command_cb_sync w0 cmd).waiting ∧ P (command_cb_sync w0 cmd))
    (sched : List ReactorStep) :
    ∀ w, Queued cmd c w →
      cmd ∈ (reactor_run w cmd sched).waiting ∨
        (cmd ∉ (reactor_run w cmd sched).waiting ∧ P (reactor_run w cmd sched)) := by
  induction sched with
  | nil => intro w hq; left; exact hq.2.1
  | cons st rest ih =>
    intro w hq
    rw [reactor_run_asleep _ _ _ _ hq.2.1]
    rcases queued_step cmd c w st hnb hq with h | ⟨w0, e, m, hw0⟩
    · exact ih _ h
    · right
      obtain ⟨p1, p2⟩ := hP w0 m hw0
      rw [reactor_run_awake _ _ _ (by rw [e]; exact p1), e]
      exact ⟨p1, p2⟩

/-- The world in which `command_cb_sync` starts when the event loop takes a freshly
submitted command out of the pipe of an idle base. -/
theorem submitted_wake (s : World) (cmd : Nat) (fn : command_function)
    (func_bh : Option command_function) (arg : Nat) (hidle : Idle s) :
    ∃ w0, reactor_step (submitted s cmd (some fn) func_bh arg) (ReactorStep.wake sizeof_cmd) =
        command_cb_sync w0 cmd ∧
      w0.mem cmd = { func := some fn, func_bh := func_bh, arg := arg, nonblock := 0,
                     ret := 0, pending := 0 } ∧
      cmd ∈ w0.waiting ∧ w0.cmdbase.current_cmd = none ∧ w0.cmdbase.command_pipe = [] ∧
      w0.cmdbase.command_event = false ∧
      w0.trace = s.trace ++ [Event.mutex_lock cmd, Event.write cmd sizeof_cmd,
        Event.cond_wait cmd, Event.read sizeof_cmd] := by
  obtain ⟨h1, h2, h3⟩ := hidle
  obtain ⟨a1, a2, a3, a4, a5, a6⟩ := submitted_spec s cmd fn func_bh arg
  have hp : (submitted s cmd (some fn) func_bh arg).cmdbase.command_pipe = [cmd] := by
    rw [a3, h1]; rfl
  refine ⟨set_pipe (emit (set_event (submitted s cmd (some fn) func_bh arg) false)
    (Event.read sizeof_cmd)) [], ?_, by simpa using a1, by simpa using a5,
    by simp [a2, h2], by simp, by simp, by simp [a6]⟩
  simp only [reactor_step, a4, h3, hp]
  simp only [ne_eq, List.cons_ne_nil, not_false_eq_true, and_self, if_true]
  exact command_cb_sync_route _ cmd [] (by simpa using hp) (by simp [a1])

/-- The state in which a freshly submitted blocking command is left by its dispatch when
the primary function reports `COMMAND_PENDING` with `N` in the result slot. -/
theorem submitted_pending (s : World) (cmd arg : Nat) (fn : command_function)
    (func_bh : Option command_function) (N : Int) (hidle : Idle s)
    (hpend : ∀ w, (call_function fn arg 0 w).1 = COMMAND_PENDING ∧
      (call_function fn arg 0 w).2.1 = N) :
    ∃ w1, reactor_step (submitted s cmd (some fn) func_bh arg) (ReactorStep.wake sizeof_cmd) = w1 ∧
      w1.mem cmd = { func := some fn, func_bh := func_bh, arg := arg, nonblock := 0,
                     ret := N, pending := N } ∧
      w1.cmdbase.current_cmd = some cmd ∧ cmd ∈ w1.waiting ∧
      w1.cmdbase.command_event = false ∧ w1.cmdbase.command_pipe = [] ∧
      w1.trace.filter is_func_bh = s.trace.filter is_func_bh := by
  obtain ⟨w0, e, m, hw, _, hpi, hev, t0⟩ := submitted_wake s cmd fn func_bh arg hidle
  obtain ⟨p1, _, p3, p4, p5, p6, _, d, p8, hd⟩ := command_cb_sync_pending w0 cmd fn N (by rw [m])
    (by rw [m]; exact fun w => (hpend w).1) (by rw [m]; exact fun w => (hpend w).2)
  refine ⟨_, rfl, ?_, by rw [e, p3], by rw [e, p6]; exact hw, by rw [e, p5, hev],
    by rw [e, p4, hpi], ?_⟩
  · rw [e, p1, m]
  · rw [e, p8, t0]
    simp [is_func_bh, filter_bh_effects d hd]

/-- What a blocking submission leaves behind when the event loop has not run yet. -/
theorem commands_exec_sync_nil_spec (s : World) (cmd : Nat)
    (func func_bh : Option command_function) (arg : Nat) (n : Int) :
    (commands_exec_sync s cmd func func_bh arg n []).2.cmdbase.current_cmd =
      s.cmdbase.current_cmd ∧
    (∀ q, q ≠ cmd → (commands_exec_sync s cmd func func_bh arg n []).2.mem q = s.mem q) ∧
    ((commands_exec_sync s cmd func func_bh arg n []).2.mem cmd).func = func ∧
    ((commands_exec_sync s cmd func func_bh arg n []).2.cmdbase.command_pipe =
        s.cmdbase.command_pipe ∨
      (commands_exec_sync s cmd func func_bh arg n []).2.cmdbase.command_pipe =
        s.cmdbase.command_pipe ++ [cmd]) ∧
    (commands_exec_sync s cmd func func_bh arg n []).2.cmdbase.command_event =
      s.cmdbase.command_event := by
  cases func with
  | none =>
    refine ⟨by simp [commands_exec_sync, send_command], ?_,
      by simp [commands_exec_sync, send_command], Or.inl (by simp [commands_exec_sync, send_command]),
      by simp [commands_exec_sync, send_command]⟩
    intro q hq
    simp [commands_exec_sync, send_command, store_mem_other _ _ _ _ hq]
  | some fn =>
    by_cases hn : n = sizeof_cmd
    · subst hn
      refine ⟨by simp [commands_exec_sync, send_command, reactor_run, pthread_cond_wait], ?_,
        by simp [commands_exec_sync, send_command, reactor_run, pthread_cond_wait],
        Or.inr (by simp [commands_exec_sync, send_command, reactor_run, pthread_cond_wait]),
        by simp [commands_exec_sync, send_command, reactor_run, pthread_cond_wait]⟩
      intro q hq
      simp [commands_exec_sync, send_command, reactor_run, pthread_cond_wait,
        store_mem_other _ _ _ _ hq]
    · refine ⟨by simp [commands_exec_sync, send_command, hn], ?_,
        by simp [commands_exec_sync, send_command, hn],
        Or.inl (by simp [commands_exec_sync, send_command, hn]),
        by simp [commands_exec_sync, send_command, hn]⟩
      intro q hq
      simp [commands_exec_sync, send_command, hn, store_mem_other _ _ _ _ hq]

/-- What a nonblocking submission leaves behind. -/
theorem commands_exec_async_spec (s : World) (alloc : Nat)
    (func : Option command_function) (arg : Nat) (n : Int) :
    (commands_exec_async s alloc func arg n).2.cmdbase.current_cmd = s.cmdbase.current_cmd ∧
    (∀ q, q ≠ alloc → (commands_exec_async s alloc func arg n).2.mem q = s.mem q) ∧
    ((commands_exec_async s alloc func arg n).2.cmdbase.command_pipe = s.cmdbase.command_pipe ∨
      ((commands_exec_async s alloc func arg n).2.cmdbase.command_pipe =
          s.cmdbase.command_pipe ++ [alloc] ∧
        ((commands_exec_async s alloc func arg n).2.mem alloc).func = func)) ∧
    (commands_exec_async s alloc func arg n).2.cmdbase.command_event =
      s.cmdbase.command_event := by
  by_cases ha : alloc = 0
  · simp [commands_exec_async, ha]
  · cases func with
    | none =>
      refine ⟨by simp [commands_exec_async, send_command, ha], ?_,
        Or.inl (by simp [commands_exec_async, send_command, ha]),
        by simp [commands_exec_async, send_command, ha]⟩
      intro q hq
      simp [commands_exec_async, send_command, ha, store_mem_other _ _ _ _ hq]
    | some fn =>
      by_cases hn : n = sizeof_cmd
      · subst hn
        refine ⟨by simp [commands_exec_async, send_command, ha], ?_,
          Or.inr (by simp [commands_exec_async, send_command, ha]),
          by simp [commands_exec_async, send_command, ha]⟩
        intro q hq
        simp [commands_exec_async, send_command, ha, store_mem_other _ _ _ _ hq]
      · refine ⟨by simp [commands_exec_async, send_command, ha, hn], ?_,
          Or.inl (by simp [commands_exec_async, send_command, ha, hn]),
          by simp [commands_exec_async, send_command, ha, hn]⟩
        intro q hq
        simp [commands_exec_async, send_command, ha, hn, store_mem_other _ _ _ _ hq]

/-- The synchronous executor changes no function pointer and leaves the pipe alone; either
it leaves the pending slot and all counters alone, or the primary function reported
`COMMAND_PENDING` and the command became the pending one, its counter being what the
function stored. -/
theorem command_cb_sync_cases (s : World) (c : Nat) :
    (∀ q, ((command_cb_sync s c).mem q).func = (s.mem q).func) ∧
    (command_cb_sync s c).cmdbase.command_pipe = s.cmdbase.command_pipe ∧
    (((command_cb_sync s c).cmdbase.current_cmd = s.cmdbase.current_cmd ∧
        ∀ q, ((command_cb_sync s c).mem q).pending = (s.mem q).pending) ∨
      (∃ fn, (s.mem c).func = some fn ∧
        (call_function fn (s.mem c).arg (s.mem c).ret s).1 = COMMAND_PENDING ∧
        (command_cb_sync s c).cmdbase.current_cmd = some c ∧
        ((command_cb_sync s c).mem c).pending =
          (call_function fn (s.mem c).arg (s.mem c).ret s).2.1 ∧
        ∀ q, q ≠ c → ((command_cb_sync s c).mem q).pending = (s.mem q).pending)) := by
  cases hf : (s.mem c).func with
  | none =>
    refine ⟨fun q => by simp [command_cb_sync, hf], by simp [command_cb_sync, hf],
      Or.inl ⟨by simp [command_cb_sync, hf], fun q => by simp [command_cb_sync, hf]⟩⟩
  | some fn =>
    have hsame : ∀ w, (call_function fn (s.mem c).arg (s.mem c).ret w).2.1 =
        (call_function fn (s.mem c).arg (s.mem c).ret s).2.1 :=
      fun w => (call_function_report fn (s.mem c).arg (s.mem c).ret w s).2
    cases hst : (call_function fn (s.mem c).arg (s.mem c).ret s).1 with
    | COMMAND_PENDING =>
      obtain ⟨p1, p2, p3, p4, _⟩ := command_cb_sync_pending s c fn _ hf
        (fun w => by rw [(call_function_report fn (s.mem c).arg (s.mem c).ret w s).1, hst])
        hsame
      refine ⟨?_, p4, Or.inr ⟨fn, rfl, hst, p3, by rw [p1], fun q hq => by rw [p2 q hq]⟩⟩
      intro q
      by_cases hq : q = c
      · subst hq; rw [p1]
      · rw [p2 q hq]
    | COMMAND_END =>
      have hE : ∀ w, (call_function fn (s.mem c).arg (s.mem c).ret w).1 = COMMAND_END :=
        fun w => by rw [(call_function_report fn (s.mem c).arg (s.mem c).ret w s).1, hst]
      have key : ∀ B, (command_cb_sync s c).mem c = { s.mem c with ret := B } →
          (∀ q, q ≠ c → (command_cb_sync s c).mem q = s.mem q) →
          (∀ q, ((command_cb_sync s c).mem q).func = (s.mem q).func) ∧
          (∀ q, ((command_cb_sync s c).mem q).pending = (s.mem q).pending) := by
        intro B d1 d2
        constructor
        · intro q
          by_cases hq : q = c
          · subst hq; rw [d1]
          · rw [d2 q hq]
        · intro q
          by_cases hq : q = c
          · subst hq; rw [d1]
          · rw [d2 q hq]
      by_cases hnb : (call_function fn (s.mem c).arg (s.mem c).ret s).2.1 ≠ 0 ∨
          (s.mem c).func_bh = none
      · obtain ⟨d1, d2, d3, d4, _⟩ := command_cb_sync_done s c fn _ hf hE hsame hnb
        exact ⟨(key _ d1 d2).1, d4, Or.inl ⟨d3, (key _ d1 d2).2⟩⟩
      · have h0 : (call_function fn (s.mem c).arg (s.mem c).ret s).2.1 = 0 := by
          by_contra h; exact hnb (Or.inl h)
        cases hb : (s.mem c).func_bh with
        | none => exact absurd (Or.inr hb) hnb
        | some bh =>
          obtain ⟨d1, d2, d3, d4, _⟩ := command_cb_sync_done_bh s c fn bh
            (call_function bh (s.mem c).arg 0 s).2.1 hf hb hE
            (fun w => by rw [hsame w, h0])
            (fun w => (call_function_report bh (s.mem c).arg 0 w s).2)
          exact ⟨(key _ d1 d2).1, d4, Or.inl ⟨d3, (key _ d1 d2).2⟩⟩

/-- The asynchronous executor changes no function pointer and no counter. -/
theorem command_cb_async_fields (s : World) (c : Nat) :
    (∀ q, ((command_cb_async s c).mem q).func = (s.mem q).func) ∧
    (∀ q, ((command_cb_async s c).mem q).pending = (s.mem q).pending) := by
  cases hf : (s.mem c).func with
  | none => simp [command_cb_async, hf]
  | some fn =>
    obtain ⟨a1, a2, _⟩ := command_cb_async_spec s c fn _ _ hf
      (fun w => (call_function_report fn (s.mem c).arg (s.mem c).ret w s).1)
      (fun w => (call_function_report fn (s.mem c).arg (s.mem c).ret w s).2)
    constructor
    · intro q
      by_cases hq : q = c
      · subst hq; rw [a1]
      · rw [a2 q hq]
    · intro q
      by_cases hq : q = c
      · subst hq; rw [a1]
      · rw [a2 q hq]

/-- A call of `commands_exec_end` changes no function pointer and leaves the pipe alone;
it either counts the pending command down to a positive counter or clears the pending
slot. -/
theorem commands_exec_end_cases (s : World) (c : Nat) (v : Int)
    (hc : s.cmdbase.current_cmd = some c) :
    (∀ q, ((commands_exec_end s v).mem q).func = (s.mem q).func) ∧
    (commands_exec_end s v).cmdbase.command_pipe = s.cmdbase.command_pipe ∧
    ((0 < int_dec (s.mem c).pending ∧
        (commands_exec_end s v).cmdbase.current_cmd = some c ∧
        ((commands_exec_end s v).mem c).pending = int_dec (s.mem c).pending) ∨
      (int_dec (s.mem c).pending ≤ 0 ∧
        (commands_exec_end s v).cmdbase.current_cmd = none)) := by
  have key : ∀ B, (commands_exec_end s v).mem c =
        { s.mem c with pending := int_dec (s.mem c).pending, ret := B } →
      (∀ q, q ≠ c → (commands_exec_end s v).mem q = s.mem q) →
      ∀ q, ((commands_exec_end s v).mem q).func = (s.mem q).func := by
    intro B d1 d2 q
    by_cases hq : q = c
    · subst hq; rw [d1]
    · rw [d2 q hq]
  by_cases hp : 0 < int_dec (s.mem c).pending
  · have e := commands_exec_end_more s c v hc hp
    refine ⟨key v (by rw [e]; simp) (fun q hq => by rw [e]; exact store_mem_other _ _ _ _ hq),
      by rw [e]; rfl, Or.inl ⟨hp, by rw [e]; exact hc, by rw [e]; simp⟩⟩
  · have hp' : int_dec (s.mem c).pending ≤ 0 := by omega
    cases hb : (s.mem c).func_bh with
    | none =>
      obtain ⟨a1, a2, a3, a4, _⟩ := commands_exec_end_final_spec s c v hc hp' hb
      exact ⟨key v a1 a2, a4, Or.inr ⟨hp', a3⟩⟩
    | some bh =>
      obtain ⟨a1, a2, a3, a4, _⟩ := commands_exec_end_final_bh_spec s c v bh
        (call_function bh (s.mem c).arg v s).2.1 hc hp' hb
        (fun w => (call_function_report bh (s.mem c).arg v w s).2)
      exact ⟨key _ a1 a2, a4, Or.inr ⟨hp', a3⟩⟩

/-- The invariant only depends on the pending slot, the counters, the function pointers and
the references in the pipe. -/
theorem pending_inv_of (s w : World) (hI : PendingInv s)
    (hcur : w.cmdbase.current_cmd = s.cmdbase.current_cmd)
    (hpend : ∀ c, s.cmdbase.current_cmd = some c → (w.mem c).pending = (s.mem c).pending)
    (hfunc : ∀ c ∈ w.cmdbase.command_pipe,
      c ∈ s.cmdbase.command_pipe ∧ (w.mem c).func = (s.mem c).func) :
    PendingInv w := by
  constructor
  · intro c hc
    rw [hcur] at hc
    rw [hpend c hc]
    exact hI.1 c hc
  · intro c hc fn hf
    obtain ⟨h1, h2⟩ := hfunc c hc
    exact hI.2 c h1 fn (by rw [← h2]; exact hf)

theorem pending_inv_step (s : World) (st : ReactorStep) (hI : PendingInv s) :
    PendingInv (reactor_step s st) := by
  cases st with
  | exec_end v =>
    simp only [reactor_step]
    cases hc : s.cmdbase.current_cmd with
    | none => rw [commands_exec_end_idle _ _ hc]; exact hI
    | some c =>
      obtain ⟨hp1, hp2⟩ := hI.1 c hc
      have hdec : int_dec (s.mem c).pending = (s.mem c).pending - 1 :=
        int_dec_eq _ (by unfold INT_MIN; omega) hp2
      obtain ⟨f1, f2, f3⟩ := commands_exec_end_cases s c v hc
      constructor
      · intro c' hc'
        rcases f3 with ⟨g1, g2, g3⟩ | ⟨_, g2⟩
        · rw [g2] at hc'
          have : c' = c := (Option.some.inj hc').symm
          subst this
          rw [g3, hdec]
          rw [hdec] at g1
          exact ⟨by omega, by omega⟩
        · rw [g2] at hc'; cases hc'
      · intro c' hc' fn hf
        rw [f2] at hc'
        rw [f1] at hf
        exact hI.2 c' hc' fn hf
  | wake n =>
    simp only [reactor_step]
    split
    next hfire =>
      by_cases hn : n = sizeof_cmd
      · subst hn
        cases hp : s.cmdbase.command_pipe with
        | nil => exact absurd hp hfire.2
        | cons h rest =>
          have hp' : (set_event s false).cmdbase.command_pipe = h :: rest := by simpa using hp
          by_cases hb : ((set_event s false).mem h).nonblock = 0
          · rw [command_cb_sync_route _ h rest hp' hb]
            obtain ⟨f1, f2, f3⟩ := command_cb_sync_cases
              (set_pipe (emit (set_event s false) (Event.read sizeof_cmd)) rest) h
            constructor
            · intro c hc
              rcases f3 with ⟨g1, g2⟩ | ⟨fn, g1, g2, g3, g4, _⟩
              · rw [g1] at hc
                rw [g2]
                exact hI.1 c (by simpa using hc)
              · rw [g3] at hc
                have : c = h := (Option.some.inj hc).symm
                subst this
                rw [g4]
                exact hI.2 c (by rw [hp]; simp) fn (by simpa using g1) _ _ _ g2
            · intro c hc fn hf
              rw [f2] at hc
              rw [f1] at hf
              exact hI.2 c (by rw [hp]; exact List.mem_cons_of_mem _ (by simpa using hc)) fn
                (by simpa using hf)
          · rw [command_cb_async_route _ h rest hp' hb]
            obtain ⟨f1, f2⟩ := command_cb_async_fields
              (set_pipe (emit (set_event s false) (Event.read sizeof_cmd)) rest) h
            obtain ⟨_, _, f3, f4⟩ := command_cb_async_frame
              (set_pipe (emit (set_event s false) (Event.read sizeof_cmd)) rest) h
            refine pending_inv_of s _ hI (by rw [f3]; rfl) (fun c _ => by rw [f2]; rfl) ?_
            intro c hc
            rw [f4] at hc
            exact ⟨by rw [hp]; exact List.mem_cons_of_mem _ (by simpa using hc),
              by rw [f1]; rfl⟩
      · rw [command_cb_short _ _ hn]
        obtain ⟨r1, _, _, r4, _, _, r7⟩ := read_command_short (set_event s false) n hn
        refine pending_inv_of s _ hI (by simp [r4]) (fun c _ => by simp [r1]) ?_
        intro c hc
        refine ⟨?_, by simp [r1]⟩
        rcases r7 with r | r
        · simpa [r] using hc
        · have : c ∈ (set_event s false).cmdbase.command_pipe.tail := by simpa [r] using hc
          exact List.mem_of_mem_tail this
    next => exact hI

/-- Every state reachable with primary functions that count their steps satisfies the
invariant. -/
theorem reachable_pending_inv (s : World) (h : Reachable CountsSteps s) : PendingInv s := by
  induction h with
  | new mem exit_cb =>
    exact ⟨by simp [commands_base_new], by simp [commands_base_new]⟩
  | exec_sync s cmd func func_bh arg n _ hfresh hP ih =>
    obtain ⟨a1, a2, a3, a4, _⟩ := commands_exec_sync_nil_spec s cmd func func_bh arg n
    constructor
    · intro c hc
      rw [a1] at hc
      have hne : c ≠ cmd := fun h => hfresh.2 (by rw [hc, h])
      rw [a2 c hne]
      exact ih.1 c hc
    · intro c hc fn hf
      by_cases hne : c = cmd
      · subst hne
        rw [a3] at hf
        exact hP fn hf
      · rw [a2 c hne] at hf
        rcases a4 with a | a
        · rw [a] at hc; exact ih.2 c hc fn hf
        · rw [a] at hc
          rcases List.mem_append.1 hc with h | h
          · exact ih.2 c h fn hf
          · exact absurd (by simpa using h) hne
  | exec_async s alloc func arg n _ hfresh hP ih =>
    obtain ⟨a1, a2, a4, _⟩ := commands_exec_async_spec s alloc func arg n
    constructor
    · intro c hc
      rw [a1] at hc
      have hne : c ≠ alloc := fun h => hfresh.2 (by rw [hc, h])
      rw [a2 c hne]
      exact ih.1 c hc
    · intro c hc fn hf
      rcases a4 with a | ⟨a, a3⟩
      · rw [a] at hc
        have hne : c ≠ alloc := fun h => hfresh.1 (by rw [← h]; exact hc)
        rw [a2 c hne] at hf
        exact ih.2 c hc fn hf
      · by_cases hne : c = alloc
        · subst hne
          rw [a3] at hf
          exact hP fn hf
        · rw [a2 c hne] at hf
          rw [a] at hc
          rcases List.mem_append.1 hc with h | h
          · exact ih.2 c h fn hf
          · exact absurd (by simpa using h) hne
  | step s st _ ih => exact pending_inv_step s st ih
  | woken s cmd _ ih => exact ih

/-! ## The read event while a command is pending -/

/-- The synchronous executor either arms the read event and leaves the pending slot alone,
or leaves the read event alone. -/
theorem command_cb_sync_armed (s : World) (c : Nat) :
    ((command_cb_sync s c).cmdbase.command_event = true ∧
      (command_cb_sync s c).cmdbase.current_cmd = s.cmdbase.current_cmd) ∨
    (command_cb_sync s c).cmdbase.command_event = s.cmdbase.command_event := by
  cases hf : (s.mem c).func with
  | none => right; simp [command_cb_sync, hf]
  | some fn =>
    cases hst : (call_function fn (s.mem c).arg (s.mem c).ret s).1 with
    | COMMAND_PENDING =>
      obtain ⟨_, _, _, _, p5, _⟩ := command_cb_sync_pending s c fn
        (call_function fn (s.mem c).arg (s.mem c).ret s).2.1 hf
        (fun w => by rw [(call_function_report fn (s.mem c).arg (s.mem c).ret w s).1, hst])
        (fun w => (call_function_report fn (s.mem c).arg (s.mem c).ret w s).2)
      exact Or.inr p5
    | COMMAND_END =>
      have hE : ∀ w, (call_function fn (s.mem c).arg (s.mem c).ret w).1 = COMMAND_END :=
        fun w => by rw [(call_function_report fn (s.mem c).arg (s.mem c).ret w s).1, hst]
      by_cases hnb : (call_function fn (s.mem c).arg (s.mem c).ret s).2.1 ≠ 0 ∨
          (s.mem c).func_bh = none
      · obtain ⟨_, _, d3, _, d5, _⟩ := command_cb_sync_done s c fn
          (call_function fn (s.mem c).arg (s.mem c).ret s).2.1 hf hE
          (fun w => (call_function_report fn (s.mem c).arg (s.mem c).ret w s).2) hnb
        exact Or.inl ⟨d5, d3⟩
      · have h0 : (call_function fn (s.mem c).arg (s.mem c).ret s).2.1 = 0 := by
          by_contra h; exact hnb (Or.inl h)
        cases hb : (s.mem c).func_bh with
        | none => exact absurd (Or.inr hb) hnb
        | some bh =>
          obtain ⟨_, _, d3, _, d5, _⟩ := command_cb_sync_done_bh s c fn bh
            (call_function bh (s.mem c).arg 0 s).2.1 hf hb hE
            (fun w => by rw [(call_function_report fn (s.mem c).arg (s.mem c).ret w s).2, h0])
            (fun w => (call_function_report bh (s.mem c).arg 0 w s).2)
          exact Or.inl ⟨d5, d3⟩

/-- A call of `commands_exec_end` with a pending command either leaves the read event and
the pending slot alone, or clears the slot and arms the read event. -/
theorem commands_exec_end_armed (s : World) (c : Nat) (v : Int)
    (hc : s.cmdbase.current_cmd = some c) :
    (0 < int_dec (s.mem c).pending ∧
      (commands_exec_end s v).cmdbase.current_cmd = some c ∧
      (commands_exec_end s v).cmdbase.command_event = s.cmdbase.command_event) ∨
    (int_dec (s.mem c).pending ≤ 0 ∧
      (commands_exec_end s v).cmdbase.current_cmd = none ∧
      (commands_exec_end s v).cmdbase.command_event = true) := by
  by_cases hp : 0 < int_dec (s.mem c).pending
  · have e := commands_exec_end_more s c v hc hp
    exact Or.inl ⟨hp, by rw [e]; exact hc, by rw [e]; rfl⟩
  · have hp' : int_dec (s.mem c).pending ≤ 0 := by omega
    cases hb : (s.mem c).func_bh with
    | none =>
      obtain ⟨_, _, a3, _, a5, _⟩ := commands_exec_end_final_spec s c v hc hp' hb
      exact Or.inr ⟨hp', a3, a5⟩
    | some bh =>
      obtain ⟨_, _, a3, _, a5, _⟩ := commands_exec_end_final_bh_spec s c v bh
        (call_function bh (s.mem c).arg v s).2.1 hc hp' hb
        (fun w => (call_function_report bh (s.mem c).arg v w s).2)
      exact Or.inr ⟨hp', a3, a5⟩

/-- A step of the event loop keeps the read event unarmed while a command is pending. -/
theorem unarmed_step (s : World) (st : ReactorStep)
    (hI : ∀ c, s.cmdbase.current_cmd = some c → s.cmdbase.command_event = false) :
    ∀ c, (reactor_step s st).cmdbase.current_cmd = some c →
      (reactor_step s st).cmdbase.command_event = false := by
  intro c hc
  cases st with
  | exec_end v =>
    simp only [reactor_step] at hc ⊢
    cases h0 : s.cmdbase.current_cmd with
    | none => rw [commands_exec_end_idle _ _ h0, h0] at hc; cases hc
    | some c0 =>
      rcases commands_exec_end_armed s c0 v h0 with ⟨_, _, g3⟩ | ⟨_, g2, _⟩
      · rw [g3]; exact hI c0 h0
      · rw [g2] at hc; cases hc
  | wake n =>
    simp only [reactor_step] at hc ⊢
    split at hc
    next hfire =>
      have hnone : s.cmdbase.current_cmd = none := by
        cases h0 : s.cmdbase.current_cmd with
        | none => rfl
        | some c0 => rw [hI c0 h0] at hfire; exact absurd hfire.1 (by simp)
      rw [if_pos hfire]
      by_cases hn : n = sizeof_cmd
      · subst hn
        cases hp : s.cmdbase.command_pipe with
        | nil => exact absurd hp hfire.2
        | cons h rest =>
          have hp' : (set_event s false).cmdbase.command_pipe = h :: rest := by
            simpa using hp
          by_cases hb : ((set_event s false).mem h).nonblock = 0
          · rw [command_cb_sync_route _ h rest hp' hb] at hc ⊢
            rcases command_cb_sync_armed
              (set_pipe (emit (set_event s false) (Event.read sizeof_cmd)) rest) h with
              ⟨_, g2⟩ | g
            · rw [g2] at hc
              have : s.cmdbase.current_cmd = some c := by simpa using hc
              rw [hnone] at this; cases this
            · rw [g]; rfl
          · rw [command_cb_async_route _ h rest hp' hb] at hc
            obtain ⟨_, _, f3, _⟩ := command_cb_async_frame
              (set_pipe (emit (set_event s false) (Event.read sizeof_cmd)) rest) h
            rw [f3] at hc
            have : s.cmdbase.current_cmd = some c := by simpa using hc
            rw [hnone] at this; cases this
      · rw [command_cb_short _ _ hn] at hc
        obtain ⟨_, _, _, r4, _⟩ := read_command_short (set_event s false) n hn
        have : s.cmdbase.current_cmd = some c := by simpa [r4] using hc
        rw [hnone] at this; cases this
    next hfire => rw [if_neg hfire]; exact hI c hc

/-- In every reachable state the read event is not armed while a command is pending. -/
theorem reachable_unarmed (P : command_function → Prop) (s : World) (h : Reachable P s) :
    ∀ c, s.cmdbase.current_cmd = some c → s.cmdbase.command_event = false := by
  induction h with
  | new mem exit_cb => intro c hc; simp [commands_base_new] at hc
  | exec_sync s cmd func func_bh arg n _ _ _ ih =>
    intro c hc
    obtain ⟨a1, _⟩ := commands_exec_sync_nil_spec s cmd func func_bh arg n
    rw [a1] at hc
    rw [(commands_exec_sync_nil_spec s cmd func func_bh arg n).2.2.2.2]
    exact ih c hc
  | exec_async s alloc func arg n _ _ _ ih =>
    intro c hc
    obtain ⟨a1, _⟩ := commands_exec_async_spec s alloc func arg n
    rw [a1] at hc
    rw [(commands_exec_async_spec s alloc func arg n).2.2.2]
    exact ih c hc
  | step s st _ ih => exact unarmed_step s st ih
  | woken s cmd _ ih => exact ih

/-! ## Destruction -/

/-- C1: a blocking command without bottom half whose primary function reports DONE with
result code `R`, submitted with a successful write, makes `commands_exec_sync` return
exactly `R`: submitted to an idle command base, it returns `R` once the event loop has
dispatched it; submitted to any command base that does not already refer to the address of
the command, whatever the event loop does, the caller either still sleeps or has returned
`R`. -/
theorem C1_exec_sync_done_returns_result (s : World) (cmd arg : Nat) (fn : command_function)
    (R : Int)
    (hdone : ∀ w, (call_function fn arg 0 w).1 = COMMAND_END ∧
      (call_function fn arg 0 w).2.1 = R) :
    (Idle s → ∀ rest, (commands_exec_sync s cmd (some fn) none arg sizeof_cmd
        (ReactorStep.wake sizeof_cmd :: rest)).1 = some R) ∧
    (Fresh cmd s → ∀ sched,
      (commands_exec_sync s cmd (some fn) none arg sizeof_cmd sched).1 = none ∨
        (commands_exec_sync s cmd (some fn) none arg sizeof_cmd sched).1 = some R) := by
  constructor
  · intro hidle rest
    have hq := submitted_queued s cmd fn none arg (idle_fresh s cmd hidle)
    obtain ⟨w0, e, m, _, _, _, _, _⟩ := submitted_wake s cmd fn none arg hidle
    obtain ⟨d1, _, _, _, _, d6, _⟩ := command_cb_sync_done w0 cmd fn R (by rw [m])
      (by rw [m]; exact fun w => (hdone w).1) (by rw [m]; exact fun w => (hdone w).2)
      (Or.inr (by rw [m]))
    have hw : cmd ∉ (command_cb_sync w0 cmd).waiting := by
      rw [d6]; simp [List.mem_filter]
    rw [commands_exec_sync_sent, reactor_run_asleep _ _ _ _ hq.2.1, e,
      reactor_run_awake _ _ _ hw, if_neg hw, d1]
  · intro hfresh sched
    have hq := submitted_queued s cmd fn none arg hfresh
    rw [commands_exec_sync_sent]
    rcases queued_run cmd _ rfl (fun w => (w.mem cmd).ret = R) (by
        intro w0 m _
        obtain ⟨d1, _, _, _, _, d6, _⟩ := command_cb_sync_done w0 cmd fn R (by rw [m])
          (by rw [m]; exact fun w => (hdone w).1) (by rw [m]; exact fun w => (hdone w).2)
          (Or.inr (by rw [m]))
        exact ⟨by rw [d6]; simp [List.mem_filter], by show _ = _; rw [d1]⟩)
        sched _ hq with h | h
    · left; rw [if_pos h]
    · right; rw [if_neg h.1, h.2]

/-- Scenario A of the specification: the primary function reports `(42, DONE)`. -/
theorem C1_scenario_A_witness :
    (∀ rest, (commands_exec_sync (commands_base_new mem_zero false) 100
        (some (command_function.collab (fun _ _ => (COMMAND_END, 42)))) none 7 sizeof_cmd
        (ReactorStep.wake sizeof_cmd :: rest)).1 = some 42) ∧
    (∀ sched, (commands_exec_sync (commands_base_new mem_zero false) 100
        (some (command_function.collab (fun _ _ => (COMMAND_END, 42)))) none 7 sizeof_cmd
        sched).1 = none ∨
      (commands_exec_sync (commands_base_new mem_zero false) 100
        (some (command_function.collab (fun _ _ => (COMMAND_END, 42)))) none 7 sizeof_cmd
        sched).1 = some 42) :=
  ⟨(C1_exec_sync_done_returns_result (commands_base_new mem_zero false) 100 7
      (command_function.collab (fun _ _ => (COMMAND_END, 42))) 42
      (fun _ => ⟨rfl, rfl⟩)).1 ⟨rfl, rfl, rfl⟩,
   (C1_exec_sync_done_returns_result (commands_base_new mem_zero false) 100 7
      (command_function.collab (fun _ _ => (COMMAND_END, 42))) 42
      (fun _ => ⟨rfl, rfl⟩)).2 ⟨by simp [commands_base_new], by simp [commands_base_new]⟩⟩

/-- C2: for a blocking command with a bottom half whose primary function reports DONE with
result code 0, submitted with a successful write, the bottom half is called exactly once,
with the argument of the command, and `commands_exec_sync` returns the result code the
bottom half stored: this is what happens once the event loop has dispatched the command
from an idle command base; and from any command base that does not already refer to the
address of the command, whatever the event loop does, the caller either still sleeps or has
returned that result code. -/
theorem C2_exec_sync_returns_bottom_half_result (s : World) (cmd arg : Nat)
    (fn bh : command_function) (B : Int)
    (hdone : ∀ w, (call_function fn arg 0 w).1 = COMMAND_END ∧
      (call_function fn arg 0 w).2.1 = 0)
    (hB : ∀ w, (call_function bh arg 0 w).2.1 = B) :
    (Idle s → ∀ rest, (commands_exec_sync s cmd (some fn) (some bh) arg sizeof_cmd
        (ReactorStep.wake sizeof_cmd :: rest)).1 = some B ∧
      (commands_exec_sync s cmd (some fn) (some bh) arg sizeof_cmd
        (ReactorStep.wake sizeof_cmd :: rest)).2.trace.filter is_func_bh =
          s.trace.filter is_func_bh ++ [Event.func_bh cmd arg]) ∧
    (Fresh cmd s → ∀ sched,
      (commands_exec_sync s cmd (some fn) (some bh) arg sizeof_cmd sched).1 = none ∨
        (commands_exec_sync s cmd (some fn) (some bh) arg sizeof_cmd sched).1 = some B) := by
  constructor
  · intro hidle rest
    have hq := submitted_queued s cmd fn (some bh) arg (idle_fresh s cmd hidle)
    obtain ⟨w0, e, m, _, _, _, _, t0⟩ := submitted_wake s cmd fn (some bh) arg hidle
    obtain ⟨d1, _, _, _, _, d6, _, d, d', d8, hd, hd'⟩ :=
      command_cb_sync_done_bh w0 cmd fn bh B (by rw [m]) (by rw [m])
        (by rw [m]; exact fun w => (hdone w).1) (by rw [m]; exact fun w => (hdone w).2)
        (by rw [m]; exact hB)
    have hw : cmd ∉ (command_cb_sync w0 cmd).waiting := by
      rw [d6]; simp [List.mem_filter]
    rw [commands_exec_sync_sent, reactor_run_asleep _ _ _ _ hq.2.1, e,
      reactor_run_awake _ _ _ hw, if_neg hw, d1]
    refine ⟨rfl, ?_⟩
    simp [d8, t0, m, filter_bh_effects d hd, filter_bh_effects d' hd', is_func_bh]
  · intro hfresh sched
    have hq := submitted_queued s cmd fn (some bh) arg hfresh
    rw [commands_exec_sync_sent]
    rcases queued_run cmd _ rfl (fun w => (w.mem cmd).ret = B) (by
        intro w0 m _
        obtain ⟨d1, _, _, _, _, d6, _⟩ := command_cb_sync_done_bh w0 cmd fn bh B (by rw [m])
          (by rw [m]) (by rw [m]; exact fun w => (hdone w).1)
          (by rw [m]; exact fun w => (hdone w).2) (by rw [m]; exact hB)
        exact ⟨by rw [d6]; simp [List.mem_filter], by show _ = _; rw [d1]⟩)
        sched _ hq with h | h
    · left; rw [if_pos h]
    · right; rw [if_neg h.1, h.2]

/-- Scenario B of the specification: the primary function reports `(0, DONE)` and the
bottom half stores 99. -/
theorem C2_scenario_B_witness :
    Idle (commands_base_new mem_zero false) ∧
    (∀ rest, (commands_exec_sync (commands_base_new mem_zero false) 100
        (some (command_function.collab (fun _ _ => (COMMAND_END, 0))))
        (some (command_function.collab (fun _ _ => (COMMAND_END, 99)))) 7 sizeof_cmd
        (ReactorStep.wake sizeof_cmd :: rest)).1 = some 99) :=
  ⟨⟨rfl, rfl, rfl⟩, fun rest =>
    ((C2_exec_sync_returns_bottom_half_result (commands_base_new mem_zero false) 100 7
      (command_function.collab (fun _ _ => (COMMAND_END, 0)))
      (command_function.collab (fun _ _ => (COMMAND_END, 99))) 99
      (fun _ => ⟨rfl, rfl⟩) (fun _ => rfl)).1 ⟨rfl, rfl, rfl⟩ rest).1⟩

/-- C3 as stated fails for an outstanding-steps count of 0: the primary function reports
`(0, PENDING)`; after the dispatch and no call of `commands_exec_end` the caller still
sleeps, and it is released by one call, not by none. -/
theorem C3_counterexample_zero_steps :
    (commands_exec_sync (commands_base_new mem_zero false) 100
      (some (command_function.collab (fun _ _ => (COMMAND_PENDING, 0)))) none 7 sizeof_cmd
      [ReactorStep.wake sizeof_cmd]).1 = none ∧
    (commands_exec_sync (commands_base_new mem_zero false) 100
      (some (command_function.collab (fun _ _ => (COMMAND_PENDING, 0)))) none 7 sizeof_cmd
      [ReactorStep.wake sizeof_cmd, ReactorStep.exec_end 7]).1 = some 7 := by
  decide

/-- C3 (amended): a blocking command whose primary function reports PENDING with an
outstanding-steps count `N ≥ 1`, dispatched from an idle base, keeps its caller asleep
through fewer than `N` calls of `commands_exec_end`, and no bottom half is called up to
then; the `N`-th call releases the caller, which observes the value passed to that call, or
the value the bottom half stored if there is one, and the bottom half is called exactly once,
in that call.  With a count `N ≤ 0` the caller sleeps after the dispatch and the first call
of `commands_exec_end` releases it. -/
theorem C3_pending_released_by_last_step (s : World) (cmd arg : Nat) (fn : command_function)
    (func_bh : Option command_function) (N : Int) (hidle : Idle s)
    (hN : INT_MIN < N ∧ N ≤ INT_MAX)
    (hpend : ∀ w, (call_function fn arg 0 w).1 = COMMAND_PENDING ∧
      (call_function fn arg 0 w).2.1 = N) :
    (∀ vs : List Int, (vs.length : Int) < N ∨ vs = [] →
      (commands_exec_sync s cmd (some fn) func_bh arg sizeof_cmd
        (ReactorStep.wake sizeof_cmd :: vs.map ReactorStep.exec_end)).1 = none ∧
      (commands_exec_sync s cmd (some fn) func_bh arg sizeof_cmd
        (ReactorStep.wake sizeof_cmd :: vs.map ReactorStep.exec_end)).2.trace.filter is_func_bh =
          s.trace.filter is_func_bh) ∧
    (∀ (vs : List Int) (v : Int) (rest : List ReactorStep),
      (vs.length : Int) + 1 = N ∨ (N ≤ 0 ∧ vs = []) →
      (commands_exec_sync s cmd (some fn) func_bh arg sizeof_cmd
        (ReactorStep.wake sizeof_cmd :: ((vs ++ [v]).map ReactorStep.exec_end ++ rest))).1 =
          some (match func_bh with
            | none => v
            | some bh => (call_function bh arg v s).2.1) ∧
      (commands_exec_sync s cmd (some fn) func_bh arg sizeof_cmd
        (ReactorStep.wake sizeof_cmd :: ((vs ++ [v]).map ReactorStep.exec_end ++ rest))).2.trace.filter
          is_func_bh =
          s.trace.filter is_func_bh ++
            (match func_bh with
              | none => []
              | some _ => [Event.func_bh cmd arg])) := by
  have hq := submitted_queued s cmd fn func_bh arg (idle_fresh s cmd hidle)
  obtain ⟨w1, e, m, hc, hw, _, _, t1⟩ := submitted_pending s cmd arg fn func_bh N hidle hpend
  have hrun : ∀ vs : List Int, (vs.length : Int) < N ∨ vs = [] →
      ∃ w2, reactor_run w1 cmd (vs.map ReactorStep.exec_end) = w2 ∧
        w2.mem cmd = { func := some fn, func_bh := func_bh, arg := arg, nonblock := 0,
                       ret := (vs.getLast?).getD N, pending := N - vs.length } ∧
        w2.cmdbase.current_cmd = some cmd ∧ cmd ∈ w2.waiting ∧ w2.trace = w1.trace := by
    intro vs hvs
    rcases hvs with h | h
    · have := pending_run_more cmd vs w1 hc hw (by rw [m]; exact h) (by rw [m]; exact hN.2)
      exact ⟨_, this, by simp [m], by simpa using hc, by simpa using hw, by simp⟩
    · subst h
      exact ⟨w1, rfl, by simp [m], hc, hw, rfl⟩
  constructor
  · intro vs hvs
    obtain ⟨w2, r, _, _, hw2, t2⟩ := hrun vs hvs
    rw [commands_exec_sync_sent, reactor_run_asleep _ _ _ _ hq.2.1, e, r, if_pos hw2]
    exact ⟨rfl, by rw [t2, t1]⟩
  · intro vs v rest hvs
    have hvs' : (vs.length : Int) < N ∨ vs = [] := by
      rcases hvs with h | h
      · left; omega
      · right; exact h.2
    obtain ⟨w2, r, m2, hc2, hw2, t2⟩ := hrun vs hvs'
    rw [commands_exec_sync_sent, reactor_run_asleep _ _ _ _ hq.2.1, e, List.map_append,
      List.append_assoc, reactor_run_append, r]
    have hdec : int_dec (w2.mem cmd).pending ≤ 0 := by
      rw [m2]
      rcases hvs with h | h
      · rw [int_dec_eq _ (by unfold INT_MIN; show INT_MIN < N - vs.length; unfold INT_MIN; omega)
          (by show N - vs.length ≤ INT_MAX; unfold INT_MAX; omega)]
        show N - vs.length - 1 ≤ 0
        omega
      · rw [int_dec_eq _ (by show INT_MIN < N - vs.length; rw [h.2]; simpa using hN.1)
          (by show N - vs.length ≤ INT_MAX; rw [h.2]; simpa using hN.2)]
        show N - vs.length - 1 ≤ 0
        rw [h.2]; simp; omega
    obtain ⟨l1, l2, l3⟩ := commands_exec_end_last w2 s cmd v hc2 hdec
    simp only [List.map_cons, List.map_nil, List.singleton_append]
    rw [reactor_run_asleep _ _ _ _ hw2]
    simp only [reactor_step]
    rw [reactor_run_awake _ _ _ l1, if_neg l1]
    rw [m2] at l2 l3
    refine ⟨by rw [l2], ?_⟩
    simp only [emit_trace, List.filter_append, l3, t2, t1]
    cases func_bh <;> simp [is_func_bh]

/-- Scenario C of the specification, with and without a bottom half: the primary function
reports `(3, PENDING)` and three calls `commands_exec_end(7)` follow; after two of them the
caller still sleeps. -/
theorem C3_scenario_C_witness :
    (commands_exec_sync (commands_base_new mem_zero false) 100
      (some (command_function.collab (fun _ _ => (COMMAND_PENDING, 3)))) none 7 sizeof_cmd
      (ReactorStep.wake sizeof_cmd :: [7, 7].map ReactorStep.exec_end)).1 = none ∧
    (commands_exec_sync (commands_base_new mem_zero false) 100
      (some (command_function.collab (fun _ _ => (COMMAND_PENDING, 3)))) none 7 sizeof_cmd
      (ReactorStep.wake sizeof_cmd :: (([7, 7] ++ [7]).map ReactorStep.exec_end ++ []))).1 =
        some 7 ∧
    (commands_exec_sync (commands_base_new mem_zero false) 100
      (some (command_function.collab (fun _ _ => (COMMAND_PENDING, 3))))
      (some (command_function.collab (fun _ r => (COMMAND_END, r + 1)))) 7 sizeof_cmd
      (ReactorStep.wake sizeof_cmd :: (([7, 7] ++ [7]).map ReactorStep.exec_end ++ []))).1 =
        some 8 :=
  ⟨((C3_pending_released_by_last_step (commands_base_new mem_zero false) 100 7
      (command_function.collab (fun _ _ => (COMMAND_PENDING, 3))) none 3 ⟨rfl, rfl, rfl⟩
      (by decide) (fun _ => ⟨rfl, rfl⟩)).1 [7, 7] (Or.inl (by decide))).1,
   ((C3_pending_released_by_last_step (commands_base_new mem_zero false) 100 7
      (command_function.collab (fun _ _ => (COMMAND_PENDING, 3))) none 3 ⟨rfl, rfl, rfl⟩
      (by decide) (fun _ => ⟨rfl, rfl⟩)).2 [7, 7] 7 [] (Or.inl (by decide))).1,
   ((C3_pending_released_by_last_step (commands_base_new mem_zero false) 100 7
      (command_function.collab (fun _ _ => (COMMAND_PENDING, 3)))
      (some (command_function.collab (fun _ r => (COMMAND_END, r + 1)))) 3 ⟨rfl, rfl, rfl⟩
      (by decide) (fun _ => ⟨rfl, rfl⟩)).2 [7, 7] 7 [] (Or.inl (by decide))).1⟩

/-- C4 as stated fails: the primary function reports `(5, DONE)` for a command with a
bottom half; the caller is signalled and returns 5, and no bottom half has been called. -/
theorem C4_counterexample_signal_without_bottom_half :
    (commands_exec_sync (commands_base_new mem_zero false) 100
      (some (command_function.collab (fun _ _ => (COMMAND_END, 5))))
      (some (command_function.collab (fun _ _ => (COMMAND_END, 99)))) 7 sizeof_cmd
      [ReactorStep.wake sizeof_cmd]).1 = some 5 ∧
    Event.cond_signal 100 ∈ (commands_exec_sync (commands_base_new mem_zero false) 100
      (some (command_function.collab (fun _ _ => (COMMAND_END, 5))))
      (some (command_function.collab (fun _ _ => (COMMAND_END, 99)))) 7 sizeof_cmd
      [ReactorStep.wake sizeof_cmd]).2.trace ∧
    (commands_exec_sync (commands_base_new mem_zero false) 100
      (some (command_function.collab (fun _ _ => (COMMAND_END, 5))))
      (some (command_function.collab (fun _ _ => (COMMAND_END, 99)))) 7 sizeof_cmd
      [ReactorStep.wake sizeof_cmd]).2.trace.filter is_func_bh = [] := by
  decide

/-- C4 (amended): for a blocking command with a bottom half, the two places that signal
the caller behave as follows.  In `command_cb_sync`, when the primary function reports DONE
with result code 0 the bottom half is called, and returns, before the signal; when it
reports DONE with a non-zero result code the caller is signalled and no bottom half is
called; when it reports PENDING nobody is signalled.  In `commands_exec_end` on the pending
command, a call that leaves steps outstanding signals nobody, and the last call calls the
bottom half before it signals the caller. -/
theorem C4_signal_after_bottom_half (s : World) (cmd : Nat) (fn bh : command_function)
    (hf : (s.mem cmd).func = some fn) (hb : (s.mem cmd).func_bh = some bh) :
    ((∀ w, (call_function fn (s.mem cmd).arg (s.mem cmd).ret w).1 = COMMAND_END ∧
        (call_function fn (s.mem cmd).arg (s.mem cmd).ret w).2.1 = 0) →
      ∃ d1 d2, (command_cb_sync s cmd).trace =
          s.trace ++ d1 ++ [Event.func_bh cmd (s.mem cmd).arg] ++ d2 ∧
        Event.cond_signal cmd ∉ d1 ∧ Event.cond_signal cmd ∈ d2) ∧
    (∀ R, R ≠ 0 →
      (∀ w, (call_function fn (s.mem cmd).arg (s.mem cmd).ret w).1 = COMMAND_END ∧
        (call_function fn (s.mem cmd).arg (s.mem cmd).ret w).2.1 = R) →
      ∃ d, (command_cb_sync s cmd).trace = s.trace ++ d ∧
        Event.cond_signal cmd ∈ d ∧ d.filter is_func_bh = []) ∧
    ((∀ w, (call_function fn (s.mem cmd).arg (s.mem cmd).ret w).1 = COMMAND_PENDING) →
      ∃ d, (command_cb_sync s cmd).trace = s.trace ++ d ∧ ∀ c, Event.cond_signal c ∉ d) ∧
    (s.cmdbase.current_cmd = some cmd → ∀ v,
      (0 < int_dec (s.mem cmd).pending → (commands_exec_end s v).trace = s.trace) ∧
      (int_dec (s.mem cmd).pending ≤ 0 →
        ∃ d2, (commands_exec_end s v).trace =
            s.trace ++ [Event.func_bh cmd (s.mem cmd).arg] ++ d2 ∧
          Event.cond_signal cmd ∈ d2)) := by
  refine ⟨?_, ?_, ?_, ?_⟩
  · intro h0
    obtain ⟨_, _, _, _, _, _, _, d, d', t, hd, _⟩ := command_cb_sync_done_bh s cmd fn bh
      (call_function bh (s.mem cmd).arg 0 s).2.1 hf hb (fun w => (h0 w).1) (fun w => (h0 w).2)
      (fun w => (call_function_report bh (s.mem cmd).arg 0 w s).2)
    refine ⟨[Event.mutex_lock cmd, Event.func cmd (s.mem cmd).arg] ++ d,
      d' ++ [Event.cond_signal cmd, Event.mutex_unlock cmd, Event.event_add], ?_, ?_, ?_⟩
    · rw [t]; simp
    · simp [effects_no_signal d cmd hd]
    · simp
  · intro R hR hE
    obtain ⟨_, _, _, _, _, _, _, d, t, hd⟩ := command_cb_sync_done s cmd fn R hf
      (fun w => (hE w).1) (fun w => (hE w).2) (Or.inl hR)
    refine ⟨[Event.mutex_lock cmd, Event.func cmd (s.mem cmd).arg] ++ d ++
      [Event.cond_signal cmd, Event.mutex_unlock cmd, Event.event_add], ?_, ?_, ?_⟩
    · rw [t]; simp
    · simp
    · simp [is_func_bh, filter_bh_effects d hd]
  · intro hP
    obtain ⟨_, _, _, _, _, _, _, d, t, hd⟩ := command_cb_sync_pending s cmd fn
      (call_function fn (s.mem cmd).arg (s.mem cmd).ret s).2.1 hf hP
      (fun w => (call_function_report fn (s.mem cmd).arg (s.mem cmd).ret w s).2)
    refine ⟨[Event.mutex_lock cmd, Event.func cmd (s.mem cmd).arg] ++ d, ?_, ?_⟩
    · rw [t]; simp
    · intro c
      simp [effects_no_signal d c hd]
  · intro hc v
    constructor
    · intro hp
      rw [commands_exec_end_more s cmd v hc hp]
      rfl
    · intro hp
      obtain ⟨_, _, _, _, _, _, _, d, t, _⟩ := commands_exec_end_final_bh_spec s cmd v bh
        (call_function bh (s.mem cmd).arg v s).2.1 hc hp hb
        (fun w => (call_function_report bh (s.mem cmd).arg v w s).2)
      exact ⟨d ++ [Event.cond_signal cmd, Event.mutex_unlock cmd, Event.event_add],
        by rw [t]; simp, by simp⟩

/-- Scenario B at the level of `command_cb_sync`: in the world in which the command at
address 100 has a primary function reporting `(0, DONE)` and a bottom half, the bottom half
is called before the signal. -/
theorem C4_signal_after_bottom_half_witness :
    ∃ d1 d2, (command_cb_sync (store (commands_base_new mem_zero false) 100
        { func := some (command_function.collab (fun _ _ => (COMMAND_END, 0))),
          func_bh := some (command_function.collab (fun _ _ => (COMMAND_END, 99))),
          arg := 7, nonblock := 0, ret := 0, pending := 0 }) 100).trace =
        [Event.event_add] ++ d1 ++ [Event.func_bh 100 7] ++ d2 ∧
      Event.cond_signal 100 ∉ d1 ∧ Event.cond_signal 100 ∈ d2 :=
  (C4_signal_after_bottom_half (store (commands_base_new mem_zero false) 100
        { func := some (command_function.collab (fun _ _ => (COMMAND_END, 0))),
          func_bh := some (command_function.collab (fun _ _ => (COMMAND_END, 99))),
          arg := 7, nonblock := 0, ret := 0, pending := 0 }) 100
      (command_function.collab (fun _ _ => (COMMAND_END, 0)))
      (command_function.collab (fun _ _ => (COMMAND_END, 99)))
      (by simp) (by simp)).1 (fun _ => ⟨rfl, rfl⟩)

/-- C5 as stated fails on the completion path of a pending command: the primary function
reports `(1, PENDING)`, the only outstanding step reports the error code -1, and the bottom
half is called all the same (the caller gets what the bottom half stored). -/
theorem C5_counterexample_bottom_half_after_error :
    (commands_exec_sync (commands_base_new mem_zero false) 100
      (some (command_function.collab (fun _ _ => (COMMAND_PENDING, 1))))
      (some (command_function.collab (fun _ _ => (COMMAND_END, 99)))) 7 sizeof_cmd
      [ReactorStep.wake sizeof_cmd, ReactorStep.exec_end (-1)]).2.trace.filter is_func_bh =
        [Event.func_bh 100 7] ∧
    (commands_exec_sync (commands_base_new mem_zero false) 100
      (some (command_function.collab (fun _ _ => (COMMAND_PENDING, 1))))
      (some (command_function.collab (fun _ _ => (COMMAND_END, 99)))) 7 sizeof_cmd
      [ReactorStep.wake sizeof_cmd, ReactorStep.exec_end (-1)]).1 = some 99 := by
  decide

/-- C5 (amended): when the primary function reports DONE at dispatch, `command_cb_sync`
calls the bottom half exactly if there is one and the result code the primary function
stored is 0; with a non-zero result code no bottom half is called.  The last
`commands_exec_end` of a pending command calls the bottom half, when there is one, whatever
result code was passed to it. -/
theorem C5_bottom_half_guard (s : World) (cmd : Nat) (fn : command_function) (R : Int)
    (hf : (s.mem cmd).func = some fn) :
    ((∀ w, (call_function fn (s.mem cmd).arg (s.mem cmd).ret w).1 = COMMAND_END ∧
        (call_function fn (s.mem cmd).arg (s.mem cmd).ret w).2.1 = R) →
      (command_cb_sync s cmd).trace.filter is_func_bh =
        s.trace.filter is_func_bh ++
          (if R = 0 then
            match (s.mem cmd).func_bh with
            | none => []
            | some _ => [Event.func_bh cmd (s.mem cmd).arg]
          else [])) ∧
    (s.cmdbase.current_cmd = some cmd → int_dec (s.mem cmd).pending ≤ 0 → ∀ v,
      (commands_exec_end s v).trace.filter is_func_bh =
        s.trace.filter is_func_bh ++
          (match (s.mem cmd).func_bh with
            | none => []
            | some _ => [Event.func_bh cmd (s.mem cmd).arg])) := by
  constructor
  · intro hE
    by_cases hR : R = 0
    · cases hb : (s.mem cmd).func_bh with
      | none =>
        obtain ⟨_, _, _, _, _, _, _, d, t, hd⟩ := command_cb_sync_done s cmd fn R hf
          (fun w => (hE w).1) (fun w => (hE w).2) (Or.inr hb)
        simp [t, hR, is_func_bh, filter_bh_effects d hd]
      | some bh =>
        subst hR
        obtain ⟨_, _, _, _, _, _, _, d, d', t, hd, hd'⟩ := command_cb_sync_done_bh s cmd fn bh
          (call_function bh (s.mem cmd).arg 0 s).2.1 hf hb (fun w => (hE w).1)
          (fun w => (hE w).2) (fun w => (call_function_report bh (s.mem cmd).arg 0 w s).2)
        simp [t, is_func_bh, filter_bh_effects d hd, filter_bh_effects d' hd']
    · obtain ⟨_, _, _, _, _, _, _, d, t, hd⟩ := command_cb_sync_done s cmd fn R hf
        (fun w => (hE w).1) (fun w => (hE w).2) (Or.inl hR)
      simp [t, hR, is_func_bh, filter_bh_effects d hd]
  · intro hc hp v
    exact (commands_exec_end_last s s cmd v hc hp).2.2

/-- The primary function of the command at address 100 reports `(5, DONE)`: the bottom
half of the command is not called. -/
theorem C5_bottom_half_guard_witness :
    (command_cb_sync (store (commands_base_new mem_zero false) 100
        { func := some (command_function.collab (fun _ _ => (COMMAND_END, 5))),
          func_bh := some (command_function.collab (fun _ _ => (COMMAND_END, 99))),
          arg := 7, nonblock := 0, ret := 0, pending := 0 }) 100).trace.filter is_func_bh =
      [] := by
  have h := (C5_bottom_half_guard (store (commands_base_new mem_zero false) 100
        { func := some (command_function.collab (fun _ _ => (COMMAND_END, 5))),
          func_bh := some (command_function.collab (fun _ _ => (COMMAND_END, 99))),
          arg := 7, nonblock := 0, ret := 0, pending := 0 }) 100
      (command_function.collab (fun _ _ => (COMMAND_END, 5))) 5 (by simp)).1
      (fun _ => ⟨rfl, rfl⟩)
  simpa [commands_base_new, is_func_bh] using h

/-- C6: `commands_exec_returnvalue` returns the result code stored on the pending command.
After a dispatch in which the primary function reported PENDING with `N` in the result
slot, and after any calls of `commands_exec_end` that leave the command pending, it returns
the value passed to the most recent of these calls, or `N` when there was none; when no
command is pending it returns 0. -/
theorem C6_returnvalue_of_pending_command (s : World) (cmd : Nat) (fn : command_function)
    (N : Int) (hf : (s.mem cmd).func = some fn)
    (hpend : ∀ w, (call_function fn (s.mem cmd).arg (s.mem cmd).ret w).1 = COMMAND_PENDING ∧
      (call_function fn (s.mem cmd).arg (s.mem cmd).ret w).2.1 = N) :
    (∀ vs : List Int, vs = [] ∨ ((vs.length : Int) < N ∧ N ≤ INT_MAX) →
      commands_exec_returnvalue (vs.foldl commands_exec_end (command_cb_sync s cmd)) =
        (vs.getLast?).getD N) ∧
    (∀ w : World, w.cmdbase.current_cmd = none → commands_exec_returnvalue w = 0) := by
  obtain ⟨p1, _, p3, _⟩ := command_cb_sync_pending s cmd fn N hf (fun w => (hpend w).1)
    (fun w => (hpend w).2)
  constructor
  · intro vs hvs
    rcases hvs with h | ⟨h1, h2⟩
    · subst h
      simp [commands_exec_returnvalue, p3, p1]
    · rw [pending_fold_more cmd vs _ p3 (by rw [p1]; exact h1) (by rw [p1]; exact h2)]
      simp [commands_exec_returnvalue, p3, p1]
  · intro w hw
    simp [commands_exec_returnvalue, hw]

/-- The primary function of the command at address 100 reports `(3, PENDING)`; after the
calls `commands_exec_end(5)` and `commands_exec_end(6)` the value read is 6. -/
theorem C6_returnvalue_witness :
    commands_exec_returnvalue ([5, 6].foldl commands_exec_end
      (command_cb_sync (store (commands_base_new mem_zero false) 100
        { func := some (command_function.collab (fun _ _ => (COMMAND_PENDING, 3))),
          func_bh := none, arg := 7, nonblock := 0, ret := 0, pending := 0 }) 100)) = 6 :=
  (C6_returnvalue_of_pending_command (store (commands_base_new mem_zero false) 100
        { func := some (command_function.collab (fun _ _ => (COMMAND_PENDING, 3))),
          func_bh := none, arg := 7, nonblock := 0, ret := 0, pending := 0 }) 100
      (command_function.collab (fun _ _ => (COMMAND_PENDING, 3))) 3 (by simp)
      (fun _ => ⟨rfl, rfl⟩)).1 [5, 6] (Or.inr ⟨by decide, by decide⟩)

/-- C7: one call `commands_exec_end(v)` on a pending command whose counter `p` can be
decremented counts it down to `p - 1`.  If the counter stays above zero, the only other
change is that the result code becomes `v`.  If it reaches zero (or was not positive), the
bottom half, when there is one, is called once on the result code `v`, then the caller is
signalled once and its mutex unlocked once, the pending slot is cleared and the read event
is armed. -/
theorem C7_exec_end_step (s : World) (cmd : Nat) (v : Int)
    (hc : s.cmdbase.current_cmd = some cmd)
    (hp : INT_MIN < (s.mem cmd).pending ∧ (s.mem cmd).pending ≤ INT_MAX) :
    ((commands_exec_end s v).mem cmd).pending = (s.mem cmd).pending - 1 ∧
    (1 < (s.mem cmd).pending →
      commands_exec_end s v =
        store s cmd { s.mem cmd with pending := (s.mem cmd).pending - 1, ret := v }) ∧
    ((s.mem cmd).pending ≤ 1 →
      ((commands_exec_end s v).mem cmd).ret =
        (match (s.mem cmd).func_bh with
          | none => v
          | some bh => (call_function bh (s.mem cmd).arg v s).2.1) ∧
      (∃ d, (commands_exec_end s v).trace =
          s.trace ++
            (match (s.mem cmd).func_bh with
              | none => []
              | some _ => Event.func_bh cmd (s.mem cmd).arg :: d) ++
            [Event.cond_signal cmd, Event.mutex_unlock cmd, Event.event_add] ∧
        ∀ e ∈ d, e = Event.exit_cb ∨ e = Event.loopbreak) ∧
      cmd ∉ (commands_exec_end s v).waiting ∧
      (commands_exec_end s v).cmdbase.current_cmd = none ∧
      (commands_exec_end s v).cmdbase.command_event = true ∧
      (commands_exec_end s v).cmdbase.command_pipe = s.cmdbase.command_pipe ∧
      ∀ q, q ≠ cmd → (commands_exec_end s v).mem q = s.mem q) := by
  have hdec : int_dec (s.mem cmd).pending = (s.mem cmd).pending - 1 := int_dec_eq _ hp.1 hp.2
  have hfin : (s.mem cmd).pending ≤ 1 → int_dec (s.mem cmd).pending ≤ 0 := by
    intro h; rw [hdec]; omega
  refine ⟨?_, ?_, ?_⟩
  · by_cases h : 1 < (s.mem cmd).pending
    · rw [commands_exec_end_more s cmd v hc (by rw [hdec]; omega), hdec]
      simp
    · cases hb : (s.mem cmd).func_bh with
      | none =>
        rw [(commands_exec_end_final_spec s cmd v hc (hfin (by omega)) hb).1, hdec]
      | some bh =>
        rw [(commands_exec_end_final_bh_spec s cmd v bh (call_function bh (s.mem cmd).arg v s).2.1
          hc (hfin (by omega)) hb
          (fun w => (call_function_report bh (s.mem cmd).arg v w s).2)).1, hdec]
  · intro h
    rw [commands_exec_end_more s cmd v hc (by rw [hdec]; omega), hdec]
  · intro h
    cases hb : (s.mem cmd).func_bh with
    | none =>
      obtain ⟨a1, a2, a3, a4, a5, a6, _, a8⟩ :=
        commands_exec_end_final_spec s cmd v hc (hfin h) hb
      exact ⟨by rw [a1], ⟨[], by simp [a8], by simp⟩, by rw [a6]; simp [List.mem_filter],
        a3, a5, a4, a2⟩
    | some bh =>
      obtain ⟨a1, a2, a3, a4, a5, a6, _, d, a8, a9⟩ :=
        commands_exec_end_final_bh_spec s cmd v bh (call_function bh (s.mem cmd).arg v s).2.1
          hc (hfin h) hb (fun w => (call_function_report bh (s.mem cmd).arg v w s).2)
      exact ⟨by rw [a1], ⟨d, by simp [a8], a9⟩, by rw [a6]; simp [List.mem_filter],
        a3, a5, a4, a2⟩

/-- A pending command at address 100 with two outstanding steps: one call
`commands_exec_end(7)` leaves one step and stores 7, and changes nothing else. -/
theorem C7_exec_end_step_witness :
    commands_exec_end (set_current (store (commands_base_new mem_zero false) 100
        { func := none, func_bh := none, arg := 7, nonblock := 0, ret := 2, pending := 2 })
        (some 100)) 7 =
      store (set_current (store (commands_base_new mem_zero false) 100
        { func := none, func_bh := none, arg := 7, nonblock := 0, ret := 2, pending := 2 })
        (some 100)) 100
        { func := none, func_bh := none, arg := 7, nonblock := 0, ret := 7, pending := 1 } :=
  (C7_exec_end_step (set_current (store (commands_base_new mem_zero false) 100
        { func := none, func_bh := none, arg := 7, nonblock := 0, ret := 2, pending := 2 })
        (some 100)) 100 7 rfl (by simp [INT_MIN, INT_MAX])).2.1 (by simp)

/-- C8: with no pending command `commands_exec_end(v)` changes nothing: the command base,
the memory, the sleeping callers and the trace (hence no bottom half call and no signal)
are as before. -/
theorem C8_exec_end_without_pending_is_noop (s : World) (v : Int)
    (h : s.cmdbase.current_cmd = none) : commands_exec_end s v = s := by
  simp [commands_exec_end, h]

/-- On a freshly constructed command base `commands_exec_end(7)` changes nothing. -/
theorem C8_exec_end_noop_witness :
    commands_exec_end (commands_base_new mem_zero false) 7 = commands_base_new mem_zero false :=
  C8_exec_end_without_pending_is_noop (commands_base_new mem_zero false) 7 rfl

/-- C9: a command whose primary function is NULL is rejected by `send_command` with -1
before the `write`: the world is unchanged.  Hence `commands_exec_sync` returns -1 without
waiting, whatever the event loop does, and `commands_exec_async` (given its allocation
succeeded) returns -1; in both the pipe is as before, so the command is never dispatched,
and the trace shows no `write` and no function call. -/
theorem C9_null_function_rejected (s : World) (cmd alloc arg : Nat)
    (func_bh : Option command_function) (n : Int) (sched : List ReactorStep)
    (halloc : alloc ≠ 0) :
    (∀ c, (s.mem c).func = none → send_command s c n = (-1, s)) ∧
    ((commands_exec_sync s cmd none func_bh arg n sched).1 = some (-1) ∧
      (commands_exec_sync s cmd none func_bh arg n sched).2.cmdbase = s.cmdbase ∧
      (commands_exec_sync s cmd none func_bh arg n sched).2.trace =
        s.trace ++ [Event.mutex_lock cmd, Event.mutex_unlock cmd]) ∧
    ((commands_exec_async s alloc none arg n).1 = some (-1) ∧
      (commands_exec_async s alloc none arg n).2.cmdbase = s.cmdbase ∧
      (commands_exec_async s alloc none arg n).2.trace = s.trace ++ [Event.free alloc]) := by
  refine ⟨?_, ?_, ?_⟩
  · intro c hc
    simp [send_command, hc]
  · simp [commands_exec_sync, send_command]
  · simp [commands_exec_async, send_command, halloc]

/-- Submitting a NULL primary function to a freshly constructed command base through
`commands_exec_async`, the command being allocated at address 200. -/
theorem C9_null_function_witness :
    (commands_exec_async (commands_base_new mem_zero false) 200 none 7 sizeof_cmd).1 =
        some (-1) ∧
    (commands_exec_async (commands_base_new mem_zero false) 200 none 7
        sizeof_cmd).2.cmdbase.command_pipe = [] :=
  ⟨(C9_null_function_rejected (commands_base_new mem_zero false) 100 200 7 none sizeof_cmd []
      (by decide)).2.2.1,
   by rw [(C9_null_function_rejected (commands_base_new mem_zero false) 100 200 7 none
      sizeof_cmd [] (by decide)).2.2.2.1]; rfl⟩

/-- C10: when the `write` in `send_command` does not transfer a full reference, both
`commands_exec_sync` and `commands_exec_async` (given its allocation succeeded) return -1;
the pipe is as before and no primary function is called; `commands_exec_sync` does not wait;
`commands_exec_async` frees the command it allocated and does not free the argument. -/
theorem C10_failed_write_is_reported (s : World) (cmd alloc arg : Nat) (fn : command_function)
    (func_bh : Option command_function) (n : Int) (sched : List ReactorStep)
    (hn : n ≠ sizeof_cmd) (halloc : alloc ≠ 0) (harg : arg ≠ alloc) :
    ((commands_exec_sync s cmd (some fn) func_bh arg n sched).1 = some (-1) ∧
      (commands_exec_sync s cmd (some fn) func_bh arg n sched).2.cmdbase = s.cmdbase ∧
      (commands_exec_sync s cmd (some fn) func_bh arg n sched).2.waiting = s.waiting ∧
      (commands_exec_sync s cmd (some fn) func_bh arg n sched).2.trace =
        s.trace ++ [Event.mutex_lock cmd, Event.write cmd n, Event.mutex_unlock cmd]) ∧
    ((commands_exec_async s alloc (some fn) arg n).1 = some (-1) ∧
      (commands_exec_async s alloc (some fn) arg n).2.cmdbase = s.cmdbase ∧
      (commands_exec_async s alloc (some fn) arg n).2.trace =
        s.trace ++ [Event.write alloc n, Event.free alloc] ∧
      (commands_exec_async s alloc (some fn) arg n).2.trace.count (Event.free arg) =
        s.trace.count (Event.free arg) ∧
      (commands_exec_async s alloc (some fn) arg n).2.trace.filter is_func =
        s.trace.filter is_func) := by
  constructor
  · simp [commands_exec_sync, send_command, hn]
  · simp [commands_exec_async, send_command, hn, halloc, is_func, harg]

/-- A write that fails with -1 on a freshly constructed command base: the nonblocking
submission returns -1 and frees only the command allocated at address 200. -/
theorem C10_failed_write_witness :
    (commands_exec_async (commands_base_new mem_zero false) 200
      (some (command_function.collab (fun _ _ => (COMMAND_END, 42)))) 7 (-1)).1 = some (-1) ∧
    (commands_exec_async (commands_base_new mem_zero false) 200
      (some (command_function.collab (fun _ _ => (COMMAND_END, 42)))) 7 (-1)).2.trace =
        (commands_base_new mem_zero false).trace ++ [Event.write 200 (-1), Event.free 200] :=
  ⟨(C10_failed_write_is_reported (commands_base_new mem_zero false) 100 200 7
      (command_function.collab (fun _ _ => (COMMAND_END, 42))) none (-1) []
      (by decide) (by decide) (by decide)).2.1,
   (C10_failed_write_is_reported (commands_base_new mem_zero false) 100 200 7
      (command_function.collab (fun _ _ => (COMMAND_END, 42))) none (-1) []
      (by decide) (by decide) (by decide)).2.2.2.1⟩

/-- C11: when `calloc` fails inside `commands_exec_async` the function does not return -1:
the NULL pointer is used at once (`cmd->func = func`), so the call stores through NULL and
never returns.  This evaluates the code at the failing input, for every state, function,
argument and `write` result. -/
theorem C11_alloc_failure_is_dereferenced (s : World) (func : Option command_function)
    (arg : Nat) (n : Int) :
    (commands_exec_async s 0 func arg n).1 = none ∧
    (commands_exec_async s 0 func arg n).2.fault = true ∧
    (commands_exec_async s 0 func arg n).1 ≠ some (-1) := by
  simp [commands_exec_async]

/-- C12: a nonblocking command that was submitted successfully to an idle command base is
run by the next dispatch, and the trace of submission and dispatch is: the write, the read,
the call of the primary function, then, if the reported state is not PENDING and the
argument is not NULL, one `free` of the argument, then one `free` of the command, then
`event_add`.  With the state PENDING the argument is not freed.  The same holds for
`command_cb_async` run in any state on a command with these fields. -/
theorem C12_async_releases_after_function (s : World) (alloc arg : Nat)
    (fn : command_function) (st : command_state) (r : Int)
    (hrep : ∀ w, (call_function fn arg 0 w).1 = st ∧ (call_function fn arg 0 w).2.1 = r) :
    (Idle s → alloc ≠ 0 →
      (commands_exec_async s alloc (some fn) arg sizeof_cmd).1 = some 0 ∧
      ∃ d, (reactor_step (commands_exec_async s alloc (some fn) arg sizeof_cmd).2
          (ReactorStep.wake sizeof_cmd)).trace =
          s.trace ++ [Event.write alloc sizeof_cmd, Event.read sizeof_cmd,
            Event.func alloc arg] ++ d ++
            (if st ≠ COMMAND_PENDING ∧ arg ≠ 0 then [Event.free arg] else []) ++
            [Event.free alloc, Event.event_add] ∧
        ∀ e ∈ d, e = Event.exit_cb ∨ e = Event.loopbreak) ∧
    (∀ (w : World) (cmd : Nat), (w.mem cmd).func = some fn → (w.mem cmd).arg = arg →
      (w.mem cmd).ret = 0 →
      ∃ d, (command_cb_async w cmd).trace =
          w.trace ++ [Event.func cmd arg] ++ d ++
            (if st ≠ COMMAND_PENDING ∧ arg ≠ 0 then [Event.free arg] else []) ++
            [Event.free cmd, Event.event_add] ∧
        ∀ e ∈ d, e = Event.exit_cb ∨ e = Event.loopbreak) := by
  have hfun : ∀ (w : World) (cmd : Nat), (w.mem cmd).func = some fn → (w.mem cmd).arg = arg →
      (w.mem cmd).ret = 0 →
      ∃ d, (command_cb_async w cmd).trace =
          w.trace ++ [Event.func cmd arg] ++ d ++
            (if st ≠ COMMAND_PENDING ∧ arg ≠ 0 then [Event.free arg] else []) ++
            [Event.free cmd, Event.event_add] ∧
        ∀ e ∈ d, e = Event.exit_cb ∨ e = Event.loopbreak := by
    intro w cmd hf ha hr
    obtain ⟨_, _, _, _, _, _, _, d, t, hd⟩ := command_cb_async_spec w cmd fn st r hf
      (by rw [ha, hr]; exact fun w => (hrep w).1) (by rw [ha, hr]; exact fun w => (hrep w).2)
    exact ⟨d, by rw [t, ha], hd⟩
  refine ⟨?_, hfun⟩
  intro hidle halloc
  obtain ⟨h1, h2, h3⟩ := hidle
  have hw : (commands_exec_async s alloc (some fn) arg sizeof_cmd) =
      (some 0, set_pipe (emit (store s alloc
        { func := some fn, func_bh := none, arg := arg, nonblock := 1, ret := 0, pending := 0 })
        (Event.write alloc sizeof_cmd)) [alloc]) := by
    simp [commands_exec_async, send_command, halloc, h1]
  rw [hw]
  refine ⟨rfl, ?_⟩
  simp only [reactor_step, set_pipe_event, emit_cmdbase, store_cmdbase, h3, set_pipe_pipe]
  simp only [ne_eq, List.cons_ne_nil, not_false_eq_true, and_self, if_true]
  rw [command_cb_async_route _ alloc [] (by simp) (by simp)]
  obtain ⟨d, t, hd⟩ := hfun (set_pipe (emit (set_event (set_pipe (emit (store s alloc
        { func := some fn, func_bh := none, arg := arg, nonblock := 1, ret := 0, pending := 0 })
        (Event.write alloc sizeof_cmd)) [alloc]) false) (Event.read sizeof_cmd)) []) alloc
    (by simp) (by simp) (by simp)
  exact ⟨d, by rw [t]; simp, hd⟩

/-- A nonblocking command with argument 7 whose primary function reports DONE, allocated at
address 200 and submitted to a freshly constructed command base: the submission returns 0
and after the dispatch the argument and the command have been freed, in this order, after
the function call. -/
theorem C12_async_release_witness :
    (commands_exec_async (commands_base_new mem_zero false) 200
        (some (command_function.collab (fun _ _ => (COMMAND_END, 0)))) 7 sizeof_cmd).1 =
      some 0 ∧
    ∃ d, (reactor_step (commands_exec_async (commands_base_new mem_zero false) 200
        (some (command_function.collab (fun _ _ => (COMMAND_END, 0)))) 7 sizeof_cmd).2
        (ReactorStep.wake sizeof_cmd)).trace =
        (commands_base_new mem_zero false).trace ++ [Event.write 200 sizeof_cmd,
          Event.read sizeof_cmd, Event.func 200 7] ++ d ++
          (if COMMAND_END ≠ COMMAND_PENDING ∧ 7 ≠ 0 then [Event.free 7] else []) ++
          [Event.free 200, Event.event_add] ∧
      ∀ e ∈ d, e = Event.exit_cb ∨ e = Event.loopbreak :=
  (C12_async_releases_after_function (commands_base_new mem_zero false)
    200 7 (command_function.collab (fun _ _ => (COMMAND_END, 0))) COMMAND_END 0
    (fun _ => ⟨rfl, rfl⟩)).1 ⟨rfl, rfl, rfl⟩ (by decide)

/-- C13 as stated fails for a blocking command whose primary function reports PENDING:
the dispatcher takes the command out of the pipe and runs it, the command becomes the
pending one, and when the dispatcher returns the read event is not armed. -/
theorem C13_counterexample_pending_not_rearmed :
    (reactor_step (commands_exec_sync (commands_base_new mem_zero false) 100
        (some (command_function.collab (fun _ _ => (COMMAND_PENDING, 3)))) none 7 sizeof_cmd
        []).2 (ReactorStep.wake sizeof_cmd)).cmdbase.command_event = false ∧
    (reactor_step (commands_exec_sync (commands_base_new mem_zero false) 100
        (some (command_function.collab (fun _ _ => (COMMAND_PENDING, 3)))) none 7 sizeof_cmd
        []).2 (ReactorStep.wake sizeof_cmd)).cmdbase.current_cmd = some 100 ∧
    (reactor_step (commands_exec_sync (commands_base_new mem_zero false) 100
        (some (command_function.collab (fun _ _ => (COMMAND_PENDING, 3)))) none 7 sizeof_cmd
        []).2 (ReactorStep.wake sizeof_cmd)).cmdbase.command_pipe = [] := by
  decide

/-- C13 (amended): when the read event fires and the read returns a full reference, the
dispatcher takes exactly the oldest reference out of the pipe and runs `command_cb_async`
on it if its `nonblock` flag is set and `command_cb_sync` otherwise.  When the executor
returns the read event is armed again if the command is nonblocking, or blocking with a
primary function that reports DONE; if a blocking command reports PENDING the read event is
left unarmed and the command is the pending one. -/
theorem C13_dispatch_routes_and_rearms (s : World) (c : Nat) (rest : List Nat)
    (fn : command_function)
    (harmed : s.cmdbase.command_event = true)
    (hp : s.cmdbase.command_pipe = c :: rest) (hf : (s.mem c).func = some fn) :
    (reactor_step s (ReactorStep.wake sizeof_cmd)).cmdbase.command_pipe = rest ∧
    ((s.mem c).nonblock ≠ 0 →
      reactor_step s (ReactorStep.wake sizeof_cmd) =
        command_cb_async (set_pipe (emit (set_event s false) (Event.read sizeof_cmd)) rest) c ∧
      (reactor_step s (ReactorStep.wake sizeof_cmd)).cmdbase.command_event = true) ∧
    ((s.mem c).nonblock = 0 →
      reactor_step s (ReactorStep.wake sizeof_cmd) =
        command_cb_sync (set_pipe (emit (set_event s false) (Event.read sizeof_cmd)) rest) c ∧
      ((∀ w, (call_function fn (s.mem c).arg (s.mem c).ret w).1 = COMMAND_END) →
        (reactor_step s (ReactorStep.wake sizeof_cmd)).cmdbase.command_event = true) ∧
      ((∀ w, (call_function fn (s.mem c).arg (s.mem c).ret w).1 = COMMAND_PENDING) →
        (reactor_step s (ReactorStep.wake sizeof_cmd)).cmdbase.command_event = false ∧
        (reactor_step s (ReactorStep.wake sizeof_cmd)).cmdbase.current_cmd = some c)) := by
  have hstep : reactor_step s (ReactorStep.wake sizeof_cmd) =
      command_cb (set_event s false) sizeof_cmd := by
    simp [reactor_step, harmed, hp]
  have hp' : (set_event s false).cmdbase.command_pipe = c :: rest := by simpa using hp
  have hsame : ∀ w, (call_function fn (s.mem c).arg (s.mem c).ret w).2.1 =
      (call_function fn (s.mem c).arg (s.mem c).ret s).2.1 :=
    fun w => (call_function_report fn (s.mem c).arg (s.mem c).ret w s).2
  by_cases hnb : (s.mem c).nonblock = 0
  · have hroute := command_cb_sync_route (set_event s false) c rest hp' (by simpa using hnb)
    obtain ⟨_, _, _, f4⟩ := command_cb_sync_frame
      (set_pipe (emit (set_event s false) (Event.read sizeof_cmd)) rest) c
    refine ⟨by rw [hstep, hroute, f4]; simp, fun h => absurd hnb h, fun _ => ?_⟩
    refine ⟨by rw [hstep, hroute], ?_, ?_⟩
    · intro hE
      cases hb : (s.mem c).func_bh with
      | none =>
        rw [hstep, hroute]
        exact (command_cb_sync_done _ c fn _ (by simpa using hf) (by simpa using hE)
          (by simpa using hsame) (Or.inr (by simpa using hb))).2.2.2.2.1
      | some bh =>
        rw [hstep, hroute]
        by_cases h0 : (call_function fn (s.mem c).arg (s.mem c).ret s).2.1 = 0
        · exact (command_cb_sync_done_bh _ c fn bh (call_function bh (s.mem c).arg 0 s).2.1
            (by simpa using hf) (by simpa using hb) (by simpa using hE)
            (by intro w; simpa [h0] using hsame w)
            (by intro w; simpa using (call_function_report bh (s.mem c).arg 0 w s).2)).2.2.2.2.1
        · exact (command_cb_sync_done _ c fn _ (by simpa using hf) (by simpa using hE)
            (by simpa using hsame) (Or.inl h0)).2.2.2.2.1
    · intro hP
      obtain ⟨_, _, p3, _, p5, _⟩ := command_cb_sync_pending
        (set_pipe (emit (set_event s false) (Event.read sizeof_cmd)) rest) c fn _
        (by simpa using hf) (by simpa using hP) (by simpa using hsame)
      rw [hstep, hroute]
      exact ⟨by rw [p5]; simp, p3⟩
  · have hroute := command_cb_async_route (set_event s false) c rest hp' (by simpa using hnb)
    obtain ⟨_, _, _, a4, a5, _⟩ := command_cb_async_spec
      (set_pipe (emit (set_event s false) (Event.read sizeof_cmd)) rest) c fn
      (call_function fn (s.mem c).arg (s.mem c).ret s).1 _
      (by simpa using hf)
      (by intro w; simpa using (call_function_report fn (s.mem c).arg (s.mem c).ret w s).1)
      (by simpa using hsame)
    exact ⟨by rw [hstep, hroute, a4]; simp, fun _ => ⟨by rw [hstep, hroute],
      by rw [hstep, hroute, a5]⟩, fun h => absurd h hnb⟩

/-- A blocking command whose primary function reports `(42, DONE)` is at the head of the
pipe of an armed command base: the dispatcher takes it out and the read event is armed
again afterwards. -/
theorem C13_dispatch_witness :
    (reactor_step (submitted (commands_base_new mem_zero false) 100
        (some (command_function.collab (fun _ _ => (COMMAND_END, 42)))) none 7)
        (ReactorStep.wake sizeof_cmd)).cmdbase.command_pipe = [] ∧
    (reactor_step (submitted (commands_base_new mem_zero false) 100
        (some (command_function.collab (fun _ _ => (COMMAND_END, 42)))) none 7)
        (ReactorStep.wake sizeof_cmd)).cmdbase.command_event = true :=
  ⟨(C13_dispatch_routes_and_rearms (submitted (commands_base_new mem_zero false) 100
      (some (command_function.collab (fun _ _ => (COMMAND_END, 42)))) none 7) 100 []
      (command_function.collab (fun _ _ => (COMMAND_END, 42))) rfl rfl rfl).1,
   ((C13_dispatch_routes_and_rearms (submitted (commands_base_new mem_zero false) 100
      (some (command_function.collab (fun _ _ => (COMMAND_END, 42)))) none 7) 100 []
      (command_function.collab (fun _ _ => (COMMAND_END, 42))) rfl rfl rfl).2.2
      rfl).2.1 (fun _ => rfl)⟩

/-- C14 as stated fails when a primary function reports PENDING with a count of 0: the
state after the dispatch is reachable from a freshly constructed command base, the pending
slot holds the command, and its counter is 0, not greater than zero. -/
theorem C14_counterexample_pending_with_zero_counter :
    Reachable (fun _ => True)
      (reactor_step (commands_exec_sync (commands_base_new mem_zero false) 100
        (some (command_function.collab (fun _ _ => (COMMAND_PENDING, 0)))) none 7 sizeof_cmd
        []).2 (ReactorStep.wake sizeof_cmd)) ∧
    (reactor_step (commands_exec_sync (commands_base_new mem_zero false) 100
        (some (command_function.collab (fun _ _ => (COMMAND_PENDING, 0)))) none 7 sizeof_cmd
        []).2 (ReactorStep.wake sizeof_cmd)).cmdbase.current_cmd = some 100 ∧
    ((reactor_step (commands_exec_sync (commands_base_new mem_zero false) 100
        (some (command_function.collab (fun _ _ => (COMMAND_PENDING, 0)))) none 7 sizeof_cmd
        []).2 (ReactorStep.wake sizeof_cmd)).mem 100).pending = 0 :=
  ⟨Reachable.step _ _ (Reachable.exec_sync _ 100 _ none 7 sizeof_cmd
      (Reachable.new mem_zero false) ⟨by simp [commands_base_new], by simp [commands_base_new]⟩
      (fun _ _ => trivial)),
    by decide, by decide⟩

/-- C14 (amended): in every state reachable from a freshly constructed command base by
submitting commands whose primary functions report PENDING only with a count of at least 1,
dispatching them and calling `commands_exec_end`, a command in the pending slot has a
counter greater than zero.  In any state, a step of the event loop puts a command into the
pending slot only by dispatching it as a blocking command whose primary function reports
PENDING, and submissions do not touch the slot. -/
theorem C14_pending_slot_invariant (s : World) :
    (Reachable CountsSteps s →
      ∀ c, s.cmdbase.current_cmd = some c → 0 < (s.mem c).pending) ∧
    (∀ st c, (reactor_step s st).cmdbase.current_cmd = some c →
      s.cmdbase.current_cmd = some c ∨
        (st = ReactorStep.wake sizeof_cmd ∧ s.cmdbase.command_pipe.head? = some c ∧
          (s.mem c).nonblock = 0 ∧
          ∃ fn, (s.mem c).func = some fn ∧
            (call_function fn (s.mem c).arg (s.mem c).ret s).1 = COMMAND_PENDING)) ∧
    (∀ cmd func func_bh arg n,
      (commands_exec_sync s cmd func func_bh arg n []).2.cmdbase.current_cmd =
        s.cmdbase.current_cmd) ∧
    (∀ alloc func arg n,
      (commands_exec_async s alloc func arg n).2.cmdbase.current_cmd =
        s.cmdbase.current_cmd) := by
  refine ⟨?_, ?_, fun cmd func func_bh arg n =>
      (commands_exec_sync_nil_spec s cmd func func_bh arg n).1,
    fun alloc func arg n => (commands_exec_async_spec s alloc func arg n).1⟩
  · intro h c hc
    have := (reachable_pending_inv s h).1 c hc
    omega
  · intro st c hc
    cases st with
    | exec_end v =>
      simp only [reactor_step] at hc
      cases h0 : s.cmdbase.current_cmd with
      | none => rw [commands_exec_end_idle _ _ h0, h0] at hc; cases hc
      | some c0 =>
        obtain ⟨_, _, f3⟩ := commands_exec_end_cases s c0 v h0
        rcases f3 with ⟨_, g2, _⟩ | ⟨_, g2⟩
        · left; rw [← g2, hc]
        · rw [g2] at hc; cases hc
    | wake n =>
      simp only [reactor_step] at hc
      split at hc
      next hfire =>
        by_cases hn : n = sizeof_cmd
        · subst hn
          cases hp : s.cmdbase.command_pipe with
          | nil => exact absurd hp hfire.2
          | cons h rest =>
            have hp' : (set_event s false).cmdbase.command_pipe = h :: rest := by
              simpa using hp
            by_cases hb : ((set_event s false).mem h).nonblock = 0
            · rw [command_cb_sync_route _ h rest hp' hb] at hc
              obtain ⟨_, _, f3⟩ := command_cb_sync_cases
                (set_pipe (emit (set_event s false) (Event.read sizeof_cmd)) rest) h
              rcases f3 with ⟨g1, _⟩ | ⟨fn, g1, g2, g3, _⟩
              · left; rw [g1] at hc; simpa using hc
              · right
                rw [g3] at hc
                have : c = h := (Option.some.inj hc).symm
                subst this
                refine ⟨rfl, by simp, by simpa using hb, fn, by simpa using g1, ?_⟩
                rw [(call_function_report fn (s.mem c).arg (s.mem c).ret s _).1]
                simpa using g2
            · rw [command_cb_async_route _ h rest hp' hb] at hc
              obtain ⟨_, _, f3, _⟩ := command_cb_async_frame
                (set_pipe (emit (set_event s false) (Event.read sizeof_cmd)) rest) h
              left; rw [f3] at hc; simpa using hc
        · rw [command_cb_short _ _ hn] at hc
          obtain ⟨_, _, _, r4, _⟩ := read_command_short (set_event s false) n hn
          left; simpa [r4] using hc
      next => left; exact hc

/-- After the dispatch of a blocking command whose primary function reports
`(3, PENDING)`, submitted to a freshly constructed command base, the pending command has a
counter greater than zero. -/
theorem C14_pending_slot_witness :
    0 < ((reactor_step (commands_exec_sync (commands_base_new mem_zero false) 100
        (some (command_function.collab (fun _ _ => (COMMAND_PENDING, 3)))) none 7 sizeof_cmd
        []).2 (ReactorStep.wake sizeof_cmd)).mem 100).pending :=
  (C14_pending_slot_invariant _).1
    (Reachable.step _ _ (Reachable.exec_sync _ 100 _ none 7 sizeof_cmd
      (Reachable.new mem_zero false) ⟨by simp [commands_base_new], by simp [commands_base_new]⟩
      (fun fn hfn => by
        cases hfn
        intro arg r w _
        exact ⟨by simp [call_function], by simp [call_function, INT_MAX]⟩)))
    100 (by decide)

/-- C15: when the `read` of the dispatcher returns anything but a full reference,
`command_cb` only arms the read event again: no executor and no function runs (the trace
gains the read and `event_add` only), the memory, the pending slot and the sleeping callers
are as before, and the next time the pipe is readable the dispatcher runs again. -/
theorem C15_short_read_only_rearms (s : World) (n : Int) (hn : n ≠ sizeof_cmd) :
    (command_cb s n).trace = s.trace ++ [Event.read n, Event.event_add] ∧
    (command_cb s n).mem = s.mem ∧
    (command_cb s n).cmdbase.current_cmd = s.cmdbase.current_cmd ∧
    (command_cb s n).waiting = s.waiting ∧
    (command_cb s n).fault = s.fault ∧
    (command_cb s n).cmdbase.command_event = true ∧
    (∀ m, (command_cb s n).cmdbase.command_pipe ≠ [] →
      reactor_step (command_cb s n) (ReactorStep.wake m) =
        command_cb (set_event (command_cb s n) false) m) := by
  obtain ⟨r1, r2, r3, r4, _, r6, _⟩ := read_command_short s n hn
  rw [command_cb_short s n hn]
  refine ⟨by simp [r6], by simp [r1], by simp [r4], by simp [r2], by simp [r3], by simp, ?_⟩
  intro m hm
  have hm' : (read_command s n).2.cmdbase.command_pipe ≠ [] := by simpa using hm
  simp [reactor_step, hm']

/-- A read that fails with -1 on a command base whose pipe holds the reference 100: the
dispatcher arms the read event again and the reference stays in the pipe. -/
theorem C15_short_read_witness :
    (command_cb (set_pipe (commands_base_new mem_zero false) [100]) (-1)).trace =
      (set_pipe (commands_base_new mem_zero false) [100]).trace ++
        [Event.read (-1), Event.event_add] ∧
    (command_cb (set_pipe (commands_base_new mem_zero false) [100]) (-1)).cmdbase.command_event =
      true :=
  ⟨(C15_short_read_only_rearms (set_pipe (commands_base_new mem_zero false) [100]) (-1)
      (by decide)).1,
   (C15_short_read_only_rearms (set_pipe (commands_base_new mem_zero false) [100]) (-1)
      (by decide)).2.2.2.2.2.1⟩

/-- C21: in every state reachable from a freshly constructed command base (whatever the
primary functions report), while the pending slot holds a command `c` the read event of the
command pipe is not armed.  Hence a wake-up of the event loop dispatches nothing and changes
nothing, a submission (blocking or nonblocking) and the release of a mutex by a woken caller
leave `c` in the slot and the read event unarmed, and a call of `commands_exec_end` either
leaves `c` in the slot with the read event unarmed (steps are outstanding) or completes the
command: it clears the slot and arms the read event. -/
theorem C21_pending_slot_keeps_dispatcher_unarmed (P : command_function → Prop) (s : World)
    (h : Reachable P s) (c : Nat) (hc : s.cmdbase.current_cmd = some c) :
    s.cmdbase.command_event = false ∧
    (∀ n, reactor_step s (ReactorStep.wake n) = s) ∧
    (∀ ns : List Int, (ns.map ReactorStep.wake).foldl reactor_step s = s) ∧
    (∀ cmd func func_bh arg n,
      (commands_exec_sync s cmd func func_bh arg n []).2.cmdbase.current_cmd = some c ∧
      (commands_exec_sync s cmd func func_bh arg n []).2.cmdbase.command_event = false) ∧
    (∀ alloc func arg n,
      (commands_exec_async s alloc func arg n).2.cmdbase.current_cmd = some c ∧
      (commands_exec_async s alloc func arg n).2.cmdbase.command_event = false) ∧
    (∀ cmd, (emit s (Event.mutex_unlock cmd)).cmdbase.current_cmd = some c ∧
      (emit s (Event.mutex_unlock cmd)).cmdbase.command_event = false) ∧
    (∀ v,
      (0 < int_dec (s.mem c).pending ∧
        (commands_exec_end s v).cmdbase.current_cmd = some c ∧
        (commands_exec_end s v).cmdbase.command_event = false) ∨
      (int_dec (s.mem c).pending ≤ 0 ∧
        (commands_exec_end s v).cmdbase.current_cmd = none ∧
        (commands_exec_end s v).cmdbase.command_event = true)) := by
  have hev : s.cmdbase.command_event = false := reachable_unarmed P s h c hc
  have hwake : ∀ n, reactor_step s (ReactorStep.wake n) = s := by
    intro n
    simp [reactor_step, hev]
  refine ⟨hev, hwake, ?_, ?_, ?_, ?_, ?_⟩
  · intro ns
    induction ns with
    | nil => rfl
    | cons n ns ih => simpa [hwake n] using ih
  · intro cmd func func_bh arg n
    obtain ⟨a1, _, _, _, a5⟩ := commands_exec_sync_nil_spec s cmd func func_bh arg n
    exact ⟨by rw [a1, hc], by rw [a5, hev]⟩
  · intro alloc func arg n
    obtain ⟨a1, _, _, a4⟩ := commands_exec_async_spec s alloc func arg n
    exact ⟨by rw [a1, hc], by rw [a4, hev]⟩
  · intro cmd
    exact ⟨hc, hev⟩
  · intro v
    rcases commands_exec_end_armed s c v hc with ⟨g1, g2, g3⟩ | ⟨g1, g2, g3⟩
    · exact Or.inl ⟨g1, g2, by rw [g3, hev]⟩
    · exact Or.inr ⟨g1, g2, g3⟩

/-- After the dispatch of a blocking command whose primary function reports
`(2, PENDING)`, submitted to a freshly constructed command base, the read event is not armed
and a further wake-up changes nothing. -/
theorem C21_pending_slot_witness :
    (reactor_step (commands_exec_sync (commands_base_new mem_zero false) 100
        (some (command_function.collab (fun _ _ => (COMMAND_PENDING, 2)))) none 7 sizeof_cmd
        []).2 (ReactorStep.wake sizeof_cmd)).cmdbase.command_event = false ∧
    reactor_step (reactor_step (commands_exec_sync (commands_base_new mem_zero false) 100
        (some (command_function.collab (fun _ _ => (COMMAND_PENDING, 2)))) none 7 sizeof_cmd
        []).2 (ReactorStep.wake sizeof_cmd)) (ReactorStep.wake sizeof_cmd) =
      reactor_step (commands_exec_sync (commands_base_new mem_zero false) 100
        (some (command_function.collab (fun _ _ => (COMMAND_PENDING, 2)))) none 7 sizeof_cmd
        []).2 (ReactorStep.wake sizeof_cmd) :=
  ⟨(C21_pending_slot_keeps_dispatcher_unarmed (fun _ => True) _
      (Reachable.step _ _ (Reachable.exec_sync _ 100 _ none 7 sizeof_cmd
        (Reachable.new mem_zero false)
        ⟨by simp [commands_base_new], by simp [commands_base_new]⟩ (fun _ _ => trivial)))
      100 (by decide)).1,
    (C21_pending_slot_keeps_dispatcher_unarmed (fun _ => True) _
      (Reachable.step _ _ (Reachable.exec_sync _ 100 _ none 7 sizeof_cmd
        (Reachable.new mem_zero false)
        ⟨by simp [commands_base_new], by simp [commands_base_new]⟩ (fun _ _ => trivial)))
      100 (by decide)).2.1 sizeof_cmd⟩

end Commands

namespace MdnsAvahi

/-- C18: `is_v4ll` holds exactly for the addresses whose first two bytes in network order
are 169 and 254 (169.254.0.0/16), and `is_v6ll` exactly for those whose first byte is 0xFE
and whose second byte has the top two bits 10, that is lies in 128..191 (fe80::/10).  For a
`NEW` event with a well-sized record `browse_record_callback` ignores the announcement
exactly in these cases and passes every other address on to the browse callback. -/
theorem C18_link_local_filter :
    (∀ a : AvahiIPv4Address, is_v4ll a = true ↔ a.o0.val = 169 ∧ a.o1.val = 254) ∧
    (∀ a : AvahiIPv6Address, is_v6ll a = true ↔
      (a.address.getD 0 0).val = 0xFE ∧ (a.address.getD 1 0).val / 64 = 2) ∧
    (∀ o0 o1 o2 o3 : Fin 256,
      browse_record_callback AvahiBrowserEvent.NEW AvahiProtocol.INET [o0, o1, o2, o3] =
        if o0.val = 169 ∧ o1.val = 254 then RecordOutcome.link_local
        else RecordOutcome.delivered (AvahiAddress.ipv4 ⟨o0, o1, o2, o3⟩)) ∧
    (∀ (a0 a1 : Fin 256) (tail : List (Fin 256)), tail.length = 14 →
      browse_record_callback AvahiBrowserEvent.NEW AvahiProtocol.INET6 (a0 :: a1 :: tail) =
        if a0.val = 0xFE ∧ a1.val / 64 = 2 then RecordOutcome.link_local
        else RecordOutcome.delivered (AvahiAddress.ipv6 ⟨a0 :: a1 :: tail⟩)) := by
  refine ⟨is_v4ll_iff, is_v6ll_iff, ?_, ?_⟩
  · intro o0 o1 o2 o3
    have h := is_v4ll_iff ⟨o0, o1, o2, o3⟩
    simp only [browse_record_callback, avahi_address_make]
    by_cases hc : o0.val = 169 ∧ o1.val = 254
    · simp [h.2 hc, hc]
    · have : is_v4ll ⟨o0, o1, o2, o3⟩ = false := by
        cases hv : is_v4ll ⟨o0, o1, o2, o3⟩
        · rfl
        · exact absurd (h.1 hv) hc
      simp [this, hc]
  · intro a0 a1 tail ht
    have h := is_v6ll_iff ⟨a0 :: a1 :: tail⟩
    simp only [List.getD_cons_zero, List.getD_cons_succ] at h
    simp only [browse_record_callback, avahi_address_make, List.length_cons, ht]
    by_cases hc : a0.val = 0xFE ∧ a1.val / 64 = 2
    · simp [h.2 hc, hc]
    · have : is_v6ll ⟨a0 :: a1 :: tail⟩ = false := by
        cases hv : is_v6ll ⟨a0 :: a1 :: tail⟩
        · rfl
        · exact absurd (h.1 hv) hc
      simp [this, hc]

/-- The announcement of fe80::1 is ignored. -/
theorem C18_link_local_witness :
    browse_record_callback AvahiBrowserEvent.NEW AvahiProtocol.INET6
        (0xFE :: 0x80 :: [0, 0, 0, 0, 0, 0, 0, 0, 0, 0, 0, 0, 0, 1]) =
      if (0xFE : Fin 256).val = 0xFE ∧ (0x80 : Fin 256).val / 64 = 2
        then RecordOutcome.link_local
        else RecordOutcome.delivered
          (AvahiAddress.ipv6 ⟨0xFE :: 0x80 :: [0, 0, 0, 0, 0, 0, 0, 0, 0, 0, 0, 0, 0, 1]⟩) :=
  C18_link_local_filter.2.2.2 0xFE 0x80 [0, 0, 0, 0, 0, 0, 0, 0, 0, 0, 0, 0, 0, 1] rfl

/-- C19: for every host name `h` for which `".h.local"` fits the buffer `rdata` (of
`HOST_NAME_MAX + 6 + 1` bytes, with `HOST_NAME_MAX` at most 256 so that a label length is a
byte), the conversion loop of `create_group_entry` leaves in `rdata` the DNS label format of
`".h.local"`, in which every `'.'` is replaced by the number of bytes of the label that
follows it and all other bytes are unchanged, followed by the zero terminator; the size
passed with the record is the string length plus 1, so the record ends with the
terminator. -/
theorem C19_cname_label_format (hnm : Nat) (hostname : List Nat)
    (hfit : (DOT :: hostname ++ dot_local).length < hnm + 6 + 1) (hmax : hnm ≤ 256) :
    cname_rdata hnm hostname =
      some (label_format (DOT :: hostname ++ dot_local) ++ [0],
        (DOT :: hostname ++ dot_local).length + 1) ∧
    (label_format (DOT :: hostname ++ dot_local) ++ [0]).length =
      (DOT :: hostname ++ dot_local).length + 1 := by
  have hlen : (DOT :: hostname ++ dot_local).length = hostname.length + 7 := by
    simp [dot_local]
  have hh : hostname.length < 256 := by omega
  have hloop := cname_loop_prefix (DOT :: hostname ++ dot_local) [] [0]
    (runs_of_dot_local hostname hh)
  simp only [List.takeWhile_nil, List.length_nil, List.append_nil] at hloop
  rw [List.take_of_length_le (by rw [label_format_length])] at hloop
  refine ⟨?_, by simp [label_format_length]⟩
  have htake : (DOT :: hostname ++ dot_local).take (hnm + 6 + 1 - 1) =
      DOT :: hostname ++ dot_local := List.take_of_length_le (by omega)
  simp only [cname_rdata, snprintf_dot_local, htake, Int.toNat_ofNat]
  rw [if_neg (by
    simp only [not_not]
    exact ⟨by rw [hlen]; omega, by exact_mod_cast hfit⟩)]
  rw [hloop]

/-- The host name `forked-daapd` with `HOST_NAME_MAX` 64: the record is the label format of
`.forked-daapd.local` with its terminator, 20 bytes. -/
theorem C19_cname_witness :
    cname_rdata 64 [102, 111, 114, 107, 101, 100, 45, 100, 97, 97, 112, 100] =
      some (label_format
        (DOT :: [102, 111, 114, 107, 101, 100, 45, 100, 97, 97, 112, 100] ++ dot_local) ++ [0],
        (DOT :: [102, 111, 114, 107, 101, 100, 45, 100, 97, 97, 112, 100] ++ dot_local).length
          + 1) :=
  (C19_cname_label_format 64 [102, 111, 114, 107, 101, 100, 45, 100, 97, 97, 112, 100]
    (by decide) (by decide)).1

end MdnsAvahi

namespace Pipe

/-! ## The metadata buffer -/

/-- The number of bytes a `read` with a positive count takes from a pipe that holds
`bytes`. -/
theorem read_holding_len (bytes : List Nat) (count : Int) (hc : 0 ≤ count) :
    (read (PipeEnd.holding bytes) count).1 = min count (bytes.length : Int) := by
  simp only [read, List.length_take]
  omega

/-- What the second statement of `alloc_metabuf` yields for a buffer that is allocated. -/
theorem alloc_metabuf_fresh_some (g : metadata_buf) (heap : Option (Nat → Nat)) (b : Block)
    (h : g.buf = some b) : alloc_metabuf_fresh g heap = (0, g) := by
  simp [alloc_metabuf_fresh, h]

/-- What the second statement of `alloc_metabuf` yields for a NULL buffer. -/
theorem alloc_metabuf_fresh_none (g : metadata_buf) (heap : Option (Nat → Nat))
    (h : g.buf = none) :
    alloc_metabuf_fresh g heap =
      match heap with
      | none => (-1, { buf := none, pos := 0, size := META_PIPE_BUFFER_SIZE })
      | some fresh =>
        (0, { buf := some { len := 65535, data := fresh }, pos := 0,
              size := META_PIPE_BUFFER_SIZE }) := by
  cases heap <;> simp [alloc_metabuf_fresh, h, malloc, META_PIPE_BUFFER_SIZE]

/-- The buffer `free_metabuf` leaves behind is NULL. -/
theorem free_metabuf_buf (g : metadata_buf) : (free_metabuf g).buf = none := by
  cases h : g.buf <;> simp [free_metabuf, h]

/-- The cases in which `alloc_metabuf` takes a block from `malloc`: the buffer was full and
larger than the maximum (it is dropped first), or it was NULL and not full. -/
theorem alloc_metabuf_malloc (g : metadata_buf) (heap : Option (Nat → Nat))
    (h : (g.pos = g.size ∧ META_PIPE_BUFFER_MAXSIZE < g.size) ∨
      (g.pos ≠ g.size ∧ g.buf = none)) :
    (∀ fresh, heap = some fresh →
      alloc_metabuf g heap =
        (0, { buf := some { len := 65535, data := fresh }, pos := 0, size := 65535 })) ∧
    (heap = none → alloc_metabuf g heap = (-1, { buf := none, pos := 0, size := 65535 })) := by
  have key : alloc_metabuf g heap =
      alloc_metabuf_fresh { buf := none, pos := g.pos, size := g.size } heap := by
    rcases h with ⟨hfull, hmax⟩ | ⟨hne, hb⟩
    · have hmax1 : ¬ g.size ≤ META_PIPE_BUFFER_MAXSIZE := by omega
      rw [alloc_metabuf, if_pos hfull, if_neg hmax1,
        alloc_metabuf_fresh_none _ _ (free_metabuf_buf g), alloc_metabuf_fresh_none _ _ rfl]
    · rw [alloc_metabuf, if_neg hne, alloc_metabuf_fresh_none _ _ hb,
        alloc_metabuf_fresh_none _ _ rfl]
  rw [key, alloc_metabuf_fresh_none _ _ rfl]
  constructor
  · intro fresh hh
    subst hh
    simp [META_PIPE_BUFFER_SIZE]
  · intro hh
    subst hh
    simp [META_PIPE_BUFFER_SIZE]

/-- A buffer that is allocated and not full is left as it is. -/
theorem alloc_metabuf_room (g : metadata_buf) (heap : Option (Nat → Nat)) (b : Block)
    (hne : g.pos ≠ g.size) (hb : g.buf = some b) : alloc_metabuf g heap = (0, g) := by
  rw [alloc_metabuf, if_neg hne, alloc_metabuf_fresh_some _ _ b hb]

/-- A full buffer of at most the maximal size is enlarged by `realloc`. -/
theorem alloc_metabuf_grow (g : metadata_buf) (heap : Option (Nat → Nat))
    (hfull : g.pos = g.size) (hmax : g.size ≤ META_PIPE_BUFFER_MAXSIZE) :
    (∀ fresh, heap = some fresh →
      alloc_metabuf g heap =
        (0, { buf := realloc g.buf (g.size + 65535) (some fresh), pos := g.pos,
              size := g.size + 65535 })) ∧
    (heap = none →
      alloc_metabuf g heap = (-1, { buf := none, pos := g.pos, size := g.size + 65535 })) := by
  constructor
  · intro fresh hh
    subst hh
    simp [alloc_metabuf, hfull, hmax, realloc, alloc_metabuf_fresh, META_PIPE_BUFFER_SIZE]
  · intro hh
    subst hh
    simp [alloc_metabuf, hfull, hmax, realloc, META_PIPE_BUFFER_SIZE]

theorem metabuf_inv_zero : metabuf_inv metabuf_zero := by
  refine ⟨by decide, by decide, ?_⟩
  intro b hb
  simp [metabuf_zero] at hb

/-- The states `alloc_metabuf` leaves behind when it takes a block from `malloc`. -/
theorem metabuf_inv_fresh (heap : Option (Nat → Nat)) :
    metabuf_inv (match heap with
      | none => ((-1 : Int), ({ buf := none, pos := 0, size := META_PIPE_BUFFER_SIZE } :
          metadata_buf))
      | some fresh =>
        (0, { buf := some { len := 65535, data := fresh }, pos := 0,
              size := META_PIPE_BUFFER_SIZE })).2 := by
  cases heap with
  | none =>
    refine ⟨by simp, by simp [META_PIPE_BUFFER_SIZE], ?_⟩
    intro b hb
    simp at hb
  | some fresh =>
    refine ⟨by simp, by simp [META_PIPE_BUFFER_SIZE], ?_⟩
    intro b hb
    simp only [Option.some.injEq] at hb
    subst hb
    simp [META_PIPE_BUFFER_SIZE]

/-- A call of `alloc_metabuf` keeps the buffer in the states between two runs, whether it
returns 0 or -1. -/
theorem alloc_metabuf_inv (g : metadata_buf) (heap : Option (Nat → Nat))
    (h0 : 0 ≤ g.pos) (h1 : g.pos ≤ g.size)
    (h2 : ∀ b, g.buf = some b → (b.len : Int) = g.size) :
    metabuf_inv (alloc_metabuf g heap).2 := by
  by_cases hfull : g.pos = g.size
  · by_cases hmax : g.size ≤ META_PIPE_BUFFER_MAXSIZE
    · have hle : g.size ≤ g.size + META_PIPE_BUFFER_SIZE := by
        unfold META_PIPE_BUFFER_SIZE; omega
      have hlt : g.size < g.size + META_PIPE_BUFFER_SIZE := by
        unfold META_PIPE_BUFFER_SIZE; omega
      have hsz : (((g.size + META_PIPE_BUFFER_SIZE).toNat : Nat) : Int) =
          g.size + META_PIPE_BUFFER_SIZE := by
        unfold META_PIPE_BUFFER_SIZE; omega
      have hp : 0 ≤ g.size := by omega
      cases heap with
      | none =>
        simp only [alloc_metabuf, hfull, hmax, realloc, if_true]
        refine ⟨hp, hle, ?_⟩
        intro b hb
        simp at hb
      | some fresh =>
        simp only [alloc_metabuf, hfull, hmax, realloc, if_true, alloc_metabuf_fresh]
        refine ⟨hp, hle, ?_⟩
        intro b hb
        simp only [Option.some.injEq] at hb
        subst hb
        exact ⟨hsz, hlt⟩
    · rw [alloc_metabuf, if_pos hfull, if_neg hmax,
        alloc_metabuf_fresh_none _ _ (free_metabuf_buf g)]
      exact metabuf_inv_fresh heap
  · cases hb : g.buf with
    | some b =>
      rw [alloc_metabuf, if_neg hfull, alloc_metabuf_fresh_some _ _ b hb]
      refine ⟨h0, h1, ?_⟩
      intro b1 hb1
      exact ⟨h2 b1 hb1, by show g.pos < g.size; omega⟩
    | none =>
      rw [alloc_metabuf, if_neg hfull, alloc_metabuf_fresh_none _ _ hb]
      exact metabuf_inv_fresh heap

/-- A run of `metadatapipe_read` that stays inside the defined behaviour of C keeps the
buffer in the states between two runs. -/
theorem metadatapipe_read_inv (fd : Int) (g : metadata_buf) (event : Nat)
    (pipe_end : PipeEnd) (heap1 heap2 : Option (Nat → Nat)) (hI : metabuf_inv g)
    (hok : (metadatapipe_read fd g event pipe_end heap1 heap2).fault = false) :
    metabuf_inv (metadatapipe_read fd g event pipe_end heap1 heap2).g_metabuf := by
  obtain ⟨i0, i1, i2⟩ := hI
  unfold metadatapipe_read at hok ⊢
  by_cases hfd : fd = -1
  · rw [if_pos hfd]
    exact ⟨i0, i1, i2⟩
  rw [if_neg hfd] at hok ⊢
  by_cases hto : event &&& EV_TIMEOUT ≠ 0 ∧ g.buf.isSome = true
  · rw [if_pos hto] at hok ⊢
    generalize g.buf.bind c_string = o at hok ⊢
    cases o with
    | none => cases hok
    | some text =>
      simp only at hok ⊢
      generalize check_metadatatext (some text) = res at hok ⊢
      cases res with
      | returned v =>
        refine ⟨?_, ?_, ?_⟩
        · cases hb : g.buf <;> simp [free_metabuf, hb, i0]
        · cases hb : g.buf
          · simp [free_metabuf, hb, i1]
          · simp [free_metabuf, hb, META_PIPE_BUFFER_SIZE]
        · intro b hb
          simp only [free_metabuf_buf] at hb
          cases hb
      | strcmp_null => cases hok
      | strstr_null => cases hok
  rw [if_neg hto] at hok ⊢
  by_cases hrd : event &&& EV_READ ≠ 0
  · rw [if_pos hrd] at hok ⊢
    have hI1 : metabuf_inv (if g.buf.isNone = true then (alloc_metabuf g heap1).2 else g) := by
      split
      · exact alloc_metabuf_inv g heap1 i0 i1 (fun b hb => (i2 b hb).1)
      · exact ⟨i0, i1, i2⟩
    generalize (if g.buf.isNone = true then (alloc_metabuf g heap1).2 else g) = g1
      at hok hI1 ⊢
    obtain ⟨j0, j1, j2⟩ := hI1
    simp only at hok ⊢
    cases hb : g1.buf with
    | none => exact ⟨j0, j1, j2⟩
    | some b =>
      rw [hb] at hok
      simp only at hok ⊢
      by_cases hlen : (read pipe_end (g1.size - g1.pos)).1 > 0
      · rw [if_pos hlen] at hok ⊢
        by_cases hin : 0 ≤ g1.pos ∧
            g1.pos + (read pipe_end (g1.size - g1.pos)).1 < (b.len : Int)
        · rw [if_pos hin]
          have hsz := (j2 b hb).1
          apply alloc_metabuf_inv
          · show 0 ≤ g1.pos + (read pipe_end (g1.size - g1.pos)).1
            omega
          · show g1.pos + (read pipe_end (g1.size - g1.pos)).1 ≤ g1.size
            omega
          · intro b1 hb1
            simp only [Option.some.injEq] at hb1
            subst hb1
            simpa [store_bytes] using hsz
        · rw [if_neg hin] at hok
          cases hok
      · rw [if_neg hlen]
        exact ⟨j0, j1, j2⟩
  · rw [if_neg hrd]
    exact ⟨i0, i1, i2⟩

/-- The first allocation: from the all-zero state `alloc_metabuf` takes a block of 65535
bytes. -/
theorem alloc_metabuf_zero (fresh : Nat → Nat) :
    alloc_metabuf metabuf_zero (some fresh) =
      (0, { buf := some { len := 65535, data := fun i => fresh i }, pos := 0, size := 65535 }) := by
  simp [alloc_metabuf, metabuf_zero, realloc, alloc_metabuf_fresh, META_PIPE_BUFFER_SIZE,
    META_PIPE_BUFFER_MAXSIZE]

/-- The very first read event of the program, with an allocator that has memory to give and
at least 65535 bytes in the pipe: the buffer of 65535 bytes is filled by the one `read` and
the terminating zero byte is stored at index 65535, outside the block. -/
theorem metadatapipe_read_first_fill (fd : Int) (bytes : List Nat) (fresh : Nat → Nat)
    (heap2 : Option (Nat → Nat)) (hfd : fd ≠ -1) (hlen : 65535 ≤ bytes.length) :
    (metadatapipe_read fd metabuf_zero EV_READ (PipeEnd.holding bytes) (some fresh)
      heap2).fault = true ∧
    (metadatapipe_read fd metabuf_zero EV_READ (PipeEnd.holding bytes) (some fresh)
      heap2).g_metabuf.pos = 65535 ∧
    (metadatapipe_read fd metabuf_zero EV_READ (PipeEnd.holding bytes) (some fresh)
      heap2).g_metabuf.size = 65535 := by
  have hr : (read (PipeEnd.holding bytes) (65535 - 0)).1 = 65535 := by
    rw [read_holding_len _ _ (by norm_num)]
    omega
  have hto : EV_READ &&& EV_TIMEOUT = 0 := by decide
  have hrd : EV_READ &&& EV_READ ≠ 0 := by decide
  have hz : metabuf_zero.buf.isNone = true := rfl
  simp only [metadatapipe_read, if_neg hfd, hto, hrd, hz, alloc_metabuf_zero, hr, ne_eq,
    not_true_eq_false, false_and, if_false, not_false_eq_true, if_true]
  simp

/-! ## The metadata text -/

/-- A text without a newline that is not empty is one token. -/
theorem strtok_single (line : List Nat) (hnl : NEWLINE ∉ line) (hne : line ≠ []) :
    strtok line = [line] := by
  have h : ∀ x ∈ line, ¬ ((fun y => y == NEWLINE) x = true) := by
    intro x hx hxe
    have : x = NEWLINE := by simpa using hxe
    exact hnl (this ▸ hx)
  simp [strtok, List.splitOn, List.splitOnP_eq_single _ line h, hne]

/-- The first token of a text that starts with a line that is not empty. -/
theorem strtok_line (line rest : List Nat) (hnl : NEWLINE ∉ line) (hne : line ≠ []) :
    strtok (line ++ NEWLINE :: rest) = line :: strtok rest := by
  have h : ∀ x ∈ line, ¬ ((fun y => y == NEWLINE) x = true) := by
    intro x hx hxe
    have : x = NEWLINE := by simpa using hxe
    exact hnl (this ▸ hx)
  simp [strtok, List.splitOn, List.splitOnP_first _ line h NEWLINE (by simp) rest, hne]

theorem strtok_nil : strtok [] = [] := by
  simp [strtok, List.splitOn]

/-- A token that is not an item header with a length is passed over. -/
theorem check_tokens_skip (ptr : List Nat) (rest : List (List Nat))
    (h : ¬ ((sscanf_item ptr).ret = 3 ∧ (sscanf_item ptr).length ≠ 0)) :
    check_tokens (ptr :: rest) = check_tokens rest := by
  rw [check_tokens.eq_def]
  simp only [if_neg h]

/-- An item header as the last token: `strcmp` receives NULL. -/
theorem check_tokens_header_last (ptr : List Nat)
    (h : (sscanf_item ptr).ret = 3 ∧ (sscanf_item ptr).length ≠ 0) :
    check_tokens [ptr] = check_result.strcmp_null := by
  rw [check_tokens.eq_def]
  simp only [if_pos h]

/-- An item header followed by a token that is not the base64 data tag: both are passed
over. -/
theorem check_tokens_no_tag (ptr ptr1 : List Nat) (rest1 : List (List Nat))
    (h : (sscanf_item ptr).ret = 3 ∧ (sscanf_item ptr).length ≠ 0) (h1 : ptr1 ≠ data_tag) :
    check_tokens (ptr :: ptr1 :: rest1) = check_tokens rest1 := by
  rw [check_tokens.eq_def]
  simp only [if_pos h, if_pos h1]

/-- An item header and the base64 data tag as the last tokens: `strstr` receives NULL. -/
theorem check_tokens_tag_last (ptr : List Nat)
    (h : (sscanf_item ptr).ret = 3 ∧ (sscanf_item ptr).length ≠ 0) :
    check_tokens [ptr, data_tag] = check_result.strstr_null := by
  rw [check_tokens.eq_def]
  simp only [if_pos h, ne_eq, not_true_eq_false, if_false]

/-- An item header, the base64 data tag and the data. -/
theorem check_tokens_data (ptr ptr2 : List Nat) (rest2 : List (List Nat))
    (h : (sscanf_item ptr).ret = 3 ∧ (sscanf_item ptr).length ≠ 0) :
    check_tokens (ptr :: data_tag :: ptr2 :: rest2) =
      if strstr ptr2 end_tag = none then check_result.returned (-1)
      else check_tokens rest2 := by
  rw [check_tokens.eq_def]
  simp only [if_pos h, ne_eq, not_true_eq_false, if_false]

/-- The loop of `check_metadatatext` ends in one of four ways, whatever the tokens. -/
theorem check_tokens_total (n : Nat) : ∀ ts : List (List Nat), ts.length ≤ n →
    check_tokens ts = check_result.returned 0 ∨ check_tokens ts = check_result.returned (-1) ∨
      check_tokens ts = check_result.strcmp_null ∨
      check_tokens ts = check_result.strstr_null := by
  induction n with
  | zero =>
    intro ts hl
    have : ts = [] := List.length_eq_zero.1 (by omega)
    subst this
    left; rfl
  | succ n ih =>
    intro ts hl
    cases ts with
    | nil => left; rfl
    | cons ptr rest =>
      by_cases h : (sscanf_item ptr).ret = 3 ∧ (sscanf_item ptr).length ≠ 0
      · cases rest with
        | nil => right; right; left; exact check_tokens_header_last ptr h
        | cons ptr1 rest1 =>
          by_cases h1 : ptr1 = data_tag
          · subst h1
            cases rest1 with
            | nil => right; right; right; exact check_tokens_tag_last ptr h
            | cons ptr2 rest2 =>
              rw [check_tokens_data ptr ptr2 rest2 h]
              by_cases h2 : strstr ptr2 end_tag = none
              · right; left; rw [if_pos h2]
              · rw [if_neg h2]
                exact ih rest2 (by simp at hl ⊢; omega)
          · rw [check_tokens_no_tag ptr ptr1 rest1 h h1]
            exact ih rest1 (by simp at hl ⊢; omega)
      · rw [check_tokens_skip ptr rest h]
        exact ih rest (by simp at hl ⊢; omega)

/-- What a header line is: `sscanf` assigns all three variables and the length is not 0.
Such a line is not empty. -/
theorem header_ne_nil (line : List Nat) (h3 : (sscanf_item line).ret = 3) : line ≠ [] := by
  intro h
  subst h
  revert h3
  decide

/-- A complete item (header, base64 data tag, data with the closing tag) is accepted with
the value 0, and data without the closing tag is rejected with -1. -/
theorem check_metadatatext_item :
    check_metadatatext (some
      ([60, 105, 116, 101, 109, 62, 60, 116, 121, 112, 101, 62, 55, 51, 55, 51, 54, 101, 54, 51,
        60, 47, 116, 121, 112, 101, 62, 60, 99, 111, 100, 101, 62, 54, 49, 55, 51, 54, 49, 54,
        99, 60, 47, 99, 111, 100, 101, 62, 60, 108, 101, 110, 103, 116, 104, 62, 52, 60, 47,
        108, 101, 110, 103, 116, 104, 62] ++ NEWLINE :: data_tag ++
        NEWLINE :: [81, 87, 74, 106, 90, 65, 61, 61] ++ end_tag ++ [NEWLINE])) =
      check_result.returned 0 ∧
    check_metadatatext (some
      ([60, 105, 116, 101, 109, 62, 60, 116, 121, 112, 101, 62, 55, 51, 55, 51, 54, 101, 54, 51,
        60, 47, 116, 121, 112, 101, 62, 60, 99, 111, 100, 101, 62, 54, 49, 55, 51, 54, 49, 54,
        99, 60, 47, 99, 111, 100, 101, 62, 60, 108, 101, 110, 103, 116, 104, 62, 52, 60, 47,
        108, 101, 110, 103, 116, 104, 62] ++ NEWLINE :: data_tag ++
        NEWLINE :: [81, 87, 74, 106, 90, 65, 61, 61] ++ [NEWLINE])) =
      check_result.returned (-1) := by
  constructor <;> decide

/-! ## The claims -/

/-- C20: for every `wanted ≥ 0`, with `w` the value of `wanted` clamped to 8192,
`pipe_audio_get` returns -1 and appends nothing if the read fails with an error other than
`EAGAIN`; it appends exactly `w` zero bytes and returns `w` if the read fails with `EAGAIN`
or returns 0; otherwise it appends exactly the bytes read and returns their number, which
is at most `w` and so never exceeds 8192. -/
theorem C20_pipe_audio_get (evbuf : List Nat) (wanted : Int) (hw : 0 ≤ wanted) :
    (∀ e, e ≠ EAGAIN →
      pipe_audio_get (PipeEnd.failing e) evbuf wanted = (-1, evbuf)) ∧
    (pipe_audio_get (PipeEnd.failing EAGAIN) evbuf wanted =
      (min wanted 8192, evbuf ++ List.replicate (min wanted 8192).toNat 0)) ∧
    (∀ bytes, (read (PipeEnd.holding bytes) (min wanted 8192)).1 = 0 →
      pipe_audio_get (PipeEnd.holding bytes) evbuf wanted =
        (min wanted 8192, evbuf ++ List.replicate (min wanted 8192).toNat 0)) ∧
    (∀ bytes, (read (PipeEnd.holding bytes) (min wanted 8192)).1 ≠ 0 →
      pipe_audio_get (PipeEnd.holding bytes) evbuf wanted =
        (((bytes.take (min wanted 8192).toNat).length : Int),
          evbuf ++ bytes.take (min wanted 8192).toNat) ∧
      ((bytes.take (min wanted 8192).toNat).length : Int) ≤ min wanted 8192 ∧
      ((bytes.take (min wanted 8192).toNat).length : Int) ≤ 8192) := by
  have hclamp : (if wanted > PIPE_BUFFER_SIZE then PIPE_BUFFER_SIZE else wanted) =
      min wanted 8192 := by
    unfold PIPE_BUFFER_SIZE
    split <;> omega
  have hmin : 0 ≤ min wanted 8192 := by omega
  refine ⟨?_, ?_, ?_, ?_⟩
  · intro e he
    simp [pipe_audio_get, read, errno_of, he]
  · simp only [pipe_audio_get, read, errno_of, hclamp]
    simp
  · intro bytes h0
    simp only [read] at h0
    simp only [pipe_audio_get, read, errno_of, hclamp, h0]
    simp
  · intro bytes h0
    simp only [read] at h0
    have hpos : ¬ ((bytes.take (min wanted 8192).toNat).length : Int) ≤ 0 := by omega
    have hlen : ((bytes.take (min wanted 8192).toNat).length : Int) ≤ min wanted 8192 := by
      have := List.length_take_le (min wanted 8192).toNat bytes
      omega
    refine ⟨?_, hlen, by omega⟩
    simp only [pipe_audio_get, read, errno_of, hclamp]
    rw [if_neg (by omega), if_neg hpos]

/-- With 10000 bytes wanted and the pipe reporting `EAGAIN`, 8192 zero bytes are appended
and 8192 is returned. -/
theorem C20_pipe_audio_get_witness :
    pipe_audio_get (PipeEnd.failing EAGAIN) [1, 2] 10000 =
      (min 10000 8192, [1, 2] ++ List.replicate (min (10000 : Int) 8192).toNat 0) :=
  (C20_pipe_audio_get [1, 2] 10000 (by decide)).2.1

/-- C22: in `metadatapipe_read` on a read event, with the buffer allocated as a block of
`size` bytes, `0 ≤ pos < size` and at least one byte in the pipe, the `read` returns a
number `len` with `0 < len ≤ size - pos`, but the index `pos + len` of the terminating zero
byte is not always inside the buffer.  When the pipe holds at least `size - pos` bytes,
`len` is `size - pos`, the index is `size`, one past the last index of the block, and the
run stores outside the block; the index is less than `size` only when the pipe holds fewer
than `size - pos` bytes. -/
theorem C22_terminator_index_reaches_size (fd : Int) (g : metadata_buf) (b : Block)
    (event : Nat) (bytes : List Nat) (heap1 heap2 : Option (Nat → Nat))
    (hfd : fd ≠ -1) (hbuf : g.buf = some b) (hlen : (b.len : Int) = g.size)
    (hpos : 0 ≤ g.pos) (hroom : g.pos < g.size)
    (hto : event &&& EV_TIMEOUT = 0) (hrd : event &&& EV_READ ≠ 0) (hne : bytes ≠ []) :
    0 < (read (PipeEnd.holding bytes) (g.size - g.pos)).1 ∧
    (read (PipeEnd.holding bytes) (g.size - g.pos)).1 ≤ g.size - g.pos ∧
    (g.size - g.pos ≤ (bytes.length : Int) →
      g.pos + (read (PipeEnd.holding bytes) (g.size - g.pos)).1 = g.size ∧
      (metadatapipe_read fd g event (PipeEnd.holding bytes) heap1 heap2).fault = true ∧
      (metadatapipe_read fd g event (PipeEnd.holding bytes) heap1 heap2).g_metabuf.pos =
        g.size) ∧
    ((bytes.length : Int) < g.size - g.pos →
      g.pos + (read (PipeEnd.holding bytes) (g.size - g.pos)).1 < g.size ∧
      (metadatapipe_read fd g event (PipeEnd.holding bytes) heap1 heap2).fault = false) := by
  have hr := read_holding_len bytes (g.size - g.pos) (by omega)
  have hpl : 0 < (bytes.length : Int) := by
    have := List.length_pos.2 hne
    omega
  have hnone : g.buf.isNone = false := by simp [hbuf]
  have hrun : metadatapipe_read fd g event (PipeEnd.holding bytes) heap1 heap2 =
      if 0 ≤ g.pos ∧ g.pos + (read (PipeEnd.holding bytes) (g.size - g.pos)).1 < (b.len : Int)
      then
        { g_metabuf :=
            (alloc_metabuf
              { buf := some (store_bytes b g.pos.toNat
                  ((read (PipeEnd.holding bytes) (g.size - g.pos)).2 ++ [0]))
                pos := g.pos + (read (PipeEnd.holding bytes) (g.size - g.pos)).1
                size := g.size } heap2).2
          fault := false
          event_added := true }
      else
        { g_metabuf := { buf := some b
                         pos := g.pos + (read (PipeEnd.holding bytes) (g.size - g.pos)).1
                         size := g.size }
          fault := true
          event_added := false } := by
    have hgt : (read (PipeEnd.holding bytes) (g.size - g.pos)).1 > 0 := by
      rw [hr]; omega
    simp only [metadatapipe_read, hfd, hto, hrd, hnone, hbuf, if_false, if_true, hgt,
      ne_eq, not_true_eq_false, false_and, not_false_eq_true]
    have hgt' : 0 < (read (PipeEnd.holding bytes) (g.size - g.pos)).1 := hgt
    simp [hbuf, hgt']
  refine ⟨by rw [hr]; omega, by rw [hr]; omega, ?_, ?_⟩
  · intro hfill
    have hidx : g.pos + (read (PipeEnd.holding bytes) (g.size - g.pos)).1 = g.size := by
      rw [hr]; omega
    have hnot : ¬ (0 ≤ g.pos ∧
        g.pos + (read (PipeEnd.holding bytes) (g.size - g.pos)).1 < (b.len : Int)) := by
      rw [hidx, hlen]; omega
    rw [hrun, if_neg hnot]
    exact ⟨hidx, rfl, hidx⟩
  · intro hfew
    have hidx : g.pos + (read (PipeEnd.holding bytes) (g.size - g.pos)).1 < g.size := by
      rw [hr]; omega
    have hyes : 0 ≤ g.pos ∧
        g.pos + (read (PipeEnd.holding bytes) (g.size - g.pos)).1 < (b.len : Int) := by
      rw [hlen]; exact ⟨hpos, hidx⟩
    rw [hrun, if_pos hyes]
    exact ⟨hidx, rfl⟩

/-- A buffer of 65535 bytes filled up to index 65530, and 5 bytes in the pipe: the read
fills the buffer and the terminating zero byte goes to index 65535, outside the block. -/
theorem C22_terminator_witness :
    (metadatapipe_read 5
      { buf := some { len := 65535, data := fun _ => 0 }, pos := 65530, size := 65535 }
      EV_READ (PipeEnd.holding [1, 2, 3, 4, 5]) none none).fault = true ∧
    (metadatapipe_read 5
      { buf := some { len := 65535, data := fun _ => 0 }, pos := 65530, size := 65535 }
      EV_READ (PipeEnd.holding [1, 2, 3, 4, 5]) none none).g_metabuf.pos = 65535 :=
  ((C22_terminator_index_reaches_size 5 _ { len := 65535, data := fun _ => 0 } EV_READ
    [1, 2, 3, 4, 5] none none (by decide) rfl (by decide) (by decide) (by decide) (by decide)
    (by decide) (by decide)).2.2.1 (by decide)).2

/-- C23: for every state of the metadata buffer with `0 ≤ pos ≤ size` and whatever the
allocator has to give.  When `alloc_metabuf` returns 0 the buffer is allocated (and its block
has `size` bytes if the block had `size` bytes before, or the buffer was NULL),
`0 ≤ pos < size`, and the count `size - pos` of the next read is at least 1.  The call
returns 0 or -1, and it returns 0 exactly when the allocator has memory to give or the
buffer is allocated and not full.  What the call leaves behind is fixed in each case:

* the buffer was full and larger than `META_PIPE_BUFFER_MAXSIZE`: the old buffer is dropped;
  with memory the call returns 0 and the buffer is the block of 65535 bytes fresh from the
  allocator (none of the old content), `pos = 0`, `size = 65535`; without memory it returns
  -1 with the buffer NULL, `pos = 0`, `size = 65535`;
* the buffer was NULL and not full (as `free_metabuf` leaves it): the same;
* the buffer was allocated and not full: the call returns 0 and changes nothing;
* the buffer was full and of at most the maximal size (as in the all-zero state): `pos`
  stays and `size` grows by 65535; with memory the call returns 0 and the buffer is a block
  of the new size that starts with the old content; without memory it returns -1 with the
  buffer NULL. -/
theorem C23_alloc_metabuf_leaves_room (g : metadata_buf) (heap : Option (Nat → Nat))
    (h0 : 0 ≤ g.pos) (h1 : g.pos ≤ g.size) :
    ((alloc_metabuf g heap).1 = 0 →
      (∃ b, (alloc_metabuf g heap).2.buf = some b ∧
        ((∀ b0, g.buf = some b0 → (b0.len : Int) = g.size) →
          (b.len : Int) = (alloc_metabuf g heap).2.size)) ∧
      0 ≤ (alloc_metabuf g heap).2.pos ∧
      (alloc_metabuf g heap).2.pos < (alloc_metabuf g heap).2.size ∧
      1 ≤ (alloc_metabuf g heap).2.size - (alloc_metabuf g heap).2.pos) ∧
    (g.pos = g.size → META_PIPE_BUFFER_MAXSIZE < g.size →
      (alloc_metabuf g heap).2.pos = 0 ∧
      (alloc_metabuf g heap).2.size = 65535 ∧
      ((alloc_metabuf g heap).1 = 0 →
        ∃ fresh, heap = some fresh ∧
          (alloc_metabuf g heap).2.buf = some { len := 65535, data := fresh })) ∧
    ((alloc_metabuf g heap).1 = 0 ∨ (alloc_metabuf g heap).1 = -1) ∧
    ((alloc_metabuf g heap).1 = 0 ↔
      heap.isSome = true ∨ (g.pos < g.size ∧ g.buf.isSome = true)) ∧
    (g.pos = g.size → META_PIPE_BUFFER_MAXSIZE < g.size →
      (∀ fresh, heap = some fresh →
        alloc_metabuf g heap =
          (0, { buf := some { len := 65535, data := fresh }, pos := 0, size := 65535 })) ∧
      (heap = none →
        alloc_metabuf g heap = (-1, { buf := none, pos := 0, size := 65535 }))) ∧
    (g.pos < g.size → g.buf = none →
      (∀ fresh, heap = some fresh →
        alloc_metabuf g heap =
          (0, { buf := some { len := 65535, data := fresh }, pos := 0, size := 65535 })) ∧
      (heap = none →
        alloc_metabuf g heap = (-1, { buf := none, pos := 0, size := 65535 }))) ∧
    (g.pos < g.size → ∀ b, g.buf = some b → alloc_metabuf g heap = (0, g)) ∧
    (g.pos = g.size → g.size ≤ META_PIPE_BUFFER_MAXSIZE →
      (alloc_metabuf g heap).2.pos = g.pos ∧
      (alloc_metabuf g heap).2.size = g.size + 65535 ∧
      (heap = none → (alloc_metabuf g heap).1 = -1 ∧ (alloc_metabuf g heap).2.buf = none) ∧
      (∀ fresh, heap = some fresh →
        (alloc_metabuf g heap).1 = 0 ∧
        ∃ b, (alloc_metabuf g heap).2.buf = some b ∧ (b.len : Int) = g.size + 65535 ∧
          (∀ b0, g.buf = some b0 → ∀ i, i < b0.len → b.data i = b0.data i) ∧
          (∀ i, (∀ b0, g.buf = some b0 → b0.len ≤ i) → b.data i = fresh i))) := by
  have hdiscard := fun (hfull : g.pos = g.size) (hmax : META_PIPE_BUFFER_MAXSIZE < g.size) =>
    alloc_metabuf_malloc g heap (Or.inl ⟨hfull, hmax⟩)
  have hnull := fun (hlt : g.pos < g.size) (hb : g.buf = none) =>
    alloc_metabuf_malloc g heap (Or.inr ⟨by omega, hb⟩)
  have hroom : g.pos < g.size → ∀ b, g.buf = some b → alloc_metabuf g heap = (0, g) :=
    fun hlt b hb => alloc_metabuf_room g heap b (by omega) hb
  have hgrow := alloc_metabuf_grow g heap
  have hsit : (g.pos = g.size ∧ g.size ≤ META_PIPE_BUFFER_MAXSIZE) ∨
      (g.pos = g.size ∧ META_PIPE_BUFFER_MAXSIZE < g.size) ∨
      (g.pos < g.size ∧ g.buf = none) ∨ (g.pos < g.size ∧ ∃ b, g.buf = some b) := by
    by_cases hfull : g.pos = g.size
    · by_cases hmax : g.size ≤ META_PIPE_BUFFER_MAXSIZE
      · exact Or.inl ⟨hfull, hmax⟩
      · exact Or.inr (Or.inl ⟨hfull, by omega⟩)
    · have hlt : g.pos < g.size := by omega
      cases hb : g.buf with
      | none => exact Or.inr (Or.inr (Or.inl ⟨hlt, rfl⟩))
      | some b => exact Or.inr (Or.inr (Or.inr ⟨hlt, b, rfl⟩))
  have hsz : (((g.size + 65535).toNat : Nat) : Int) = g.size + 65535 := by omega
  have hcase : heap = none ∨ ∃ fresh, heap = some fresh := by cases heap <;> simp
  refine ⟨?_, ?_, ?_, ?_, hdiscard, hnull, hroom, ?_⟩
  · intro hret0
    rcases hsit with ⟨hfull, hmax⟩ | ⟨hfull, hmax⟩ | ⟨hlt, hb⟩ | ⟨hlt, b, hb⟩
    · rcases hcase with hh | ⟨fresh, hh⟩
      · rw [(hgrow hfull hmax).2 hh] at hret0
        simp at hret0
      · rw [(hgrow hfull hmax).1 fresh hh]
        exact ⟨⟨_, rfl, fun _ => hsz⟩, by show 0 ≤ g.pos; omega,
          by show g.pos < g.size + 65535; omega,
          by show 1 ≤ g.size + 65535 - g.pos; omega⟩
    · rcases hcase with hh | ⟨fresh, hh⟩
      · rw [(hdiscard hfull hmax).2 hh] at hret0
        simp at hret0
      · rw [(hdiscard hfull hmax).1 fresh hh]
        exact ⟨⟨_, rfl, fun _ => by simp⟩, by simp, by simp, by simp⟩
    · rcases hcase with hh | ⟨fresh, hh⟩
      · rw [(hnull hlt hb).2 hh] at hret0
        simp at hret0
      · rw [(hnull hlt hb).1 fresh hh]
        exact ⟨⟨_, rfl, fun _ => by simp⟩, by simp, by simp, by simp⟩
    · rw [hroom hlt b hb]
      exact ⟨⟨b, hb, fun h => h b hb⟩, h0, hlt, by show 1 ≤ g.size - g.pos; omega⟩
  · intro hfull hmax
    rcases hcase with hh | ⟨fresh, hh⟩
    · rw [(hdiscard hfull hmax).2 hh]; simp
    · rw [(hdiscard hfull hmax).1 fresh hh]; simp [hh]
  · rcases hsit with ⟨hfull, hmax⟩ | ⟨hfull, hmax⟩ | ⟨hlt, hb⟩ | ⟨hlt, b, hb⟩
    · rcases hcase with hh | ⟨fresh, hh⟩
      · rw [(hgrow hfull hmax).2 hh]; simp
      · rw [(hgrow hfull hmax).1 fresh hh]; simp
    · rcases hcase with hh | ⟨fresh, hh⟩
      · rw [(hdiscard hfull hmax).2 hh]; simp
      · rw [(hdiscard hfull hmax).1 fresh hh]; simp
    · rcases hcase with hh | ⟨fresh, hh⟩
      · rw [(hnull hlt hb).2 hh]; simp
      · rw [(hnull hlt hb).1 fresh hh]; simp
    · rw [hroom hlt b hb]; simp
  · have hnf : g.pos = g.size → ¬ g.pos < g.size := fun h => by omega
    rcases hsit with ⟨hfull, hmax⟩ | ⟨hfull, hmax⟩ | ⟨hlt, hb⟩ | ⟨hlt, b, hb⟩
    · rcases hcase with hh | ⟨fresh, hh⟩
      · rw [(hgrow hfull hmax).2 hh]; simp [hh, hnf hfull]
      · rw [(hgrow hfull hmax).1 fresh hh]; simp [hh]
    · rcases hcase with hh | ⟨fresh, hh⟩
      · rw [(hdiscard hfull hmax).2 hh]; simp [hh, hnf hfull]
      · rw [(hdiscard hfull hmax).1 fresh hh]; simp [hh]
    · rcases hcase with hh | ⟨fresh, hh⟩
      · rw [(hnull hlt hb).2 hh]; simp [hh, hb]
      · rw [(hnull hlt hb).1 fresh hh]; simp [hh]
    · rw [hroom hlt b hb]; simp [hlt, hb]
  · intro hfull hmax
    refine ⟨?_, ?_, ?_, ?_⟩
    · rcases hcase with hh | ⟨fresh, hh⟩
      · rw [(hgrow hfull hmax).2 hh]
      · rw [(hgrow hfull hmax).1 fresh hh]
    · rcases hcase with hh | ⟨fresh, hh⟩
      · rw [(hgrow hfull hmax).2 hh]
      · rw [(hgrow hfull hmax).1 fresh hh]
    · intro hh
      rw [(hgrow hfull hmax).2 hh]
      exact ⟨rfl, rfl⟩
    · intro fresh hh
      rw [(hgrow hfull hmax).1 fresh hh]
      refine ⟨rfl, _, rfl, hsz, ?_, ?_⟩
      · intro b0 hb0 i hi
        simp [hb0, hi]
      · intro i hi
        cases hb : g.buf with
        | none => rfl
        | some b0 =>
          have := hi b0 hb
          have hn : ¬ i < b0.len := by omega
          simp [hn]

/-- A full buffer of 589815 bytes, which is more than `META_PIPE_BUFFER_MAXSIZE`, and an
allocator with memory to give: the call returns 0 and installs the fresh block of 65535
bytes with `pos = 0`.  From the all-zero state the program starts in, the call returns 0 and
leaves room for the next read. -/
theorem C23_alloc_metabuf_witness :
    alloc_metabuf
        { buf := some { len := 589815, data := fun _ => 7 }, pos := 589815, size := 589815 }
        (some (fun _ => 0)) =
      (0, { buf := some { len := 65535, data := fun _ => 0 }, pos := 0, size := 65535 }) ∧
    (alloc_metabuf metabuf_zero (some (fun _ => 0))).1 = 0 ∧
    0 ≤ (alloc_metabuf metabuf_zero (some (fun _ => 0))).2.pos ∧
    (alloc_metabuf metabuf_zero (some (fun _ => 0))).2.pos <
      (alloc_metabuf metabuf_zero (some (fun _ => 0))).2.size :=
  ⟨((C23_alloc_metabuf_leaves_room
      { buf := some { len := 589815, data := fun _ => 7 }, pos := 589815, size := 589815 }
      (some (fun _ => 0)) (by decide) (by decide)).2.2.2.2.1 (by decide) (by decide)).1
      (fun _ => 0) rfl,
    (C23_alloc_metabuf_leaves_room metabuf_zero (some (fun _ => 0)) (by decide)
      (by decide)).2.2.2.1.2 (Or.inl rfl),
    ((C23_alloc_metabuf_leaves_room metabuf_zero (some (fun _ => 0)) (by decide)
      (by decide)).1 ((C23_alloc_metabuf_leaves_room metabuf_zero (some (fun _ => 0))
        (by decide) (by decide)).2.2.2.1.2 (Or.inl rfl))).2.1,
    ((C23_alloc_metabuf_leaves_room metabuf_zero (some (fun _ => 0)) (by decide)
      (by decide)).1 ((C23_alloc_metabuf_leaves_room metabuf_zero (some (fun _ => 0))
        (by decide) (by decide)).2.2.2.1.2 (Or.inl rfl))).2.2.1⟩

/-- C24: whatever the text, `check_metadatatext` ends in one of four ways: it returns 0,
it returns -1, or it passes the NULL that `strtok` returned to `strcmp` or to `strstr`.  The
last two happen, so a missing token is used: for every line that matches the item header
with a length that is not 0, a text that ends with this line makes `strcmp` receive NULL,
and a text that ends with this line and the base64 data tag makes `strstr` receive NULL. -/
theorem C24_missing_token_is_used (line : List Nat) (hnl : NEWLINE ∉ line)
    (h3 : (sscanf_item line).ret = 3) (hlen : (sscanf_item line).length ≠ 0) :
    (∀ buf, check_metadatatext buf = check_result.returned 0 ∨
      check_metadatatext buf = check_result.returned (-1) ∨
      check_metadatatext buf = check_result.strcmp_null ∨
      check_metadatatext buf = check_result.strstr_null) ∧
    check_metadatatext (some line) = check_result.strcmp_null ∧
    check_metadatatext (some (line ++ [NEWLINE])) = check_result.strcmp_null ∧
    check_metadatatext (some (line ++ NEWLINE :: data_tag)) = check_result.strstr_null ∧
    check_metadatatext (some (line ++ NEWLINE :: (data_tag ++ [NEWLINE]))) =
      check_result.strstr_null := by
  have hne := header_ne_nil line h3
  have hd : strtok data_tag = [data_tag] := by decide
  have hd' : strtok (data_tag ++ [NEWLINE]) = [data_tag] := by decide
  refine ⟨?_, ?_, ?_, ?_, ?_⟩
  · intro buf
    cases buf with
    | none => right; left; rfl
    | some text => exact check_tokens_total _ _ (le_refl _)
  · simp only [check_metadatatext, strtok_single line hnl hne]
    exact check_tokens_header_last line ⟨h3, hlen⟩
  · simp only [check_metadatatext, strtok_line line [] hnl hne, strtok_nil]
    exact check_tokens_header_last line ⟨h3, hlen⟩
  · simp only [check_metadatatext, strtok_line line data_tag hnl hne, hd]
    exact check_tokens_tag_last line ⟨h3, hlen⟩
  · simp only [check_metadatatext, strtok_line line (data_tag ++ [NEWLINE]) hnl hne, hd']
    exact check_tokens_tag_last line ⟨h3, hlen⟩

/-- The item header of an album name with a length of 4, as a text of its own and followed
by the base64 data tag. -/
theorem C24_missing_token_witness :
    check_metadatatext (some
      [60, 105, 116, 101, 109, 62, 60, 116, 121, 112, 101, 62, 55, 51, 55, 51, 54, 101, 54, 51,
        60, 47, 116, 121, 112, 101, 62, 60, 99, 111, 100, 101, 62, 54, 49, 55, 51, 54, 49, 54,
        99, 60, 47, 99, 111, 100, 101, 62, 60, 108, 101, 110, 103, 116, 104, 62, 52, 60, 47,
        108, 101, 110, 103, 116, 104, 62]) = check_result.strcmp_null ∧
    check_metadatatext (some
      ([60, 105, 116, 101, 109, 62, 60, 116, 121, 112, 101, 62, 55, 51, 55, 51, 54, 101, 54, 51,
        60, 47, 116, 121, 112, 101, 62, 60, 99, 111, 100, 101, 62, 54, 49, 55, 51, 54, 49, 54,
        99, 60, 47, 99, 111, 100, 101, 62, 60, 108, 101, 110, 103, 116, 104, 62, 52, 60, 47,
        108, 101, 110, 103, 116, 104, 62] ++ NEWLINE :: data_tag)) =
      check_result.strstr_null :=
  ⟨(C24_missing_token_is_used _ (by decide) (by decide) (by decide)).2.1,
    (C24_missing_token_is_used _ (by decide) (by decide) (by decide)).2.2.2.1⟩

end Pipe
